import Mathlib

/-!
# Argon2 core (`src/core.c`): shallow embedding and verified properties

Machine integers are natural numbers reduced explicitly: `uint32_t` arithmetic is
taken modulo `2^32`, `uint64_t` arithmetic modulo `2^64`.  A C pointer is an
`Option` (`none` is `NULL`).  The five buffer pointers of the context are addresses in the
memory of the caller, which the context carries along, so that buffers may overlap; the
matrix and the local buffers of the functions are objects of their own, held by value.
-/

namespace Argon2

/-! ## Machine arithmetic -/

/-- Reduction of a natural number to a `uint32_t` value. -/
def u32 (n : Nat) : Nat := n % 2 ^ 32

/-- Reduction of a natural number to a `uint64_t` value. -/
def u64 (n : Nat) : Nat := n % 2 ^ 64

/-- Subtraction `a - b` of two `uint32_t` values, wrapping modulo `2^32`. -/
def sub32 (a b : Nat) : Nat := (a + (2 ^ 32 - b % 2 ^ 32)) % 2 ^ 32

/-- Subtraction `a - b` of two `uint64_t` values, wrapping modulo `2^64`. -/
def sub64 (a b : Nat) : Nat := (a + (2 ^ 64 - b % 2 ^ 64)) % 2 ^ 64

/-- The `int` value `-1` converted to `unsigned int`, as in `x + ( c ? ( -1 ) : 0 )`. -/
def minus_one32 : Nat := 2 ^ 32 - 1

/-! ## Constants -/

/-- Modelled from the spec: the macro `ARGON2_SYNC_POINTS` of `argon2.h`, a header that is
not among the sources; the specification fixes `SYNC_POINTS = 4` slices per lane per pass. -/
def ARGON2_SYNC_POINTS : Nat := 4

/-- Memory block size in bytes (`core.c`, line 120). -/
def ARGON2_BLOCK_SIZE : Nat := 1024

/-- Number of 64-bit words of a block (`core.c`, line 121). -/
def ARGON2_WORDS_IN_BLOCK : Nat := ARGON2_BLOCK_SIZE / 8

/-- Version of the algorithm (`core.c`, line 117). -/
def ARGON2_VERSION_NUMBER : Nat := 0x10

/-! ## Data model -/

/-- Modelled from the spec: the enumeration `Argon2_type` of `argon2.h`, a header that is
not among the sources; the specification names the variants Argon2d and Argon2i, and
`other n` is any other value of the C enumeration type, which `argon2_core` tests for. -/
inductive Argon2_type where
  | Argon2_d
  | Argon2_i
  | other (n : Nat)
  deriving DecidableEq

/-- Modelled from the spec: the type `block` of `core.h`, not among the sources; a
1024-byte value viewed as 128 64-bit words, here the list `v` of its words. -/
structure block where
  v : List Nat
  deriving DecidableEq

/-- Modelled from the spec: the type `Argon2_instance_t` of `core.h`, not among the
sources; the configuration built by `argon2_core` (fields in the order of its initializer)
and the memory matrix (`none` is the `NULL` pointer), stored lane after lane. -/
structure Argon2_instance_t where
  memory : Option (List block)
  passes : Nat
  memory_blocks : Nat
  segment_length : Nat
  lane_length : Nat
  lanes : Nat
  threads : Nat
  type : Argon2_type
  print_internals : Bool
  deriving DecidableEq

/-- Modelled from the spec: the type `Argon2_position_t` of `core.h`, not among the
sources; the tuple `(pass, lane, slice, index)`. -/
structure Argon2_position_t where
  pass : Nat
  lane : Nat
  slice : Nat
  index : Nat
  deriving DecidableEq

/-! ## `index_alpha` (lines 187-249) -/

/-- Lines 197-231 of `index_alpha`: the `uint32_t` variable `reference_area_size`. -/
def index_alpha_reference_area_size (inst : Argon2_instance_t) (position : Argon2_position_t)
    (same_lane : Bool) : Nat :=
  if 0 = position.pass then
    if 0 = position.slice then
      sub32 position.index 1
    else
      if same_lane then
        sub32 (u32 (u32 (position.slice * inst.segment_length) + position.index)) 1
      else
        u32 (u32 (position.slice * inst.segment_length)
          + (if position.index = 0 then minus_one32 else 0))
  else
    if same_lane then
      sub32 (u32 (sub32 inst.lane_length inst.segment_length + position.index)) 1
    else
      u32 (sub32 inst.lane_length inst.segment_length
        + (if position.index = 0 then minus_one32 else 0))

/-- Lines 239-244 of `index_alpha`: the `uint32_t` variable `start_position`. -/
def index_alpha_start_position (inst : Argon2_instance_t) (position : Argon2_position_t) : Nat :=
  if 0 ≠ position.pass then
    if position.slice = ARGON2_SYNC_POINTS - 1 then 0
    else u32 ((position.slice + 1) * inst.segment_length)
  else 0

/-- The function `index_alpha`: the column of the reference block.  The mapping of
`pseudo_rand` is done on `uint64_t` values, `reference_area_size - 1` on `uint32_t`
values, and the result is truncated to `uint32_t`. -/
def index_alpha (inst : Argon2_instance_t) (position : Argon2_position_t)
    (pseudo_rand : Nat) (same_lane : Bool) : Nat :=
  let reference_area_size := index_alpha_reference_area_size inst position same_lane
  let relative_position := pseudo_rand
  let relative_position := u64 (relative_position * relative_position) / 2 ^ 32
  let relative_position :=
    sub64 (sub32 reference_area_size 1) (u64 (reference_area_size * relative_position) / 2 ^ 32)
  let start_position := index_alpha_start_position inst position
  u32 (u64 (start_position + relative_position) % inst.lane_length)

/-- A legal position for `index_alpha`: equal segments of at least two blocks, a lane of
four segments that fits a `uint32_t`, a slice in `0..3`, an index inside the segment, and
in the first slice of the first pass an index past the two seed blocks with a reference in
the same lane. -/
structure LegalPosition (inst : Argon2_instance_t) (position : Argon2_position_t)
    (same_lane : Bool) : Prop where
  segment_ge : 2 ≤ inst.segment_length
  lane_eq : inst.lane_length = 4 * inst.segment_length
  lane_le : inst.lane_length ≤ 2 ^ 32 - 1
  slice_lt : position.slice < 4
  index_lt : position.index < inst.segment_length
  first_slice : position.pass = 0 → position.slice = 0 →
    2 ≤ position.index ∧ same_lane = true

/-- The reference area size `R` of the specification (section 4.F, step 1), over the
natural numbers. -/
def spec_reference_area_size (inst : Argon2_instance_t) (position : Argon2_position_t)
    (same_lane : Bool) : Nat :=
  if position.pass = 0 then
    if position.slice = 0 then position.index - 1
    else if same_lane then position.slice * inst.segment_length + position.index - 1
    else position.slice * inst.segment_length - (if position.index = 0 then 1 else 0)
  else
    if same_lane then inst.lane_length - inst.segment_length + position.index - 1
    else inst.lane_length - inst.segment_length - (if position.index = 0 then 1 else 0)

/-- The start offset of the specification (section 4.F, step 3), over the natural numbers. -/
def spec_start_offset (inst : Argon2_instance_t) (position : Argon2_position_t) : Nat :=
  if position.pass = 0 then 0
  else if position.slice = 3 then 0 else (position.slice + 1) * inst.segment_length

/-- The non-uniform mapping of the specification (section 4.F, step 2): the value `z`. -/
def spec_mapping (R J1 : Nat) : Nat := (R * ((J1 * J1) / 2 ^ 32)) / 2 ^ 32


/-- The reference area size `R` of the specification (section 4.F, step 1), over the
integers: no subtraction is truncated. -/
def spec_R (inst : Argon2_instance_t) (position : Argon2_position_t) (same_lane : Bool) : Int :=
  if position.pass = 0 then
    if position.slice = 0 then (position.index : Int) - 1
    else if same_lane then
      (position.slice : Int) * inst.segment_length + position.index - 1
    else (position.slice : Int) * inst.segment_length - (if position.index = 0 then 1 else 0)
  else
    if same_lane then
      (inst.lane_length : Int) - inst.segment_length + position.index - 1
    else (inst.lane_length : Int) - inst.segment_length - (if position.index = 0 then 1 else 0)

/-- The start offset of the specification (section 4.F, step 3), over the integers. -/
def spec_start (inst : Argon2_instance_t) (position : Argon2_position_t) : Int :=
  if position.pass = 0 then 0
  else if position.slice = 3 then 0 else ((position.slice : Int) + 1) * inst.segment_length

/-- The value `z` of the non-uniform mapping of the specification (section 4.F, step 2),
over the integers: `y = (J1 * J1) >> 32`, `z = (R * y) >> 32`. -/
def spec_z (R J1 : Int) : Int := (R * ((J1 * J1) / 2 ^ 32)) / 2 ^ 32

/-! ## Error codes, context and input limits -/

/-- Modelled from the spec: the enumeration of return codes of `argon2.h`, not among the
sources; the constants are those named in `core.c`, and the specification gives each
condition a distinct code. -/
inductive Argon2_ErrorCodes where
  | ARGON2_OK
  | ARGON2_OUTPUT_PTR_NULL
  | ARGON2_OUTPUT_TOO_SHORT
  | ARGON2_OUTPUT_TOO_LONG
  | ARGON2_PWD_TOO_SHORT
  | ARGON2_PWD_TOO_LONG
  | ARGON2_SALT_TOO_SHORT
  | ARGON2_SALT_TOO_LONG
  | ARGON2_AD_TOO_SHORT
  | ARGON2_AD_TOO_LONG
  | ARGON2_SECRET_TOO_SHORT
  | ARGON2_SECRET_TOO_LONG
  | ARGON2_TIME_TOO_SMALL
  | ARGON2_TIME_TOO_LARGE
  | ARGON2_MEMORY_TOO_LITTLE
  | ARGON2_MEMORY_TOO_MUCH
  | ARGON2_LANES_TOO_FEW
  | ARGON2_LANES_TOO_MANY
  | ARGON2_PWD_PTR_MISMATCH
  | ARGON2_SALT_PTR_MISMATCH
  | ARGON2_SECRET_PTR_MISMATCH
  | ARGON2_AD_PTR_MISMATCH
  | ARGON2_MEMORY_ALLOCATION_ERROR
  | ARGON2_FREE_MEMORY_CBK_NULL
  | ARGON2_ALLOCATE_MEMORY_CBK_NULL
  | ARGON2_INCORRECT_PARAMETER
  | ARGON2_INCORRECT_TYPE
  | ARGON2_THREADS_TOO_FEW
  | ARGON2_THREADS_TOO_MANY
  deriving DecidableEq

open Argon2_ErrorCodes

/-- Modelled from the spec: the type `Argon2_Context` of `argon2.h`, not among the sources,
with the fields that `core.c` reads and writes.  A buffer pointer is `none` when it is
`NULL` and otherwise the address of the first byte of the buffer; the length fields are the
declared lengths.  The component `bytes` is not a field of the C structure: it is the
memory of the caller that the pointers refer to, `bytes a` being the byte stored at address
`a`, and it travels with the context so that a function of the context reads and writes
what the pointers designate; two pointers may designate overlapping regions.  The
structure itself, the matrix and the local buffers of the functions (the seed buffer of
`initialize` among them) are objects of their own, apart from this memory.
The allocation callback maps the requested byte count to its return code and to the
pointer it stores; of the release callback only the presence matters (its calls are
recorded as events). -/
structure Argon2_Context where
  out : Option Nat
  outlen : Nat
  pwd : Option Nat
  pwdlen : Nat
  salt : Option Nat
  saltlen : Nat
  secret : Option Nat
  secretlen : Nat
  ad : Option Nat
  adlen : Nat
  t_cost : Nat
  m_cost : Nat
  lanes : Nat
  threads : Nat
  allocate_cbk : Option (Nat → Argon2_ErrorCodes × Option (List block))
  free_cbk : Option Unit
  clear_password : Bool
  clear_secret : Bool
  clear_memory : Bool
  print : Bool
  bytes : Nat → Nat

/-- Modelled from the spec: the macro `ARGON2_MIN_OUTLEN` of `argon2.h` (not among the
sources); the specification gives `outlen ∈ [4, 2^32 - 1]`. -/
def ARGON2_MIN_OUTLEN : Nat := 4

/-- Modelled from the spec: the macro `ARGON2_MAX_OUTLEN` of `argon2.h`; `outlen ≤ 2^32 - 1`. -/
def ARGON2_MAX_OUTLEN : Nat := 0xFFFFFFFF

/-- Modelled from the spec: the macro `ARGON2_MIN_PWD_LENGTH` of `argon2.h`;
`pwdlen ∈ [0, 2^32 - 1]`. -/
def ARGON2_MIN_PWD_LENGTH : Nat := 0

/-- Modelled from the spec: the macro `ARGON2_MAX_PWD_LENGTH` of `argon2.h`. -/
def ARGON2_MAX_PWD_LENGTH : Nat := 0xFFFFFFFF

/-- Modelled from the spec: the macro `ARGON2_MIN_SALT_LENGTH` of `argon2.h`;
`saltlen ∈ [8, 2^32 - 1]`. -/
def ARGON2_MIN_SALT_LENGTH : Nat := 8

/-- Modelled from the spec: the macro `ARGON2_MAX_SALT_LENGTH` of `argon2.h`. -/
def ARGON2_MAX_SALT_LENGTH : Nat := 0xFFFFFFFF

/-- Modelled from the spec: the macro `ARGON2_MIN_SECRET` of `argon2.h`;
`secretlen ∈ [0, 32]`. -/
def ARGON2_MIN_SECRET : Nat := 0

/-- Modelled from the spec: the macro `ARGON2_MAX_SECRET` of `argon2.h`. -/
def ARGON2_MAX_SECRET : Nat := 32

/-- Modelled from the spec: the macro `ARGON2_MIN_AD_LENGTH` of `argon2.h`;
`adlen ∈ [0, 2^32 - 1]`. -/
def ARGON2_MIN_AD_LENGTH : Nat := 0

/-- Modelled from the spec: the macro `ARGON2_MAX_AD_LENGTH` of `argon2.h`. -/
def ARGON2_MAX_AD_LENGTH : Nat := 0xFFFFFFFF

/-- Modelled from the spec: the macro `ARGON2_MAX_MEMORY` of `argon2.h`; `m_cost ≤ 2^32 - 1`. -/
def ARGON2_MAX_MEMORY : Nat := 0xFFFFFFFF

/-- Modelled from the spec: the macro `ARGON2_MIN_TIME` of `argon2.h`; `t_cost ≥ 1`. -/
def ARGON2_MIN_TIME : Nat := 1

/-- Modelled from the spec: the macro `ARGON2_MAX_TIME` of `argon2.h`; the specification
puts no bound on `t_cost` from above, which leaves the largest `uint32_t` value. -/
def ARGON2_MAX_TIME : Nat := 0xFFFFFFFF

/-- Modelled from the spec: the macro `ARGON2_MIN_LANES` of `argon2.h`;
`lanes ∈ [1, 2^24 - 1]`. -/
def ARGON2_MIN_LANES : Nat := 1

/-- Modelled from the spec: the macro `ARGON2_MAX_LANES` of `argon2.h`. -/
def ARGON2_MAX_LANES : Nat := 0xFFFFFF

/-- Modelled from the spec: the macro `ARGON2_MIN_THREADS` of `argon2.h`;
`threads ∈ [1, 2^24 - 1]`. -/
def ARGON2_MIN_THREADS : Nat := 1

/-- Modelled from the spec: the macro `ARGON2_MAX_THREADS` of `argon2.h`. -/
def ARGON2_MAX_THREADS : Nat := 0xFFFFFF

/-- Every integer field of the context holds a `uint32_t` value. -/
def Argon2_Context.fields32 (context : Argon2_Context) : Prop :=
  context.outlen < 2 ^ 32 ∧ context.pwdlen < 2 ^ 32 ∧ context.saltlen < 2 ^ 32
    ∧ context.secretlen < 2 ^ 32 ∧ context.adlen < 2 ^ 32 ∧ context.t_cost < 2 ^ 32
    ∧ context.m_cost < 2 ^ 32 ∧ context.lanes < 2 ^ 32 ∧ context.threads < 2 ^ 32

/-! ## `validate_inputs` (lines 329-491) -/

/-- The function `validate_inputs`.  The macro `ARGON2_MIN_MEMORY` of `argon2.h` is a
compile-time constant whose value the sources do not show; it is the first parameter. -/
def validate_inputs (ARGON2_MIN_MEMORY : Nat) (context : Option Argon2_Context) :
    Argon2_ErrorCodes :=
  match context with
  | none => ARGON2_INCORRECT_PARAMETER
  | some context =>
    if context.out = none then ARGON2_OUTPUT_PTR_NULL
    /- Validate output length -/
    else if ARGON2_MIN_OUTLEN > context.outlen then ARGON2_OUTPUT_TOO_SHORT
    else if ARGON2_MAX_OUTLEN < context.outlen then ARGON2_OUTPUT_TOO_LONG
    /- Validate password length -/
    else if context.pwd = none ∧ 0 ≠ context.pwdlen then ARGON2_PWD_PTR_MISMATCH
    else if context.pwd ≠ none ∧ ARGON2_MIN_PWD_LENGTH ≠ 0
        ∧ ARGON2_MIN_PWD_LENGTH > context.pwdlen then ARGON2_PWD_TOO_SHORT
    else if context.pwd ≠ none ∧ ARGON2_MAX_PWD_LENGTH < context.pwdlen then
      ARGON2_PWD_TOO_LONG
    /- Validate salt length -/
    else if context.salt = none ∧ 0 ≠ context.saltlen then ARGON2_SALT_PTR_MISMATCH
    else if context.salt ≠ none ∧ ARGON2_MIN_SALT_LENGTH > context.saltlen then
      ARGON2_SALT_TOO_SHORT
    else if context.salt ≠ none ∧ ARGON2_MAX_SALT_LENGTH < context.saltlen then
      ARGON2_SALT_TOO_LONG
    /- Validate secret length -/
    else if context.secret = none ∧ 0 ≠ context.secretlen then ARGON2_SECRET_PTR_MISMATCH
    else if context.secret ≠ none ∧ ARGON2_MIN_SECRET > context.secretlen then
      ARGON2_SECRET_TOO_SHORT
    else if context.secret ≠ none ∧ ARGON2_MAX_SECRET < context.secretlen then
      ARGON2_SECRET_TOO_LONG
    /- Validate associated data -/
    else if context.ad = none ∧ 0 ≠ context.adlen then ARGON2_AD_PTR_MISMATCH
    else if context.ad ≠ none ∧ ARGON2_MIN_AD_LENGTH > context.adlen then ARGON2_AD_TOO_SHORT
    else if context.ad ≠ none ∧ ARGON2_MAX_AD_LENGTH < context.adlen then ARGON2_AD_TOO_LONG
    /- Validate memory cost -/
    else if ARGON2_MIN_MEMORY > context.m_cost then ARGON2_MEMORY_TOO_LITTLE
    else if ARGON2_MAX_MEMORY < context.m_cost then ARGON2_MEMORY_TOO_MUCH
    /- Validate time cost -/
    else if ARGON2_MIN_TIME > context.t_cost then ARGON2_TIME_TOO_SMALL
    else if ARGON2_MAX_TIME < context.t_cost then ARGON2_TIME_TOO_LARGE
    /- Validate lanes -/
    else if ARGON2_MIN_LANES > context.lanes then ARGON2_LANES_TOO_FEW
    else if ARGON2_MAX_LANES < context.lanes then ARGON2_LANES_TOO_MANY
    /- Validate threads -/
    else if ARGON2_MIN_THREADS > context.threads then ARGON2_THREADS_TOO_FEW
    else if ARGON2_MAX_THREADS < context.threads then ARGON2_THREADS_TOO_MANY
    else if context.allocate_cbk.isSome ∧ context.free_cbk.isNone then
      ARGON2_FREE_MEMORY_CBK_NULL
    else if context.allocate_cbk.isNone ∧ context.free_cbk.isSome then
      ARGON2_ALLOCATE_MEMORY_CBK_NULL
    else ARGON2_OK

/-! ## Memory alignment in `argon2_core` (lines 642-657) -/

/-- Lines 642-657 of `argon2_core`: the instance built from a validated context.  Every
product is a `uint32_t` product. -/
def argon2_core_instance (context : Argon2_Context) (type : Argon2_type) : Argon2_instance_t :=
  /- Minimum memory_blocks = 8L blocks, where L is the number of lanes -/
  let memory_blocks := context.m_cost
  let memory_blocks :=
    if memory_blocks < u32 (2 * ARGON2_SYNC_POINTS * context.lanes) then
      u32 (2 * ARGON2_SYNC_POINTS * context.lanes)
    else memory_blocks
  let segment_length := memory_blocks / u32 (context.lanes * ARGON2_SYNC_POINTS)
  let print_internals := context.print
  /- Ensure that all segments have equal length -/
  let memory_blocks := u32 (segment_length * u32 (context.lanes * ARGON2_SYNC_POINTS))
  { memory := none
    passes := context.t_cost
    memory_blocks := memory_blocks
    segment_length := segment_length
    lane_length := u32 (segment_length * ARGON2_SYNC_POINTS)
    lanes := context.lanes
    threads := context.threads
    type := type
    print_internals := print_internals }

/-! ## Collaborators, events and byte-level helpers -/

/-- What `core.c` calls but does not define: the hash primitives of `blake2/`, the segment
filler `fill_segment`, the C library allocator, the integer value of a type constant and
the largest `size_t` value.  `blake2b input outlen` is the digest produced by
`blake2b_init`, a sequence of `blake2b_update` calls absorbing `input`, and
`blake2b_final`; `blake2b_long outlen input` is the variable-length hash;
`fill_segment inst position` is the memory matrix left by filling one segment;
`malloc bytes` is the block array obtained from the C library (`none` when it fails). -/
structure Collaborators where
  blake2b : List Nat → Nat → List Nat
  blake2b_long : Nat → List Nat → List Nat
  fill_segment : Argon2_instance_t → Argon2_position_t → Option (List block)
  malloc : Nat → Option (List block)
  type_value : Argon2_type → Nat
  size_max : Nat

/-- The observable calls made by `core.c`, in the order in which they are issued. -/
inductive Event where
  | allocate_cbk (bytes : Nat)
  | malloc (bytes : Nat)
  | free_cbk (memory : Option (List block)) (bytes : Nat)
  | free (memory : List block)
  | pthread_create (position : Argon2_position_t)
  | pthread_join (thread : Nat)
  | initial_kat
  | internal_kat (pass : Nat)
  | print_tag
  deriving DecidableEq

/-- Reduction of a natural number to a `size_t` value. -/
def size_t (E : Collaborators) (n : Nat) : Nat := n % (E.size_max + 1)

/-- Modelled from the spec: the macro `ARGON2_PREHASH_DIGEST_LENGTH` of `core.h`, not
among the sources; the prehash has 64 bytes. -/
def ARGON2_PREHASH_DIGEST_LENGTH : Nat := 64

/-- Modelled from the spec: the macro `ARGON2_PREHASH_SEED_LENGTH` of `core.h`, not among
the sources; the prehash is extended to 72 bytes. -/
def ARGON2_PREHASH_SEED_LENGTH : Nat := 72

/-- Modelled from the spec: the helper `store32` of `blake2/blake2-impl.h`, not among the
sources; it writes a 32-bit value as four bytes, little-endian. -/
def store32 (w : Nat) : List Nat :=
  [w % 256, w / 256 % 256, w / 65536 % 256, w / 16777216 % 256]

/-- The bytes of a 64-bit word in memory (little-endian machine). -/
def store64 (w : Nat) : List Nat := (List.range 8).map (fun i => w / 256 ^ i % 256)

/-- The 64-bit word stored in a list of bytes (little-endian machine). -/
def load64 (bytes : List Nat) : Nat := bytes.foldr (fun b acc => b + 256 * acc) 0

/-- The bytes of a block, as seen through the cast `( uint8_t * ) b.v`. -/
def block_bytes (b : block) : List Nat := b.v.foldr (fun w acc => store64 w ++ acc) []

/-- The block whose `ARGON2_BLOCK_SIZE` bytes are the given ones. -/
def bytes_block (bytes : List Nat) : block :=
  { v := (List.range ARGON2_WORDS_IN_BLOCK).map (fun i => load64 ((bytes.drop (8 * i)).take 8)) }

/-- Writing `data` into a buffer from offset `off` on; the rest of the buffer is kept. -/
def write_bytes (buf : List Nat) (off : Nat) (data : List Nat) : List Nat :=
  buf.take off ++ data ++ buf.drop (off + data.length)

/-- The `len` bytes stored in the memory of the caller from address `ptr` on. -/
def read_bytes (bytes : Nat → Nat) (ptr len : Nat) : List Nat :=
  (List.range len).map (fun i => bytes (ptr + i))

/-- The memory of the caller after `data` has been written from address `ptr` on. -/
def store_bytes (bytes : Nat → Nat) (ptr : Nat) (data : List Nat) : Nat → Nat :=
  fun a => if ptr ≤ a ∧ a < ptr + data.length then data.getD (a - ptr) 0 else bytes a

/-! ## Block primitives (lines 57-75) -/

/-- The function `init_block_value`: every byte of the block is set to `v`. -/
def init_block_value (v : Nat) : block :=
  bytes_block (List.replicate ARGON2_BLOCK_SIZE (v % 256))

/-- The function `copy_block`: the destination receives the words of the source. -/
def copy_block (src : block) : block := { v := src.v.take ARGON2_WORDS_IN_BLOCK }

/-- The function `xor_block`: word-by-word exclusive or into the destination. -/
def xor_block (dst src : block) : block :=
  { v := (List.range ARGON2_WORDS_IN_BLOCK).map
      (fun i => Nat.xor (dst.v.getD i 0) (src.v.getD i 0)) }

/-! ## Memory functions (lines 79-145) -/

/-- The function `secure_wipe_memory`: the first `n` bytes at `v` become zero. -/
def secure_wipe_memory (v : List Nat) (n : Nat) : List Nat :=
  List.replicate (min n v.length) 0 ++ v.drop n

/-- The function `secure_wipe_memory` applied to the memory of the caller: the `n` bytes
from address `v` on become zero, every other byte is kept. -/
def secure_wipe_memory_at (bytes : Nat → Nat) (v n : Nat) : Nat → Nat :=
  fun a => if v ≤ a ∧ a < v + n then 0 else bytes a

/-- The function `secure_wipe_memory` applied to an array of blocks: the first `n` bytes of
the array become zero. -/
def secure_wipe_blocks (memory : List block) (n : Nat) : List block :=
  List.zipWith
    (fun i b =>
      if (i + 1) * ARGON2_BLOCK_SIZE ≤ n then bytes_block (List.replicate ARGON2_BLOCK_SIZE 0)
      else if i * ARGON2_BLOCK_SIZE < n then
        bytes_block (secure_wipe_memory (block_bytes b) (n - i * ARGON2_BLOCK_SIZE))
      else b)
    (List.range memory.length) memory

/-- The function `allocate_memory`, called with the address of the `memory` field of the
instance (never `NULL`): the return code, the pointer stored and the call made. -/
def allocate_memory (E : Collaborators) (m_cost : Nat) :
    Argon2_ErrorCodes × Option (List block) × List Event :=
  let bytes := size_t E (ARGON2_BLOCK_SIZE * m_cost)
  match E.malloc bytes with
  | none => (ARGON2_MEMORY_ALLOCATION_ERROR, none, [Event.malloc bytes])
  | some memory => (ARGON2_OK, some memory, [Event.malloc bytes])

/-- The function `clear_memory`: the matrix of the instance after the call. -/
def clear_memory (E : Collaborators) (inst : Argon2_instance_t) (clear : Bool) :
    Argon2_instance_t :=
  match inst.memory with
  | some memory =>
    if clear then
      { inst with memory := some (secure_wipe_blocks memory
          (size_t E (ARGON2_BLOCK_SIZE * inst.memory_blocks))) }
    else inst
  | none => inst

/-- The function `free_memory`: the calls made. -/
def free_memory (memory : Option (List block)) : List Event :=
  match memory with
  | some memory => [Event.free memory]
  | none => []

/-! ## `finalize` (lines 147-185) -/

/-- The block at an index of the matrix (an all-zero-length block outside of it). -/
def memory_block (memory : Option (List block)) (i : Nat) : block :=
  match memory with
  | some memory => memory.getD i { v := [] }
  | none => { v := [] }

/-- Lines 151-160 of `finalize`: the last block of lane 0 with the last block of every
other lane XOR-ed into it. -/
def finalize_blockhash (inst : Argon2_instance_t) : block :=
  let blockhash := copy_block (memory_block inst.memory (inst.lane_length - 1))
  (List.range' 1 (inst.lanes - 1)).foldl
    (fun blockhash l =>
      let last_block_in_lane := u32 (u32 (l * inst.lane_length) + sub32 inst.lane_length 1)
      xor_block blockhash (memory_block inst.memory last_block_in_lane))
    blockhash

/-- The function `finalize`: the context (in whose memory the tag is written at `out`), the
instance (whose matrix is cleared on request) and the calls made.  The matrix is released
at the end; the instance keeps its last contents. -/
def finalize (E : Collaborators) (context : Option Argon2_Context)
    (inst : Option Argon2_instance_t) :
    Option Argon2_Context × Option Argon2_instance_t × List Event :=
  match context, inst with
  | some context, some inst =>
    let blockhash := finalize_blockhash inst
    /- Hash the result -/
    let tag := (E.blake2b_long context.outlen
      ((block_bytes blockhash).take ARGON2_BLOCK_SIZE)).take context.outlen
    let context' :=
      { context with
        bytes :=
          match context.out with
          | some out => store_bytes context.bytes out tag
          | none => context.bytes }
    let trace := if context'.print then [Event.print_tag] else []
    /- Clear memory -/
    let inst := clear_memory E inst context'.clear_memory
    /- Deallocate the memory -/
    let trace :=
      match context'.free_cbk with
      | some _ =>
        trace ++ [Event.free_cbk inst.memory (size_t E (inst.memory_blocks * ARGON2_BLOCK_SIZE))]
      | none => trace ++ free_memory inst.memory
    (some context', some inst, trace)
  | context, inst => (context, inst, [])

/-! ## `fill_memory_blocks` (lines 251-327) -/

/-- Lines 272-294 of `fill_memory_blocks`: the loop that creates one worker per lane and,
past the limit, first joins the worker created `threads` lanes before.  The effect of a
worker on the matrix is that of `fill_segment`, applied where the worker is created (the
non-thread equivalent given in the source). -/
def fill_slice_create (E : Collaborators) (r s : Nat) (inst : Argon2_instance_t) :
    Argon2_instance_t × List Event :=
  (List.range inst.lanes).foldl
    (fun (state : Argon2_instance_t × List Event) l =>
      let joined := if l ≥ state.1.threads then [Event.pthread_join (sub32 l state.1.threads)]
        else []
      let position : Argon2_position_t := { pass := r, lane := l, slice := s, index := 0 }
      ({ state.1 with memory := E.fill_segment state.1 position },
        state.2 ++ joined ++ [Event.pthread_create position]))
    (inst, [])

/-- Lines 296-306 of `fill_memory_blocks`: the loop joining the remaining workers, from
`lanes - threads` (a `uint32_t` difference) up to `lanes`. -/
def fill_slice_join (inst : Argon2_instance_t) : List Event :=
  (List.range' (sub32 inst.lanes inst.threads)
    (inst.lanes - sub32 inst.lanes inst.threads)).map Event.pthread_join

/-- One iteration of the loop over the slices: workers created, workers joined. -/
def fill_slice (E : Collaborators) (r s : Nat) (inst : Argon2_instance_t) :
    Argon2_instance_t × List Event :=
  let created := fill_slice_create E r s inst
  (created.1, created.2 ++ fill_slice_join created.1)

/-- One iteration of the loop over the passes: the four slices, then the optional dump
of the matrix. -/
def fill_pass (E : Collaborators) (r : Nat) (inst : Argon2_instance_t) :
    Argon2_instance_t × List Event :=
  let filled := (List.range ARGON2_SYNC_POINTS).foldl
    (fun (state : Argon2_instance_t × List Event) s =>
      let slice := fill_slice E r s state.1
      (slice.1, state.2 ++ slice.2))
    (inst, [])
  (filled.1, filled.2 ++ (if filled.1.print_internals then [Event.internal_kat r] else []))

/-- The function `fill_memory_blocks`. -/
def fill_memory_blocks (E : Collaborators) (inst : Option Argon2_instance_t) :
    Option Argon2_instance_t × List Event :=
  match inst with
  | none => (none, [])
  | some inst =>
    let filled := (List.range inst.passes).foldl
      (fun (state : Argon2_instance_t × List Event) r =>
        let pass := fill_pass E r state.1
        (pass.1, state.2 ++ pass.2))
      (inst, [])
    (some filled.1, filled.2)

/-! ## `fill_first_blocks` (lines 493-505) -/

/-- The function `fill_first_blocks`: the seed buffer and the matrix after the call. -/
def fill_first_blocks (E : Collaborators) (blockhash : List Nat) (inst : Argon2_instance_t) :
    List Nat × Argon2_instance_t :=
  (List.range inst.lanes).foldl
    (fun (state : List Nat × Argon2_instance_t) l =>
      let blockhash := write_bytes state.1 ARGON2_PREHASH_DIGEST_LENGTH (store32 0)
      let blockhash := write_bytes blockhash (ARGON2_PREHASH_DIGEST_LENGTH + 4) (store32 l)
      let memory := state.2.memory.map (fun memory =>
        memory.set (u32 (l * state.2.lane_length))
          (bytes_block (E.blake2b_long ARGON2_BLOCK_SIZE
            (blockhash.take ARGON2_PREHASH_SEED_LENGTH))))
      let blockhash := write_bytes blockhash ARGON2_PREHASH_DIGEST_LENGTH (store32 1)
      let memory := memory.map (fun memory =>
        memory.set (u32 (u32 (l * state.2.lane_length) + 1))
          (bytes_block (E.blake2b_long ARGON2_BLOCK_SIZE
            (blockhash.take ARGON2_PREHASH_SEED_LENGTH))))
      (blockhash, { state.2 with memory := memory }))
    (blockhash, inst)

/-! ## `initial_hash` (lines 507-582) -/

/-- The byte string `ptr[0..len)` of a buffer; the empty string when the pointer is
`NULL`. -/
def absorbed (bytes : Nat → Nat) (ptr : Option Nat) (len : Nat) : List Nat :=
  match ptr with
  | some ptr => read_bytes bytes ptr len
  | none => []

/-- The message of the specification (section 4.D), read off a context: the fields in the
order `lanes, outlen, m_cost, t_cost, version, type, pwdlen, pwd, saltlen, salt, secretlen,
secret, adlen, ad`, every integer as four little-endian bytes. -/
def initial_hash_input (E : Collaborators) (context : Argon2_Context) (type : Argon2_type) :
    List Nat :=
  store32 context.lanes ++ store32 context.outlen ++ store32 context.m_cost
    ++ store32 context.t_cost ++ store32 ARGON2_VERSION_NUMBER
    ++ store32 (u32 (E.type_value type))
    ++ store32 context.pwdlen ++ absorbed context.bytes context.pwd context.pwdlen
    ++ store32 context.saltlen ++ absorbed context.bytes context.salt context.saltlen
    ++ store32 context.secretlen ++ absorbed context.bytes context.secret context.secretlen
    ++ store32 context.adlen ++ absorbed context.bytes context.ad context.adlen

/-- The effect of lines 540-549 of `initial_hash` on the context: the password is wiped
and its length zeroed when `clear_password` is set and the pointer is not `NULL`. -/
def initial_hash_clear_password (context : Argon2_Context) : Argon2_Context :=
  match context.pwd with
  | some pwd =>
    if context.clear_password then
      { context with bytes := secure_wipe_memory_at context.bytes pwd context.pwdlen,
                     pwdlen := 0 }
    else context
  | none => context

/-- The effect of lines 562-571 of `initial_hash` on the context: the secret is wiped and
its length zeroed when `clear_secret` is set and the pointer is not `NULL`. -/
def initial_hash_clear_secret (context : Argon2_Context) : Argon2_Context :=
  match context.secret with
  | some secret =>
    if context.clear_secret then
      { context with bytes := secure_wipe_memory_at context.bytes secret context.secretlen,
                     secretlen := 0 }
    else context
  | none => context

/-- Modelled from the spec: the state `blake2b_state` of the streaming hash of `blake2/`,
not among the sources; the digest length fixed by `blake2b_init` and the bytes absorbed so
far. -/
structure blake2b_state where
  outlen : Nat
  absorbed : List Nat

/-- Modelled from the spec: the function `blake2b_init` of `blake2/`, not among the sources;
it starts a streaming digest of `outlen` bytes. -/
def blake2b_init (outlen : Nat) : blake2b_state :=
  { outlen := outlen, absorbed := [] }

/-- Modelled from the spec: the function `blake2b_update` of `blake2/`, not among the
sources; it absorbs the first `inlen` bytes of `input`, the bytes found at the pointer it
is given. -/
def blake2b_update (S : blake2b_state) (input : List Nat) (inlen : Nat) : blake2b_state :=
  { S with absorbed := S.absorbed ++ input.take inlen }

/-- Modelled from the spec: the function `blake2b_final` of `blake2/`, not among the
sources; the `outlen` bytes of the BLAKE2b digest of everything absorbed. -/
def blake2b_final (E : Collaborators) (S : blake2b_state) (outlen : Nat) : List Nat :=
  (E.blake2b S.absorbed outlen).take outlen

/-- Lines 540-549 of `initial_hash`: the password is absorbed, then wiped with its length
zeroed when `clear_password` is set; nothing happens when the pointer is `NULL`. -/
def initial_hash_pwd (BlakeHash : blake2b_state) (context : Argon2_Context) :
    blake2b_state × Argon2_Context :=
  match context.pwd with
  | some pwd =>
    let BlakeHash := blake2b_update BlakeHash
      (read_bytes context.bytes pwd context.pwdlen) context.pwdlen
    if context.clear_password then
      (BlakeHash,
        { context with bytes := secure_wipe_memory_at context.bytes pwd context.pwdlen,
                       pwdlen := 0 })
    else (BlakeHash, context)
  | none => (BlakeHash, context)

/-- Lines 562-571 of `initial_hash`: the secret is absorbed, then wiped with its length
zeroed when `clear_secret` is set; nothing happens when the pointer is `NULL`. -/
def initial_hash_secret (BlakeHash : blake2b_state) (context : Argon2_Context) :
    blake2b_state × Argon2_Context :=
  match context.secret with
  | some secret =>
    let BlakeHash := blake2b_update BlakeHash
      (read_bytes context.bytes secret context.secretlen) context.secretlen
    if context.clear_secret then
      (BlakeHash,
        { context with bytes := secure_wipe_memory_at context.bytes secret context.secretlen,
                       secretlen := 0 })
    else (BlakeHash, context)
  | none => (BlakeHash, context)

/-- The function `initial_hash`: the seed buffer, whose first 64 bytes receive the
prehash, and the context after the call.  The statements are those of the source, in
order; every value is read from the context, and every buffer from the memory, as they
are at that statement: a buffer absorbed after a wipe is read from the wiped memory.  The
seed buffer is the local array of `initialize`, an object apart from the memory of the
caller. -/
def initial_hash (E : Collaborators) (blockhash : Option (List Nat))
    (context : Option Argon2_Context) (type : Argon2_type) :
    Option (List Nat) × Option Argon2_Context :=
  match context, blockhash with
  | some context, some blockhash =>
    let BlakeHash := blake2b_init ARGON2_PREHASH_DIGEST_LENGTH
    let BlakeHash := blake2b_update BlakeHash (store32 context.lanes) 4
    let BlakeHash := blake2b_update BlakeHash (store32 context.outlen) 4
    let BlakeHash := blake2b_update BlakeHash (store32 context.m_cost) 4
    let BlakeHash := blake2b_update BlakeHash (store32 context.t_cost) 4
    let BlakeHash := blake2b_update BlakeHash (store32 ARGON2_VERSION_NUMBER) 4
    let BlakeHash := blake2b_update BlakeHash (store32 (u32 (E.type_value type))) 4
    let BlakeHash := blake2b_update BlakeHash (store32 context.pwdlen) 4
    let pwd_step := initial_hash_pwd BlakeHash context
    let BlakeHash := pwd_step.1
    let context := pwd_step.2
    let BlakeHash := blake2b_update BlakeHash (store32 context.saltlen) 4
    let BlakeHash :=
      match context.salt with
      | some salt =>
        blake2b_update BlakeHash (read_bytes context.bytes salt context.saltlen)
          context.saltlen
      | none => BlakeHash
    let BlakeHash := blake2b_update BlakeHash (store32 context.secretlen) 4
    let secret_step := initial_hash_secret BlakeHash context
    let BlakeHash := secret_step.1
    let context := secret_step.2
    let BlakeHash := blake2b_update BlakeHash (store32 context.adlen) 4
    let BlakeHash :=
      match context.ad with
      | some ad =>
        blake2b_update BlakeHash (read_bytes context.bytes ad context.adlen) context.adlen
      | none => BlakeHash
    (some (write_bytes blockhash 0 (blake2b_final E BlakeHash ARGON2_PREHASH_DIGEST_LENGTH)),
      some context)
  | context, blockhash => (blockhash, context)

/-! ## The function named `initialize` in the source (lines 584-625) -/

/-- The function `initialize` of the source (the name is reserved here): the return
code, the instance with its matrix allocated and seeded, the context after the initial
hash, and the calls made.  The callback is asked for `memory_blocks * ARGON2_BLOCK_SIZE`
bytes, a `uint32_t` product. -/
def initialise (E : Collaborators) (inst : Option Argon2_instance_t)
    (context : Option Argon2_Context) :
    Argon2_ErrorCodes × Option Argon2_instance_t × Option Argon2_Context × List Event :=
  match inst, context with
  | some inst, some context =>
    /- 1. Memory allocation -/
    let allocation : Argon2_ErrorCodes × Option (List block) × List Event :=
      match context.allocate_cbk with
      | some allocate_cbk =>
        let bytes := u32 (inst.memory_blocks * ARGON2_BLOCK_SIZE)
        ((allocate_cbk bytes).1, (allocate_cbk bytes).2, [Event.allocate_cbk bytes])
      | none => allocate_memory E inst.memory_blocks
    let inst := { inst with memory := allocation.2.1 }
    if ARGON2_OK ≠ allocation.1 then (allocation.1, some inst, some context, allocation.2.2)
    else
      /- 2. Initial hashing: H_0 + 8 extra bytes to produce the first blocks -/
      let blockhash := List.replicate ARGON2_PREHASH_SEED_LENGTH 0
      let hashed := initial_hash E (some blockhash) (some context) inst.type
      let blockhash := hashed.1.getD blockhash
      let context := hashed.2.getD context
      /- Zeroing 8 extra bytes -/
      let blockhash := write_bytes blockhash ARGON2_PREHASH_DIGEST_LENGTH
        (List.replicate (ARGON2_PREHASH_SEED_LENGTH - ARGON2_PREHASH_DIGEST_LENGTH) 0)
      let trace := allocation.2.2 ++ (if context.print then [Event.initial_kat] else [])
      /- 3. Creating first blocks, we always have at least two blocks in a slice -/
      let first := fill_first_blocks E blockhash inst
      (ARGON2_OK, some first.2, some context, trace)
  | inst, context => (ARGON2_INCORRECT_PARAMETER, inst, context, [])

/-! ## `argon2_core` (lines 627-674) -/

/-- What a call of `argon2_core` leaves behind: the return code, the context after the
call and the calls made (allocation, release, workers, printing), in order. -/
structure Outcome where
  result : Argon2_ErrorCodes
  context : Option Argon2_Context
  trace : List Event

/-- The function `argon2_core`. -/
def argon2_core (E : Collaborators) (ARGON2_MIN_MEMORY : Nat)
    (context : Option Argon2_Context) (type : Argon2_type) : Outcome :=
  /- 1. Validate all inputs -/
  let result := validate_inputs ARGON2_MIN_MEMORY context
  if ARGON2_OK ≠ result then { result := result, context := context, trace := [] }
  else if Argon2_type.Argon2_d ≠ type ∧ Argon2_type.Argon2_i ≠ type then
    { result := ARGON2_INCORRECT_TYPE, context := context, trace := [] }
  else
    match context with
    | none => { result := result, context := none, trace := [] }
    | some valid =>
      /- 2. Align memory size -/
      let inst := argon2_core_instance valid type
      /- 3. Initialization: Hashing inputs, allocating memory, filling first blocks -/
      let init := initialise E (some inst) context
      if ARGON2_OK ≠ init.1 then
        { result := init.1, context := init.2.2.1, trace := init.2.2.2 }
      else
        /- 4. Filling memory -/
        let filled := fill_memory_blocks E init.2.1
        /- 5. Finalization -/
        let final := finalize E init.2.2.1 filled.1
        { result := ARGON2_OK, context := final.1, trace := init.2.2.2 ++ filled.2 ++ final.2.2 }

/-! ## Conditions on a context -/

/-- The output checks pass: `out` is not `NULL` and `outlen ≥ 4`. -/
def out_ok (context : Argon2_Context) : Prop :=
  context.out ≠ none ∧ 4 ≤ context.outlen

/-- The password is consistent: not `NULL`, or `NULL` with `pwdlen = 0`. -/
def pwd_ok (context : Argon2_Context) : Prop :=
  context.pwd ≠ none ∨ context.pwdlen = 0

/-- The salt passes the salt checks: not `NULL` with `saltlen ≥ 8`, or `NULL` with
`saltlen = 0`. -/
def salt_ok (context : Argon2_Context) : Prop :=
  (context.salt ≠ none ∧ 8 ≤ context.saltlen) ∨ (context.salt = none ∧ context.saltlen = 0)

/-- The secret passes the secret checks: not `NULL` with `secretlen ≤ 32`, or `NULL` with
`secretlen = 0`. -/
def secret_ok (context : Argon2_Context) : Prop :=
  (context.secret ≠ none ∧ context.secretlen ≤ 32)
    ∨ (context.secret = none ∧ context.secretlen = 0)

/-- The associated data are consistent: not `NULL`, or `NULL` with `adlen = 0`. -/
def ad_ok (context : Argon2_Context) : Prop :=
  context.ad ≠ none ∨ context.adlen = 0

/-- Address `a` lies in the region `ptr[0..len)`; a `NULL` pointer has no region. -/
def in_region (ptr : Option Nat) (len a : Nat) : Bool :=
  match ptr with
  | some p => decide (p ≤ a ∧ a < p + len)
  | none => false

/-- The regions `p[0..plen)` and `q[0..qlen)` have no address in common: one of them is
empty or has a `NULL` pointer, or one ends before the other begins. -/
def no_overlap (p : Option Nat) (plen : Nat) (q : Option Nat) (qlen : Nat) : Bool :=
  match p, q with
  | some a, some b => decide (plen = 0 ∨ qlen = 0 ∨ a + plen ≤ b ∨ b + qlen ≤ a)
  | _, _ => true

/-- Address `a` lies in a region that `initial_hash` wipes: in `pwd[0..pwdlen)` with
`clear_password` set, or in `secret[0..secretlen)` with `clear_secret` set. -/
def wiped (context : Argon2_Context) (a : Nat) : Bool :=
  (context.clear_password && in_region context.pwd context.pwdlen a)
    || (context.clear_secret && in_region context.secret context.secretlen a)

/-- The buffers that `initial_hash` absorbs after a wipe do not overlap the wiped region:
with `clear_password` set, `salt`, `secret` and `ad` do not overlap `pwd[0..pwdlen)`; with
`clear_secret` set, `ad` does not overlap `secret[0..secretlen)`. -/
def absorbed_apart (context : Argon2_Context) : Bool :=
  (!context.clear_password
      || (no_overlap context.pwd context.pwdlen context.salt context.saltlen
        && no_overlap context.pwd context.pwdlen context.secret context.secretlen
        && no_overlap context.pwd context.pwdlen context.ad context.adlen))
    && (!context.clear_secret
      || no_overlap context.secret context.secretlen context.ad context.adlen)

/-- Every field of the context other than `pwdlen` and `secretlen` has the same value in
both contexts: the five pointers, the other lengths, the costs, the callbacks and the
flags.  The memory is not a field. -/
def same_but_lengths (before after : Argon2_Context) : Prop :=
  after.out = before.out ∧ after.outlen = before.outlen
    ∧ after.pwd = before.pwd ∧ after.salt = before.salt ∧ after.saltlen = before.saltlen
    ∧ after.secret = before.secret ∧ after.ad = before.ad ∧ after.adlen = before.adlen
    ∧ after.t_cost = before.t_cost ∧ after.m_cost = before.m_cost
    ∧ after.lanes = before.lanes ∧ after.threads = before.threads
    ∧ after.allocate_cbk = before.allocate_cbk ∧ after.free_cbk = before.free_cbk
    ∧ after.clear_password = before.clear_password ∧ after.clear_secret = before.clear_secret
    ∧ after.clear_memory = before.clear_memory ∧ after.print = before.print

/-! ## Conditions on an instance and the finalizer of the specification -/

/-- A valid instance: at least one lane and one column, `memory_blocks = lanes *
lane_length` held in a `uint32_t`, and a matrix of that many blocks of 128 words each. -/
structure ValidInstance (inst : Argon2_instance_t) (memory : List block) : Prop where
  lanes_pos : 1 ≤ inst.lanes
  lane_length_pos : 1 ≤ inst.lane_length
  blocks_eq : inst.memory_blocks = inst.lanes * inst.lane_length
  blocks_lt : inst.memory_blocks < 2 ^ 32
  memory_eq : inst.memory = some memory
  memory_length : memory.length = inst.memory_blocks
  block_words : ∀ b ∈ memory, b.v.length = ARGON2_WORDS_IN_BLOCK

/-- The last block of lane `l`: column `lane_length - 1`. -/
def spec_last_block (inst : Argon2_instance_t) (l : Nat) : block :=
  memory_block inst.memory (l * inst.lane_length + (inst.lane_length - 1))

/-- The accumulator of the specification (section 4.I): word by word, the exclusive or of
the last blocks of all lanes `0 .. lanes - 1`. -/
def spec_xor_last_blocks (inst : Argon2_instance_t) : block :=
  { v := (List.range ARGON2_WORDS_IN_BLOCK).map (fun i =>
      ((List.range inst.lanes).map (fun l => (spec_last_block inst l).v.getD i 0)).foldl
        Nat.xor 0) }

/-! ## The first blocks of the specification -/

/-- The body of the loop of `fill_first_blocks` (lines 498-503) for lane `l`. -/
def fill_first_blocks_lane (E : Collaborators) (state : List Nat × Argon2_instance_t)
    (l : Nat) : List Nat × Argon2_instance_t :=
  let blockhash := write_bytes state.1 ARGON2_PREHASH_DIGEST_LENGTH (store32 0)
  let blockhash := write_bytes blockhash (ARGON2_PREHASH_DIGEST_LENGTH + 4) (store32 l)
  let memory := state.2.memory.map (fun memory =>
    memory.set (u32 (l * state.2.lane_length))
      (bytes_block (E.blake2b_long ARGON2_BLOCK_SIZE
        (blockhash.take ARGON2_PREHASH_SEED_LENGTH))))
  let blockhash := write_bytes blockhash ARGON2_PREHASH_DIGEST_LENGTH (store32 1)
  let memory := memory.map (fun memory =>
    memory.set (u32 (u32 (l * state.2.lane_length) + 1))
      (bytes_block (E.blake2b_long ARGON2_BLOCK_SIZE
        (blockhash.take ARGON2_PREHASH_SEED_LENGTH))))
  (blockhash, { state.2 with memory := memory })

/-- The first blocks of the specification (section 4.E): the 1024-byte variable-length
hash of the 72-byte seed `H0 || LE32(i) || LE32(l)`, as a block. -/
def spec_first_block (E : Collaborators) (H0 : List Nat) (i l : Nat) : block :=
  bytes_block (E.blake2b_long 1024 (H0 ++ store32 i ++ store32 l))

/-! ## Workers in flight -/

/-- The thread calls of a trace: `some l` for the creation of the worker of lane `l`,
`none` otherwise. -/
def created_lanes (trace : List Event) : List Nat :=
  trace.filterMap (fun e =>
    match e with
    | Event.pthread_create position => some position.lane
    | _ => none)

/-- The threads joined in a trace, in order. -/
def joined_threads (trace : List Event) : List Nat :=
  trace.filterMap (fun e =>
    match e with
    | Event.pthread_join thread => some thread
    | _ => none)

/-- The body of the creation loop of `fill_memory_blocks` (lines 275-293) for lane `l`. -/
def fill_slice_create_lane (E : Collaborators) (r s : Nat)
    (state : Argon2_instance_t × List Event) (l : Nat) : Argon2_instance_t × List Event :=
  let joined := if l ≥ state.1.threads then [Event.pthread_join (sub32 l state.1.threads)]
    else []
  let position : Argon2_position_t := { pass := r, lane := l, slice := s, index := 0 }
  ({ state.1 with memory := E.fill_segment state.1 position },
    state.2 ++ joined ++ [Event.pthread_create position])

/-- The calls issued by the creation loop for the lanes `0 .. k - 1`, with the thread
index of each join as a natural number. -/
def create_events (r s threads : Nat) : Nat → List Event
  | 0 => []
  | k + 1 =>
    create_events r s threads k
      ++ (if k ≥ threads then [Event.pthread_join (k - threads)] else [])
      ++ [Event.pthread_create { pass := r, lane := k, slice := s, index := 0 }]

/-- The workers in flight after a sequence of calls: the lanes whose worker has been
created and not yet joined, oldest first. -/
def in_flight (trace : List Event) : List Nat :=
  (created_lanes trace).filter (fun l => decide (l ∉ joined_threads trace))

/-- The cap on the workers of one slice: at every point of the sequence of calls at most
`threads` workers are in flight, and a worker of a lane `l ≥ threads` is created right
after the join of lane `l - threads`, which at that point is the oldest worker in flight
(the workers in flight being those of the lanes `l - threads .. l - 1`). -/
def WorkerCap (threads : Nat) (events : List Event) : Prop :=
  (∀ n, (in_flight (events.take n)).length ≤ threads)
    ∧ (∀ n position, events[n]? = some (Event.pthread_create position) →
        threads ≤ position.lane →
        ∃ m, n = m + 1
          ∧ events[m]? = some (Event.pthread_join (position.lane - threads))
          ∧ (in_flight (events.take m)).head? = some (position.lane - threads)
          ∧ in_flight (events.take m) = List.range' (position.lane - threads) threads)

/-! ## Example inputs -/

/-- The memory of the first end-to-end scenario of the specification: password
`32 x 0x01` at address 100, salt `16 x 0x02` at address 200, secret `8 x 0x03` at address
300, associated data `12 x 0x04` at address 400, zero bytes elsewhere (the output buffer
is at address 500). -/
def kat_bytes : Nat → Nat :=
  store_bytes (store_bytes (store_bytes (store_bytes (fun _ => 0)
    100 (List.replicate 32 1)) 200 (List.replicate 16 2)) 300 (List.replicate 8 3))
    400 (List.replicate 12 4)

/-- The context of the first end-to-end scenario of the specification: password `32 x 0x01`,
salt `16 x 0x02`, secret `8 x 0x03`, associated data `12 x 0x04`, `m_cost = 16`,
`t_cost = 3`, four lanes, a 32-byte tag. -/
def kat_context : Argon2_Context :=
  { out := some 500, outlen := 32
    pwd := some 100, pwdlen := 32
    salt := some 200, saltlen := 16
    secret := some 300, secretlen := 8
    ad := some 400, adlen := 12
    t_cost := 3, m_cost := 16, lanes := 4, threads := 4
    allocate_cbk := none, free_cbk := none
    clear_password := false, clear_secret := false, clear_memory := false, print := false
    bytes := kat_bytes }

/-- A context without salt: the context of the first scenario with a `NULL` salt pointer
and `saltlen = 0`. -/
def null_salt_context : Argon2_Context :=
  { kat_context with salt := none, saltlen := 0 }

/-- The context of the fifth scenario of the specification: a `NULL` password pointer with
`pwdlen = 5`, salt `16 x 0x02`, no secret, no associated data, `m_cost = 16`, `t_cost = 3`,
one lane, a 32-byte tag. -/
def null_pwd_context : Argon2_Context :=
  { out := some 500, outlen := 32
    pwd := none, pwdlen := 5
    salt := some 200, saltlen := 16
    secret := none, secretlen := 0
    ad := none, adlen := 0
    t_cost := 3, m_cost := 16, lanes := 1, threads := 1
    allocate_cbk := none, free_cbk := none
    clear_password := false, clear_secret := false, clear_memory := false, print := false
    bytes := store_bytes (fun _ => 0) 200 (List.replicate 16 2) }

/-- The memory of the sixth scenario: the password `password` at address 100, a salt of
seven bytes `0x02` at address 200, the secret `1, 2, 3` at address 300, zero bytes
elsewhere. -/
def short_salt_bytes : Nat → Nat :=
  store_bytes (store_bytes (store_bytes (fun _ => 0)
    100 [112, 97, 115, 115, 119, 111, 114, 100]) 200 (List.replicate 7 2)) 300 [1, 2, 3]

/-- The context of the sixth scenario of the specification: a 7-byte salt, with a password
and a secret that are to be wiped. -/
def short_salt_context : Argon2_Context :=
  { out := some 500, outlen := 32
    pwd := some 100, pwdlen := 8
    salt := some 200, saltlen := 7
    secret := some 300, secretlen := 3
    ad := none, adlen := 0
    t_cost := 3, m_cost := 16, lanes := 1, threads := 1
    allocate_cbk := none, free_cbk := none
    clear_password := true, clear_secret := true, clear_memory := false, print := false
    bytes := short_salt_bytes }

/-- An instance with segments of four blocks. -/
def example_instance : Argon2_instance_t :=
  { memory := none, passes := 3, memory_blocks := 64, segment_length := 4, lane_length := 16
    lanes := 4, threads := 4, type := Argon2_type.Argon2_d, print_internals := false }

/-- The position of pass 1, lane 0, slice 2, index 1. -/
def example_position : Argon2_position_t :=
  { pass := 1, lane := 0, slice := 2, index := 1 }

/-- Collaborators that return zero bytes and unchanged memory, with an allocator that
always succeeds. -/
def example_collaborators : Collaborators :=
  { blake2b := fun _ outlen => List.replicate outlen 0
    blake2b_long := fun outlen _ => List.replicate outlen 0
    fill_segment := fun inst _ => inst.memory
    malloc := fun bytes => some (List.replicate (bytes / ARGON2_BLOCK_SIZE) { v := [] })
    type_value := fun type =>
      match type with
      | Argon2_type.Argon2_d => 0
      | Argon2_type.Argon2_i => 1
      | Argon2_type.other n => n
    size_max := 2 ^ 64 - 1 }

/-- The context of the first scenario with the password and the secret to be wiped. -/
def wipe_context : Argon2_Context :=
  { kat_context with clear_password := true, clear_secret := true }

/-- The position of pass 1, lane 1, slice 0, index 0. -/
def example_position_other : Argon2_position_t :=
  { pass := 1, lane := 1, slice := 0, index := 0 }

/-- A context with allocator callbacks and `m_cost = 2^22`: the context of the first
scenario with one lane, one thread and one pass. -/
def large_context : Argon2_Context :=
  { kat_context with
    m_cost := 4194304, t_cost := 1, lanes := 1, threads := 1
    allocate_cbk := some (fun bytes =>
      (ARGON2_OK, some (List.replicate (bytes / ARGON2_BLOCK_SIZE) { v := [] })))
    free_cbk := some () }

/-- A context with more threads than lanes: the context of the first scenario with
`m_cost = 8`, one pass, one lane and two threads. -/
def two_threads_context : Argon2_Context :=
  { kat_context with m_cost := 8, t_cost := 1, lanes := 1, threads := 2 }

/-- A matrix of two all-one blocks, with the instance that owns it. -/
def small_instance : Argon2_instance_t :=
  { memory := some (List.replicate 2 { v := List.replicate 128 1 })
    passes := 1, memory_blocks := 2, segment_length := 0, lane_length := 2
    lanes := 1, threads := 1, type := Argon2_type.Argon2_d, print_internals := false }

/-- An instance of two lanes of two columns, with a matrix of four blocks. -/
def two_lane_instance : Argon2_instance_t :=
  { memory := some [{ v := List.replicate 128 1 }, { v := List.replicate 128 2 },
      { v := List.replicate 128 3 }, { v := List.replicate 128 4 }]
    passes := 1, memory_blocks := 4, segment_length := 0, lane_length := 2
    lanes := 2, threads := 1, type := Argon2_type.Argon2_d, print_internals := false }

/-- An instance of three lanes and two threads, without a matrix. -/
def three_lane_instance : Argon2_instance_t :=
  { memory := none, passes := 1, memory_blocks := 24, segment_length := 2, lane_length := 8
    lanes := 3, threads := 2, type := Argon2_type.Argon2_d, print_internals := false }

/-- A context whose salt pointer is the password pointer: the password `password` at
address 100, also declared as the salt, to be wiped; no secret, no associated data, one
lane, a 32-byte tag at address 500. -/
def aliased_salt_context : Argon2_Context :=
  { out := some 500, outlen := 32
    pwd := some 100, pwdlen := 8
    salt := some 100, saltlen := 8
    secret := none, secretlen := 0
    ad := none, adlen := 0
    t_cost := 1, m_cost := 8, lanes := 1, threads := 1
    allocate_cbk := none, free_cbk := none
    clear_password := true, clear_secret := false, clear_memory := false, print := false
    bytes := store_bytes (fun _ => 0) 100 [112, 97, 115, 115, 119, 111, 114, 100] }

/-- A context whose output pointer is the password pointer: the context of the first
scenario with the tag written at address 100, one lane, one thread and one pass, the
password and the secret to be wiped. -/
def aliased_out_context : Argon2_Context :=
  { kat_context with
    out := some 100, m_cost := 8, t_cost := 1, lanes := 1, threads := 1
    clear_password := true, clear_secret := true }

/-- Collaborators whose hashes show their input: `blake2b` returns the first `outlen`
bytes of the message (padded with zero bytes) and `blake2b_long` returns `outlen` bytes
`0x07`; the rest as in `example_collaborators`. -/
def echo_collaborators : Collaborators :=
  { example_collaborators with
    blake2b := fun input outlen => (input ++ List.replicate outlen 0).take outlen
    blake2b_long := fun outlen _ => List.replicate outlen 7 }
/-! ## Lemmas and theorems -/


theorem index_alpha_reference_area_size_eq (inst : Argon2_instance_t)
    (position : Argon2_position_t) (same_lane : Bool)
    (h : LegalPosition inst position same_lane) :
    index_alpha_reference_area_size inst position same_lane
        = spec_reference_area_size inst position same_lane
      ∧ 1 ≤ spec_reference_area_size inst position same_lane
      ∧ spec_reference_area_size inst position same_lane + 2 ≤ inst.lane_length := by
  obtain ⟨h1, h2, h3, h4, h5, h6⟩ := h
  unfold index_alpha_reference_area_size spec_reference_area_size sub32 u32 minus_one32
  generalize inst.segment_length = s at *
  generalize inst.lane_length = L at *
  generalize position.index = i at *
  generalize position.pass = p at *
  generalize position.slice = sl at *
  subst h2
  have hsl : sl = 0 ∨ sl = 1 ∨ sl = 2 ∨ sl = 3 := by omega
  by_cases hp : p = 0
  · rcases hsl with rfl | rfl | rfl | rfl
    · obtain ⟨h7, h8⟩ := h6 hp rfl
      simp only [hp, if_true]
      omega
    all_goals
      cases same_lane <;> by_cases hi : i = 0 <;> simp [hp, hi] <;> omega
  · have hp' : ¬ (0 = p) := fun h => hp h.symm
    cases same_lane <;> by_cases hi : i = 0 <;> simp [hp, hp', hi] <;> omega


theorem index_alpha_start_position_eq (inst : Argon2_instance_t)
    (position : Argon2_position_t) (same_lane : Bool)
    (h : LegalPosition inst position same_lane) :
    index_alpha_start_position inst position = spec_start_offset inst position
      ∧ spec_start_offset inst position + inst.segment_length ≤ inst.lane_length := by
  obtain ⟨h1, h2, h3, h4, h5, h6⟩ := h
  unfold index_alpha_start_position spec_start_offset u32 ARGON2_SYNC_POINTS
  generalize inst.segment_length = s at *
  generalize inst.lane_length = L at *
  generalize position.pass = p at *
  generalize position.slice = sl at *
  subst h2
  have hsl : sl = 0 ∨ sl = 1 ∨ sl = 2 ∨ sl = 3 := by omega
  by_cases hp : p = 0
  · simp [hp]; omega
  · have hp' : ¬ (0 = p) := fun h => hp h.symm
    rcases hsl with rfl | rfl | rfl | rfl <;> simp [hp, hp'] <;> omega

theorem index_alpha_mapping_eq (R J1 : Nat) (hR : R < 2 ^ 32) (hJ : J1 < 2 ^ 32) :
    u64 (R * (u64 (J1 * J1) / 2 ^ 32)) / 2 ^ 32 = spec_mapping R J1
      ∧ (1 ≤ R → spec_mapping R J1 < R) := by
  unfold u64 spec_mapping
  have hJJ : J1 * J1 < 2 ^ 64 := by
    calc J1 * J1 < 2 ^ 32 * 2 ^ 32 := Nat.mul_lt_mul'' hJ hJ
      _ = 2 ^ 64 := by norm_num
  have hy : J1 * J1 / 2 ^ 32 < 2 ^ 32 := by
    apply Nat.div_lt_of_lt_mul
    calc J1 * J1 < 2 ^ 64 := hJJ
      _ = 2 ^ 32 * 2 ^ 32 := by norm_num
  rw [Nat.mod_eq_of_lt hJJ]
  have hRy : R * (J1 * J1 / 2 ^ 32) < 2 ^ 64 := by
    calc R * (J1 * J1 / 2 ^ 32) < 2 ^ 32 * 2 ^ 32 := Nat.mul_lt_mul'' hR hy
      _ = 2 ^ 64 := by norm_num
  rw [Nat.mod_eq_of_lt hRy]
  refine ⟨rfl, fun h1 => ?_⟩
  apply Nat.div_lt_of_lt_mul
  rw [Nat.mul_comm (2 ^ 32) R]
  exact Nat.mul_lt_mul_of_pos_left hy h1

/-- Under the legality conditions `index_alpha` computes, without any wrap-around, the
column `(start + (R - 1 - z)) mod lane_length` of the specification. -/
theorem index_alpha_unbounded (inst : Argon2_instance_t) (position : Argon2_position_t)
    (J1 : Nat) (same_lane : Bool) (h : LegalPosition inst position same_lane)
    (hJ : J1 < 2 ^ 32) :
    index_alpha inst position J1 same_lane
      = (spec_start_offset inst position
          + (spec_reference_area_size inst position same_lane - 1
              - spec_mapping (spec_reference_area_size inst position same_lane) J1))
        % inst.lane_length := by
  obtain ⟨hR, hR1, hR2⟩ := index_alpha_reference_area_size_eq inst position same_lane h
  obtain ⟨hS, hS1⟩ := index_alpha_start_position_eq inst position same_lane h
  have hL := h.lane_le
  have hRlt : spec_reference_area_size inst position same_lane < 2 ^ 32 := by omega
  obtain ⟨hM, hM1⟩ := index_alpha_mapping_eq _ J1 hRlt hJ
  have hz := hM1 hR1
  unfold index_alpha
  simp only [hR, hS, hM]
  generalize spec_reference_area_size inst position same_lane = R at *
  generalize spec_start_offset inst position = S at *
  generalize spec_mapping R J1 = z at *
  generalize inst.lane_length = L at *
  have e1 : sub64 (sub32 R 1) z = R - 1 - z := by
    unfold sub64 sub32; omega
  rw [e1]
  have e2 : u64 (S + (R - 1 - z)) = S + (R - 1 - z) := by
    unfold u64; omega
  rw [e2]
  have hlt : (S + (R - 1 - z)) % L < L := Nat.mod_lt _ (by omega)
  unfold u32
  exact Nat.mod_eq_of_lt (by omega)


theorem mod_ne_mod_add (x d L : Nat) (hd : 0 < d) (hdL : d < L) : x % L ≠ (x + d) % L := by
  intro h
  have h1 : (x + d - x) % L = 0 := Nat.sub_mod_eq_zero_of_mod_eq h.symm
  rw [Nat.add_sub_cancel_left, Nat.mod_eq_of_lt hdL] at h1
  omega

theorem index_alpha_predecessor (inst : Argon2_instance_t) (position : Argon2_position_t)
    (h : LegalPosition inst position true) :
    (position.slice * inst.segment_length + position.index + inst.lane_length - 1)
        % inst.lane_length
      = (spec_start_offset inst position + spec_reference_area_size inst position true)
        % inst.lane_length := by
  obtain ⟨h1, h2, h3, h4, h5, h6⟩ := h
  unfold spec_start_offset spec_reference_area_size
  generalize inst.segment_length = s at *
  generalize inst.lane_length = L at *
  generalize position.index = i at *
  generalize position.pass = p at *
  generalize position.slice = sl at *
  subst h2
  have hsl : sl = 0 ∨ sl = 1 ∨ sl = 2 ∨ sl = 3 := by omega
  by_cases hp : p = 0
  · have e : ∀ a : Nat, 1 ≤ a → (a + 4 * s - 1) % (4 * s) = (0 + (a - 1)) % (4 * s) := by
      intro a ha
      have : a + 4 * s - 1 = (a - 1) + 4 * s := by omega
      rw [this, Nat.add_mod_right, Nat.zero_add]
    rcases hsl with rfl | rfl | rfl | rfl
    · obtain ⟨h7, _⟩ := h6 hp rfl
      simp only [hp, if_true]
      simpa using e i (by omega)
    all_goals
      simp only [hp, if_true]
      simp only [show ((1:Nat) = 0) = False from by simp, show ((2:Nat) = 0) = False from by simp,
        show ((3:Nat) = 0) = False from by simp, if_false]
      exact e _ (by omega)
  · rcases hsl with rfl | rfl | rfl | rfl
    all_goals
      simp [hp]
    · congr 1; omega
    · congr 1; omega
    · congr 1; omega
    · have : 3 * s + i + 4 * s - 1 = (4 * s - s + i - 1) + 4 * s := by omega
      rw [this, Nat.add_mod_right]

/-- C1: for every legal position and every 32-bit word `J1`, `index_alpha` returns a column
in `[0, lane_length)`, and when `same_lane` is true that column differs from the immediate
predecessor `(slice * segment_length + index - 1) mod lane_length` of the current block. -/
theorem index_alpha_range (inst : Argon2_instance_t) (position : Argon2_position_t)
    (J1 : Nat) (same_lane : Bool) (h : LegalPosition inst position same_lane)
    (hJ : J1 < 2 ^ 32) :
    index_alpha inst position J1 same_lane < inst.lane_length
      ∧ (same_lane = true →
          (index_alpha inst position J1 same_lane : Int)
            ≠ ((position.slice * inst.segment_length + position.index : Nat) - 1 : Int)
                % (inst.lane_length : Int)) := by
  have hL : 0 < inst.lane_length := by
    have := h.segment_ge; have := h.lane_eq; omega
  rw [index_alpha_unbounded inst position J1 same_lane h hJ]
  refine ⟨Nat.mod_lt _ hL, fun hs => ?_⟩
  subst hs
  obtain ⟨hR, hR1, hR2⟩ := index_alpha_reference_area_size_eq inst position true h
  have hRlt : spec_reference_area_size inst position true < 2 ^ 32 := by
    have := h.lane_le; omega
  have hz := (index_alpha_mapping_eq _ J1 hRlt hJ).2 hR1
  have hpred := index_alpha_predecessor inst position h
  have hcast : ((position.slice * inst.segment_length + position.index : Nat) - 1 : Int)
        % (inst.lane_length : Int)
      = (((position.slice * inst.segment_length + position.index + inst.lane_length - 1)
          % inst.lane_length : Nat) : Int) := by
    rw [Int.natCast_mod]
    have : ((position.slice * inst.segment_length + position.index + inst.lane_length - 1 : Nat)
        : Int) = ((position.slice * inst.segment_length + position.index : Nat) - 1 : Int)
          + (inst.lane_length : Int) := by
      omega
    rw [this, Int.add_emod_self]
  rw [hcast, hpred]
  generalize spec_reference_area_size inst position true = R at *
  generalize spec_start_offset inst position = S at *
  generalize spec_mapping R J1 = z at *
  generalize inst.lane_length = L at *
  have e : S + R = (S + (R - 1 - z)) + (z + 1) := by omega
  rw [e]
  intro hc
  exact mod_ne_mod_add (S + (R - 1 - z)) (z + 1) L (by omega) (by omega) (by exact_mod_cast hc)


/-- Witness of C1: pass 1, slice 2, index 1 of a lane of 16 blocks, in the same lane. -/
theorem index_alpha_range_witness :
    LegalPosition example_instance example_position true
      ∧ index_alpha example_instance example_position 305419896 true
          < example_instance.lane_length
      ∧ (true = true →
          (index_alpha example_instance example_position 305419896 true : Int)
            ≠ ((example_position.slice * example_instance.segment_length
                + example_position.index : Nat) - 1 : Int)
              % (example_instance.lane_length : Int)) :=
  have h : LegalPosition example_instance example_position true :=
    ⟨by decide, by decide, by decide, by decide, by decide, by decide⟩
  ⟨h, index_alpha_range example_instance example_position 305419896 true h (by decide)⟩

/-! ### Validation and alignment -/

theorem ite_error_eq_ok {c : Prop} [Decidable c] {e r : Argon2_ErrorCodes}
    (he : e ≠ ARGON2_OK) : (if c then e else r) = ARGON2_OK ↔ ¬ c ∧ r = ARGON2_OK := by
  by_cases hc : c <;> simp [hc, he]

/-- What `validate_inputs` accepts: the exact conditions under which it returns
`ARGON2_OK`. -/
theorem validate_inputs_ok_iff (MIN_MEMORY : Nat) (context : Argon2_Context) :
    validate_inputs MIN_MEMORY (some context) = ARGON2_OK ↔
      (context.out ≠ none ∧ 4 ≤ context.outlen ∧ context.outlen ≤ 2 ^ 32 - 1)
      ∧ (context.pwd = none → context.pwdlen = 0)
      ∧ (context.pwd ≠ none → context.pwdlen ≤ 2 ^ 32 - 1)
      ∧ (context.salt = none → context.saltlen = 0)
      ∧ (context.salt ≠ none → 8 ≤ context.saltlen ∧ context.saltlen ≤ 2 ^ 32 - 1)
      ∧ (context.secret = none → context.secretlen = 0)
      ∧ (context.secret ≠ none → context.secretlen ≤ 32)
      ∧ (context.ad = none → context.adlen = 0)
      ∧ (context.ad ≠ none → context.adlen ≤ 2 ^ 32 - 1)
      ∧ (MIN_MEMORY ≤ context.m_cost ∧ context.m_cost ≤ 2 ^ 32 - 1)
      ∧ (1 ≤ context.t_cost ∧ context.t_cost ≤ 2 ^ 32 - 1)
      ∧ (1 ≤ context.lanes ∧ context.lanes ≤ 2 ^ 24 - 1)
      ∧ (1 ≤ context.threads ∧ context.threads ≤ 2 ^ 24 - 1)
      ∧ (context.allocate_cbk.isSome ↔ context.free_cbk.isSome) := by
  unfold validate_inputs
  simp only [ite_error_eq_ok, ne_eq, reduceCtorEq, not_false_eq_true, and_true]
  simp only [ARGON2_MIN_OUTLEN, ARGON2_MAX_OUTLEN, ARGON2_MIN_PWD_LENGTH, ARGON2_MAX_PWD_LENGTH,
    ARGON2_MIN_SALT_LENGTH, ARGON2_MAX_SALT_LENGTH, ARGON2_MIN_SECRET, ARGON2_MAX_SECRET,
    ARGON2_MIN_AD_LENGTH, ARGON2_MAX_AD_LENGTH, ARGON2_MAX_MEMORY, ARGON2_MIN_TIME,
    ARGON2_MAX_TIME, ARGON2_MIN_LANES, ARGON2_MAX_LANES, ARGON2_MIN_THREADS, ARGON2_MAX_THREADS]
  have hcb : ∀ (a : Option (Nat → Argon2_ErrorCodes × Option (List block))) (f : Option Unit),
      (¬ (a.isSome = true ∧ f.isNone = true) ∧ ¬ (a.isNone = true ∧ f.isSome = true))
        ↔ (a.isSome = true ↔ f.isSome = true) := by
    intro a f
    cases a <;> cases f <;> simp
  rw [← hcb]
  generalize (¬ (context.allocate_cbk.isSome = true ∧ context.free_cbk.isNone = true)) = cb1
  generalize (¬ (context.allocate_cbk.isNone = true ∧ context.free_cbk.isSome = true)) = cb2
  by_cases h1 : context.out = none <;> by_cases h2 : context.pwd = none <;>
    by_cases h3 : context.salt = none <;> by_cases h4 : context.secret = none <;>
    by_cases h5 : context.ad = none <;>
    simp only [h1, h2, h3, h4, h5, ne_eq, not_true_eq_false, not_false_eq_true, true_and,
      false_and, and_true, and_false, true_implies, false_implies, iff_true, true_iff,
      iff_false, false_iff, implies_true, and_self, not_not] <;>
    by_cases hc1 : cb1 <;> by_cases hc2 : cb2 <;>
    simp only [hc1, hc2, and_true, and_false, true_and, false_and, iff_false, iff_true,
      not_and, not_true_eq_false, not_false_eq_true] <;>
    omega

/-- The alignment step of `argon2_core` over the natural numbers: for a lane count in
`[1, 2^24 - 1]` and a 32-bit `m_cost` no product wraps around. -/
theorem argon2_core_instance_eq (context : Argon2_Context) (type : Argon2_type)
    (hl1 : 1 ≤ context.lanes) (hl2 : context.lanes ≤ 2 ^ 24 - 1)
    (hm : context.m_cost ≤ 2 ^ 32 - 1) :
    (argon2_core_instance context type).segment_length
        = max context.m_cost (8 * context.lanes) / (4 * context.lanes)
      ∧ (argon2_core_instance context type).memory_blocks
        = max context.m_cost (8 * context.lanes) / (4 * context.lanes) * (4 * context.lanes)
      ∧ (argon2_core_instance context type).lane_length
        = 4 * (max context.m_cost (8 * context.lanes) / (4 * context.lanes))
      ∧ (argon2_core_instance context type).lanes = context.lanes := by
  unfold argon2_core_instance
  simp only [ARGON2_SYNC_POINTS, u32]
  generalize context.lanes = L at *
  generalize context.m_cost = m at *
  have e1 : 2 * 4 * L % 2 ^ 32 = 8 * L := by omega
  have e2 : L * 4 % 2 ^ 32 = 4 * L := by omega
  rw [e1, e2]
  have e3 : (if m < 8 * L then 8 * L else m) = max m (8 * L) := by
    split_ifs <;> omega
  rw [e3]
  have hX : max m (8 * L) ≤ 2 ^ 32 - 1 := by omega
  generalize max m (8 * L) = X at *
  have hq : X / (4 * L) * (4 * L) ≤ X := Nat.div_mul_le_self X (4 * L)
  have hq4 : X / (4 * L) * 4 ≤ X / (4 * L) * (4 * L) :=
    Nat.mul_le_mul_left _ (by omega)
  refine ⟨rfl, ?_, ?_, trivial⟩
  · exact Nat.mod_eq_of_lt (by omega)
  · rw [Nat.mod_eq_of_lt (by omega)]; omega

/-- C2: for every context accepted by `validate_inputs`, the instance built by
`argon2_core` satisfies `lane_length = 4 * segment_length` and
`memory_blocks = lanes * lane_length = lanes * 4 * segment_length` as exact integers: none
of the 32-bit products of the alignment step (`2 * 4 * lanes`, `lanes * 4`,
`segment_length * (lanes * 4)`, `segment_length * 4`) wraps around. -/
theorem argon2_core_alignment_exact (MIN_MEMORY : Nat) (context : Argon2_Context)
    (type : Argon2_type) (h : validate_inputs MIN_MEMORY (some context) = ARGON2_OK) :
    (argon2_core_instance context type).lane_length
        = 4 * (argon2_core_instance context type).segment_length
      ∧ (argon2_core_instance context type).memory_blocks
        = (argon2_core_instance context type).lanes
            * (argon2_core_instance context type).lane_length
      ∧ (argon2_core_instance context type).memory_blocks
        = (argon2_core_instance context type).lanes * 4
            * (argon2_core_instance context type).segment_length
      ∧ 2 * ARGON2_SYNC_POINTS * context.lanes < 2 ^ 32
      ∧ context.lanes * ARGON2_SYNC_POINTS < 2 ^ 32
      ∧ (argon2_core_instance context type).segment_length
          * (context.lanes * ARGON2_SYNC_POINTS) < 2 ^ 32
      ∧ (argon2_core_instance context type).segment_length * ARGON2_SYNC_POINTS < 2 ^ 32 := by
  have hv := (validate_inputs_ok_iff MIN_MEMORY context).mp h
  obtain ⟨-, -, -, -, -, -, -, -, -, ⟨-, hm⟩, -, ⟨hl1, hl2⟩, -, -⟩ := hv
  obtain ⟨e1, e2, e3, e4⟩ := argon2_core_instance_eq context type hl1 hl2 hm
  rw [e1, e2, e3, e4]
  simp only [ARGON2_SYNC_POINTS]
  generalize context.lanes = L at *
  have hX : max context.m_cost (8 * L) ≤ 2 ^ 32 - 1 := by omega
  generalize max context.m_cost (8 * L) = X at hX ⊢
  have hq : X / (4 * L) * (4 * L) ≤ X := Nat.div_mul_le_self X (4 * L)
  have hq4 : X / (4 * L) * 4 ≤ X / (4 * L) * (4 * L) :=
    Nat.mul_le_mul_left _ (by omega)
  generalize X / (4 * L) = q at *
  refine ⟨trivial, ?_, ?_, by omega, by omega, ?_, by omega⟩
  · ring
  · ring
  · have : q * (L * 4) = q * (4 * L) := by ring
    omega

/-- The context of the first scenario is accepted whenever the compile-time minimum of
`m_cost` is at most 16. -/
theorem kat_context_accepted (MIN_MEMORY : Nat) (hM : MIN_MEMORY ≤ 16) :
    validate_inputs MIN_MEMORY (some kat_context) = ARGON2_OK := by
  rw [validate_inputs_ok_iff]
  simp [kat_context, hM]

theorem kat_context_valid : validate_inputs 8 (some kat_context) = ARGON2_OK :=
  kat_context_accepted 8 (by decide)

/-- Witness of C2 at the context of the first scenario of the specification. -/
theorem argon2_core_alignment_exact_witness :
    validate_inputs 8 (some kat_context) = ARGON2_OK
      ∧ (argon2_core_instance kat_context Argon2_type.Argon2_d).segment_length = 2
      ∧ (argon2_core_instance kat_context Argon2_type.Argon2_d).lane_length = 8
      ∧ (argon2_core_instance kat_context Argon2_type.Argon2_d).memory_blocks = 32
      ∧ (argon2_core_instance kat_context Argon2_type.Argon2_d).memory_blocks
        = (argon2_core_instance kat_context Argon2_type.Argon2_d).lanes
            * (argon2_core_instance kat_context Argon2_type.Argon2_d).lane_length :=
  ⟨kat_context_valid, by decide, by decide, by decide,
    (argon2_core_alignment_exact 8 kat_context Argon2_type.Argon2_d kat_context_valid).2.1⟩

/-- C3: for every context accepted by `validate_inputs`, the `memory_blocks` computed by
`argon2_core` is the largest multiple of `4 * lanes` that does not exceed
`max(m_cost, 8 * lanes)`; hence `8 * lanes ≤ memory_blocks ≤ max(m_cost, 8 * lanes)`,
`memory_blocks` is at least the maximum of `m_cost` rounded down to a multiple of
`4 * lanes` and `8 * lanes`, and `segment_length ≥ 2`. -/
theorem argon2_core_memory_blocks_largest_multiple (MIN_MEMORY : Nat)
    (context : Argon2_Context) (type : Argon2_type)
    (h : validate_inputs MIN_MEMORY (some context) = ARGON2_OK) :
    (4 * context.lanes ∣ (argon2_core_instance context type).memory_blocks
      ∧ (argon2_core_instance context type).memory_blocks
          ≤ max context.m_cost (8 * context.lanes)
      ∧ ∀ k : Nat, 4 * context.lanes ∣ k → k ≤ max context.m_cost (8 * context.lanes) →
          k ≤ (argon2_core_instance context type).memory_blocks)
      ∧ 8 * context.lanes ≤ (argon2_core_instance context type).memory_blocks
      ∧ max (context.m_cost / (4 * context.lanes) * (4 * context.lanes)) (8 * context.lanes)
          ≤ (argon2_core_instance context type).memory_blocks
      ∧ 2 ≤ (argon2_core_instance context type).segment_length := by
  have hv := (validate_inputs_ok_iff MIN_MEMORY context).mp h
  obtain ⟨-, -, -, -, -, -, -, -, -, ⟨-, hm⟩, -, ⟨hl1, hl2⟩, -, -⟩ := hv
  obtain ⟨e1, e2, -, -⟩ := argon2_core_instance_eq context type hl1 hl2 hm
  rw [e1, e2]
  generalize context.lanes = L at *
  generalize context.m_cost = m at *
  have hL : 0 < 4 * L := by omega
  have h8 : 2 * (4 * L) ≤ max m (8 * L) := by omega
  have hmX : m ≤ max m (8 * L) := by omega
  generalize max m (8 * L) = X at *
  have hq2 : 2 ≤ X / (4 * L) := (Nat.le_div_iff_mul_le hL).mpr h8
  have hqX : X / (4 * L) * (4 * L) ≤ X := Nat.div_mul_le_self X (4 * L)
  have hlargest : ∀ k : Nat, 4 * L ∣ k → k ≤ X → k ≤ X / (4 * L) * (4 * L) := by
    rintro k ⟨c, rfl⟩ hk
    have hc : c ≤ X / (4 * L) := (Nat.le_div_iff_mul_le hL).mpr (by rw [Nat.mul_comm]; exact hk)
    calc 4 * L * c = c * (4 * L) := Nat.mul_comm _ _
      _ ≤ X / (4 * L) * (4 * L) := Nat.mul_le_mul_right _ hc
  have h8' : 8 * L ≤ X / (4 * L) * (4 * L) := by
    calc 8 * L = 2 * (4 * L) := by ring
      _ ≤ X / (4 * L) * (4 * L) := Nat.mul_le_mul_right _ hq2
  refine ⟨⟨Dvd.intro_left _ rfl, hqX, hlargest⟩, h8', ?_, hq2⟩
  apply max_le _ h8'
  exact hlargest _ (Dvd.intro_left _ rfl) (le_trans (Nat.div_mul_le_self m (4 * L)) hmX)

/-- Witness of C3 at the context of the first scenario of the specification, where
`m_cost = 16` is raised to `8 * lanes = 32`. -/
theorem argon2_core_memory_blocks_largest_multiple_witness :
    validate_inputs 8 (some kat_context) = ARGON2_OK
      ∧ 8 * kat_context.lanes
          ≤ (argon2_core_instance kat_context Argon2_type.Argon2_i).memory_blocks
      ∧ 2 ≤ (argon2_core_instance kat_context Argon2_type.Argon2_i).segment_length :=
  ⟨kat_context_valid,
    (argon2_core_memory_blocks_largest_multiple 8 kat_context Argon2_type.Argon2_i
      kat_context_valid).2.1,
    (argon2_core_memory_blocks_largest_multiple 8 kat_context Argon2_type.Argon2_i
      kat_context_valid).2.2.2⟩

/-! ### The checks of `validate_inputs` -/

theorem ite_code_eq_iff {c : Prop} [Decidable c] {e r t : Argon2_ErrorCodes} :
    (if c then e else r) = t ↔ (c ∧ e = t) ∨ (¬ c ∧ r = t) := by
  by_cases hc : c <;> simp [hc]

/-- When `validate_inputs` answers `ARGON2_MEMORY_TOO_LITTLE`: every earlier check passes
and `m_cost` is below the minimum. -/
theorem validate_inputs_eq_memory_too_little_iff (MIN_MEMORY : Nat) (context : Argon2_Context) :
    validate_inputs MIN_MEMORY (some context) = ARGON2_MEMORY_TOO_LITTLE ↔
      ¬ context.out = none ∧ ¬ 4 > context.outlen ∧ ¬ 4294967295 < context.outlen
      ∧ ¬ (context.pwd = none ∧ ¬ 0 = context.pwdlen)
      ∧ ¬ (¬ context.pwd = none ∧ 4294967295 < context.pwdlen)
      ∧ ¬ (context.salt = none ∧ ¬ 0 = context.saltlen)
      ∧ ¬ (¬ context.salt = none ∧ 8 > context.saltlen)
      ∧ ¬ (¬ context.salt = none ∧ 4294967295 < context.saltlen)
      ∧ ¬ (context.secret = none ∧ ¬ 0 = context.secretlen)
      ∧ ¬ (¬ context.secret = none ∧ 32 < context.secretlen)
      ∧ ¬ (context.ad = none ∧ ¬ 0 = context.adlen)
      ∧ ¬ (¬ context.ad = none ∧ 4294967295 < context.adlen)
      ∧ MIN_MEMORY > context.m_cost := by
  unfold validate_inputs
  simp only [ite_code_eq_iff, reduceCtorEq, and_false, and_true, false_or, or_false]
  simp only [ARGON2_MIN_OUTLEN, ARGON2_MAX_OUTLEN, ARGON2_MIN_PWD_LENGTH, ARGON2_MAX_PWD_LENGTH,
    ARGON2_MIN_SALT_LENGTH, ARGON2_MAX_SALT_LENGTH, ARGON2_MIN_SECRET, ARGON2_MAX_SECRET,
    ARGON2_MIN_AD_LENGTH, ARGON2_MAX_AD_LENGTH, ne_eq, not_true_eq_false, false_and, and_false,
    not_false_eq_true, true_and, Nat.not_lt_zero, gt_iff_lt]

/-- When `validate_inputs` answers `ARGON2_PWD_PTR_MISMATCH`: every earlier check passes and the
check of that code fails. -/
theorem validate_inputs_eq_pwd_ptr_mismatch_iff (MIN_MEMORY : Nat) (context : Argon2_Context) :
    validate_inputs MIN_MEMORY (some context) = ARGON2_PWD_PTR_MISMATCH ↔
      ¬ context.out = none ∧ ¬ 4 > context.outlen ∧ ¬ 4294967295 < context.outlen
      ∧ (context.pwd = none ∧ ¬ 0 = context.pwdlen) := by
  unfold validate_inputs
  simp only [ite_code_eq_iff, reduceCtorEq, and_false, and_true, false_or, or_false]
  simp only [ARGON2_MIN_OUTLEN, ARGON2_MAX_OUTLEN, ARGON2_MIN_PWD_LENGTH, ARGON2_MAX_PWD_LENGTH,
    ARGON2_MIN_SALT_LENGTH, ARGON2_MAX_SALT_LENGTH, ARGON2_MIN_SECRET, ARGON2_MAX_SECRET,
    ARGON2_MIN_AD_LENGTH, ARGON2_MAX_AD_LENGTH, ne_eq, not_true_eq_false, false_and, and_false,
    not_false_eq_true, true_and, Nat.not_lt_zero, gt_iff_lt]

/-- When `validate_inputs` answers `ARGON2_SALT_PTR_MISMATCH`: every earlier check passes and the
check of that code fails. -/
theorem validate_inputs_eq_salt_ptr_mismatch_iff (MIN_MEMORY : Nat) (context : Argon2_Context) :
    validate_inputs MIN_MEMORY (some context) = ARGON2_SALT_PTR_MISMATCH ↔
      ¬ context.out = none ∧ ¬ 4 > context.outlen ∧ ¬ 4294967295 < context.outlen
      ∧ ¬ (context.pwd = none ∧ ¬ 0 = context.pwdlen)
      ∧ ¬ (¬ context.pwd = none ∧ 4294967295 < context.pwdlen)
      ∧ (context.salt = none ∧ ¬ 0 = context.saltlen) := by
  unfold validate_inputs
  simp only [ite_code_eq_iff, reduceCtorEq, and_false, and_true, false_or, or_false]
  simp only [ARGON2_MIN_OUTLEN, ARGON2_MAX_OUTLEN, ARGON2_MIN_PWD_LENGTH, ARGON2_MAX_PWD_LENGTH,
    ARGON2_MIN_SALT_LENGTH, ARGON2_MAX_SALT_LENGTH, ARGON2_MIN_SECRET, ARGON2_MAX_SECRET,
    ARGON2_MIN_AD_LENGTH, ARGON2_MAX_AD_LENGTH, ne_eq, not_true_eq_false, false_and, and_false,
    not_false_eq_true, true_and, Nat.not_lt_zero, gt_iff_lt]

/-- When `validate_inputs` answers `ARGON2_SALT_TOO_SHORT`: every earlier check passes and the
check of that code fails. -/
theorem validate_inputs_eq_salt_too_short_iff (MIN_MEMORY : Nat) (context : Argon2_Context) :
    validate_inputs MIN_MEMORY (some context) = ARGON2_SALT_TOO_SHORT ↔
      ¬ context.out = none ∧ ¬ 4 > context.outlen ∧ ¬ 4294967295 < context.outlen
      ∧ ¬ (context.pwd = none ∧ ¬ 0 = context.pwdlen)
      ∧ ¬ (¬ context.pwd = none ∧ 4294967295 < context.pwdlen)
      ∧ ¬ (context.salt = none ∧ ¬ 0 = context.saltlen)
      ∧ (¬ context.salt = none ∧ 8 > context.saltlen) := by
  unfold validate_inputs
  simp only [ite_code_eq_iff, reduceCtorEq, and_false, and_true, false_or, or_false]
  simp only [ARGON2_MIN_OUTLEN, ARGON2_MAX_OUTLEN, ARGON2_MIN_PWD_LENGTH, ARGON2_MAX_PWD_LENGTH,
    ARGON2_MIN_SALT_LENGTH, ARGON2_MAX_SALT_LENGTH, ARGON2_MIN_SECRET, ARGON2_MAX_SECRET,
    ARGON2_MIN_AD_LENGTH, ARGON2_MAX_AD_LENGTH, ne_eq, not_true_eq_false, false_and, and_false,
    not_false_eq_true, true_and, Nat.not_lt_zero, gt_iff_lt]

/-- When `validate_inputs` answers `ARGON2_SECRET_PTR_MISMATCH`: every earlier check passes and the
check of that code fails. -/
theorem validate_inputs_eq_secret_ptr_mismatch_iff (MIN_MEMORY : Nat) (context : Argon2_Context) :
    validate_inputs MIN_MEMORY (some context) = ARGON2_SECRET_PTR_MISMATCH ↔
      ¬ context.out = none ∧ ¬ 4 > context.outlen ∧ ¬ 4294967295 < context.outlen
      ∧ ¬ (context.pwd = none ∧ ¬ 0 = context.pwdlen)
      ∧ ¬ (¬ context.pwd = none ∧ 4294967295 < context.pwdlen)
      ∧ ¬ (context.salt = none ∧ ¬ 0 = context.saltlen)
      ∧ ¬ (¬ context.salt = none ∧ 8 > context.saltlen)
      ∧ ¬ (¬ context.salt = none ∧ 4294967295 < context.saltlen)
      ∧ (context.secret = none ∧ ¬ 0 = context.secretlen) := by
  unfold validate_inputs
  simp only [ite_code_eq_iff, reduceCtorEq, and_false, and_true, false_or, or_false]
  simp only [ARGON2_MIN_OUTLEN, ARGON2_MAX_OUTLEN, ARGON2_MIN_PWD_LENGTH, ARGON2_MAX_PWD_LENGTH,
    ARGON2_MIN_SALT_LENGTH, ARGON2_MAX_SALT_LENGTH, ARGON2_MIN_SECRET, ARGON2_MAX_SECRET,
    ARGON2_MIN_AD_LENGTH, ARGON2_MAX_AD_LENGTH, ne_eq, not_true_eq_false, false_and, and_false,
    not_false_eq_true, true_and, Nat.not_lt_zero, gt_iff_lt]

/-- When `validate_inputs` answers `ARGON2_AD_PTR_MISMATCH`: every earlier check passes and the
check of that code fails. -/
theorem validate_inputs_eq_ad_ptr_mismatch_iff (MIN_MEMORY : Nat) (context : Argon2_Context) :
    validate_inputs MIN_MEMORY (some context) = ARGON2_AD_PTR_MISMATCH ↔
      ¬ context.out = none ∧ ¬ 4 > context.outlen ∧ ¬ 4294967295 < context.outlen
      ∧ ¬ (context.pwd = none ∧ ¬ 0 = context.pwdlen)
      ∧ ¬ (¬ context.pwd = none ∧ 4294967295 < context.pwdlen)
      ∧ ¬ (context.salt = none ∧ ¬ 0 = context.saltlen)
      ∧ ¬ (¬ context.salt = none ∧ 8 > context.saltlen)
      ∧ ¬ (¬ context.salt = none ∧ 4294967295 < context.saltlen)
      ∧ ¬ (context.secret = none ∧ ¬ 0 = context.secretlen)
      ∧ ¬ (¬ context.secret = none ∧ 32 < context.secretlen)
      ∧ (context.ad = none ∧ ¬ 0 = context.adlen) := by
  unfold validate_inputs
  simp only [ite_code_eq_iff, reduceCtorEq, and_false, and_true, false_or, or_false]
  simp only [ARGON2_MIN_OUTLEN, ARGON2_MAX_OUTLEN, ARGON2_MIN_PWD_LENGTH, ARGON2_MAX_PWD_LENGTH,
    ARGON2_MIN_SALT_LENGTH, ARGON2_MAX_SALT_LENGTH, ARGON2_MIN_SECRET, ARGON2_MAX_SECRET,
    ARGON2_MIN_AD_LENGTH, ARGON2_MAX_AD_LENGTH, ne_eq, not_true_eq_false, false_and, and_false,
    not_false_eq_true, true_and, Nat.not_lt_zero, gt_iff_lt]

/-! ### Claims on `validate_inputs` -/

/-- C4 (the code at the failing input): a context whose salt pointer is `NULL` and whose
`saltlen` is 0 is accepted by `validate_inputs`, although its salt length is below 8. -/
theorem validate_inputs_accepts_absent_salt :
    validate_inputs 8 (some null_salt_context) = ARGON2_OK
      ∧ null_salt_context.salt = none ∧ null_salt_context.saltlen = 0 := by
  refine ⟨?_, rfl, rfl⟩
  rw [validate_inputs_ok_iff]
  simp [null_salt_context, kat_context]

/-- C5 (counterexample): the context of the first scenario of the specification, with
`m_cost = 16` and four lanes, is accepted by `validate_inputs` although
`m_cost < 8 * lanes = 32`; it is not rejected with the memory-too-little code. -/
theorem validate_inputs_accepts_m_cost_below_8_lanes :
    validate_inputs 8 (some kat_context) = ARGON2_OK
      ∧ kat_context.m_cost < 8 * kat_context.lanes
      ∧ validate_inputs 8 (some kat_context) ≠ ARGON2_MEMORY_TOO_LITTLE := by
  have h := kat_context_accepted 8 (by decide)
  refine ⟨h, by decide, ?_⟩
  rw [h]
  decide

/-- C5 (amended): if `validate_inputs` returns `ARGON2_OK` then `m_cost` is at least the
compile-time minimum `ARGON2_MIN_MEMORY`, which does not depend on the lane count, and the
alignment step of `argon2_core` then gives `memory_blocks ≥ 8 * lanes`; a context that
passes the checks made before the memory check and has `m_cost < ARGON2_MIN_MEMORY` is
rejected with the memory-too-little code. -/
theorem validate_inputs_memory_minimum (MIN_MEMORY : Nat) (context : Argon2_Context)
    (type : Argon2_type) :
    (validate_inputs MIN_MEMORY (some context) = ARGON2_OK →
        MIN_MEMORY ≤ context.m_cost
          ∧ 8 * context.lanes ≤ (argon2_core_instance context type).memory_blocks)
      ∧ (context.fields32 → out_ok context → pwd_ok context → salt_ok context →
          secret_ok context → ad_ok context → context.m_cost < MIN_MEMORY →
          validate_inputs MIN_MEMORY (some context) = ARGON2_MEMORY_TOO_LITTLE) := by
  constructor
  · intro h
    have hv := (validate_inputs_ok_iff MIN_MEMORY context).mp h
    obtain ⟨-, -, -, -, -, -, -, -, -, ⟨hmin, hm⟩, -, ⟨hl1, hl2⟩, -, -⟩ := hv
    obtain ⟨-, e2, -, -⟩ := argon2_core_instance_eq context type hl1 hl2 hm
    refine ⟨hmin, ?_⟩
    rw [e2]
    have hL : 0 < 4 * context.lanes := by omega
    have h8 : 2 * (4 * context.lanes) ≤ max context.m_cost (8 * context.lanes) := by omega
    have hq2 := (Nat.le_div_iff_mul_le hL).mpr h8
    calc 8 * context.lanes = 2 * (4 * context.lanes) := by ring
      _ ≤ _ := Nat.mul_le_mul_right _ hq2
  · intro h32 ho hp hs hk ha hm
    obtain ⟨h1, h2, h3, h4, h5, -⟩ := h32
    unfold out_ok at ho
    unfold pwd_ok at hp
    unfold salt_ok at hs
    unfold secret_ok at hk
    unfold ad_ok at ha
    rw [validate_inputs_eq_memory_too_little_iff]
    refine ⟨ho.1, by omega, by omega, ?_, ?_, ?_, ?_, ?_, ?_, ?_, ?_, ?_, hm⟩
    · rintro ⟨a, b⟩; rcases hp with h | h
      · exact h a
      · exact b h.symm
    · rintro ⟨-, b⟩; omega
    · rintro ⟨a, b⟩; rcases hs with h | h
      · exact h.1 a
      · exact b h.2.symm
    · rintro ⟨a, b⟩; rcases hs with h | h
      · omega
      · exact a h.1
    · rintro ⟨-, b⟩; omega
    · rintro ⟨a, b⟩; rcases hk with h | h
      · exact h.1 a
      · exact b h.2.symm
    · rintro ⟨a, b⟩; rcases hk with h | h
      · omega
      · exact a h.1
    · rintro ⟨a, b⟩; rcases ha with h | h
      · exact h a
      · exact b h.symm
    · rintro ⟨-, b⟩; omega

/-- Witness of the amended C5: the first scenario of the specification is accepted with
`ARGON2_MIN_MEMORY = 8`, so that `8 ≤ m_cost = 16` and `memory_blocks ≥ 32`. -/
theorem validate_inputs_memory_minimum_witness :
    validate_inputs 8 (some kat_context) = ARGON2_OK
      ∧ 8 ≤ kat_context.m_cost
      ∧ 8 * kat_context.lanes
          ≤ (argon2_core_instance kat_context Argon2_type.Argon2_d).memory_blocks :=
  ⟨kat_context_valid,
    (validate_inputs_memory_minimum 8 kat_context Argon2_type.Argon2_d).1 kat_context_valid⟩

/-- C6: for each of the buffers `pwd`, `salt`, `secret`, `ad`: when its pointer is `NULL`
while its declared length is nonzero, and every field checked before it is in bounds
(`out` not `NULL`, `outlen ≥ 4`, the preceding buffers valid), `validate_inputs` returns
that buffer's own pointer-mismatch code. -/
theorem validate_inputs_ptr_mismatch (MIN_MEMORY : Nat) (context : Argon2_Context)
    (h32 : context.fields32) (ho : out_ok context) :
    (context.pwd = none → context.pwdlen ≠ 0 →
        validate_inputs MIN_MEMORY (some context) = ARGON2_PWD_PTR_MISMATCH)
      ∧ (pwd_ok context → context.salt = none → context.saltlen ≠ 0 →
        validate_inputs MIN_MEMORY (some context) = ARGON2_SALT_PTR_MISMATCH)
      ∧ (pwd_ok context → salt_ok context → context.secret = none → context.secretlen ≠ 0 →
        validate_inputs MIN_MEMORY (some context) = ARGON2_SECRET_PTR_MISMATCH)
      ∧ (pwd_ok context → salt_ok context → secret_ok context → context.ad = none →
          context.adlen ≠ 0 →
        validate_inputs MIN_MEMORY (some context) = ARGON2_AD_PTR_MISMATCH) := by
  obtain ⟨h1, h2, h3, h4, h5, -⟩ := h32
  unfold out_ok at ho
  unfold pwd_ok salt_ok secret_ok
  have hpwd : pwd_ok context → ¬ (context.pwd = none ∧ ¬ 0 = context.pwdlen) := by
    rintro hp ⟨a, b⟩
    rcases hp with h | h
    · exact h a
    · exact b h.symm
  have hsalt : salt_ok context → ¬ (context.salt = none ∧ ¬ 0 = context.saltlen)
      ∧ ¬ (¬ context.salt = none ∧ 8 > context.saltlen) := by
    intro hs
    constructor
    · rintro ⟨a, b⟩; rcases hs with h | h
      · exact h.1 a
      · exact b h.2.symm
    · rintro ⟨a, b⟩; rcases hs with h | h
      · omega
      · exact a h.1
  have hsecret : secret_ok context → ¬ (context.secret = none ∧ ¬ 0 = context.secretlen)
      ∧ ¬ (¬ context.secret = none ∧ 32 < context.secretlen) := by
    intro hk
    constructor
    · rintro ⟨a, b⟩; rcases hk with h | h
      · exact h.1 a
      · exact b h.2.symm
    · rintro ⟨a, b⟩; rcases hk with h | h
      · omega
      · exact a h.1
  have hlen : ∀ n : Nat, n < 2 ^ 32 → ∀ p : Prop, ¬ (p ∧ 4294967295 < n) := by
    rintro n hn p ⟨-, b⟩; omega
  unfold pwd_ok at hpwd
  unfold salt_ok at hsalt
  unfold secret_ok at hsecret
  refine ⟨?_, ?_, ?_, ?_⟩
  · intro hn hl
    rw [validate_inputs_eq_pwd_ptr_mismatch_iff]
    exact ⟨ho.1, by omega, by omega, hn, fun h => hl h.symm⟩
  · intro hp hn hl
    rw [validate_inputs_eq_salt_ptr_mismatch_iff]
    exact ⟨ho.1, by omega, by omega, hpwd hp, hlen _ h2 _, hn, fun h => hl h.symm⟩
  · intro hp hs hn hl
    rw [validate_inputs_eq_secret_ptr_mismatch_iff]
    exact ⟨ho.1, by omega, by omega, hpwd hp, hlen _ h2 _, (hsalt hs).1, (hsalt hs).2,
      hlen _ h3 _, hn, fun h => hl h.symm⟩
  · intro hp hs hk hn hl
    rw [validate_inputs_eq_ad_ptr_mismatch_iff]
    exact ⟨ho.1, by omega, by omega, hpwd hp, hlen _ h2 _, (hsalt hs).1, (hsalt hs).2,
      hlen _ h3 _, (hsecret hk).1, (hsecret hk).2, hn, fun h => hl h.symm⟩

theorem null_pwd_context_fields32 : null_pwd_context.fields32 := by
  unfold Argon2_Context.fields32
  decide

/-- Witness of C6, the fifth scenario of the specification: `pwd = NULL`, `pwdlen = 5`,
`outlen = 32` gives `ARGON2_PWD_PTR_MISMATCH`. -/
theorem validate_inputs_ptr_mismatch_witness :
    null_pwd_context.fields32 ∧ out_ok null_pwd_context
      ∧ null_pwd_context.pwd = none ∧ null_pwd_context.pwdlen = 5
      ∧ null_pwd_context.outlen = 32
      ∧ validate_inputs 8 (some null_pwd_context) = ARGON2_PWD_PTR_MISMATCH :=
  have ho : out_ok null_pwd_context := ⟨by decide, by decide⟩
  ⟨null_pwd_context_fields32, ho, rfl, rfl, rfl,
    (validate_inputs_ptr_mismatch 8 null_pwd_context null_pwd_context_fields32 ho).1 rfl
      (by decide)⟩

/-- C8: if `validate_inputs` returns `ARGON2_OK` then the context is not `NULL`, `out` is
not `NULL`, `outlen ≥ 4`, `secretlen ≤ 32`, `t_cost ≥ 1`, `1 ≤ lanes ≤ 2^24 - 1`,
`1 ≤ threads ≤ 2^24 - 1`, every one of `pwd`, `salt`, `secret`, `ad` whose pointer is `NULL`
has length 0, and `allocate_cbk` and `free_cbk` are both present or both absent. -/
theorem validate_inputs_ok_bounds (MIN_MEMORY : Nat) (context : Option Argon2_Context)
    (h : validate_inputs MIN_MEMORY context = ARGON2_OK) :
    ∃ c, context = some c
      ∧ c.out ≠ none ∧ 4 ≤ c.outlen ∧ c.secretlen ≤ 32 ∧ 1 ≤ c.t_cost
      ∧ (1 ≤ c.lanes ∧ c.lanes ≤ 2 ^ 24 - 1)
      ∧ (1 ≤ c.threads ∧ c.threads ≤ 2 ^ 24 - 1)
      ∧ (c.pwd = none → c.pwdlen = 0) ∧ (c.salt = none → c.saltlen = 0)
      ∧ (c.secret = none → c.secretlen = 0) ∧ (c.ad = none → c.adlen = 0)
      ∧ ((c.allocate_cbk.isSome ∧ c.free_cbk.isSome)
          ∨ (c.allocate_cbk.isNone ∧ c.free_cbk.isNone)) := by
  cases context with
  | none => simp [validate_inputs] at h
  | some c =>
    have hv := (validate_inputs_ok_iff MIN_MEMORY c).mp h
    obtain ⟨⟨o1, o2, -⟩, p1, -, s1, -, k1, k2, a1, -, -, ⟨t1, -⟩, l, th, cb⟩ := hv
    refine ⟨c, rfl, o1, o2, ?_, t1, l, th, p1, s1, k1, a1, ?_⟩
    · by_cases hk : c.secret = none
      · rw [k1 hk]; omega
      · exact k2 hk
    · revert cb
      cases c.allocate_cbk <;> cases c.free_cbk <;> simp

/-- Witness of C8 at the context of the first scenario of the specification. -/
theorem validate_inputs_ok_bounds_witness :
    validate_inputs 8 (some kat_context) = ARGON2_OK
      ∧ ∃ c, some kat_context = some c ∧ c.out ≠ none ∧ 4 ≤ c.outlen ∧ c.secretlen ≤ 32 :=
  ⟨kat_context_valid,
    match validate_inputs_ok_bounds 8 (some kat_context) kat_context_valid with
    | ⟨c, h1, h2, h3, h4, _⟩ => ⟨c, h1, h2, h3, h4⟩⟩

/-! ### Claims on `argon2_core` -/

/-- The early returns of `argon2_core`: when validation fails, or the type is neither
`Argon2_d` nor `Argon2_i`, the call returns at once. -/
theorem argon2_core_early_return (E : Collaborators) (MIN_MEMORY : Nat)
    (context : Option Argon2_Context) (type : Argon2_type) :
    (validate_inputs MIN_MEMORY context ≠ ARGON2_OK →
        argon2_core E MIN_MEMORY context type
          = { result := validate_inputs MIN_MEMORY context, context := context, trace := [] })
      ∧ (validate_inputs MIN_MEMORY context = ARGON2_OK →
          type ≠ Argon2_type.Argon2_d → type ≠ Argon2_type.Argon2_i →
        argon2_core E MIN_MEMORY context type
          = { result := ARGON2_INCORRECT_TYPE, context := context, trace := [] }) := by
  constructor
  · intro h
    unfold argon2_core
    simp only []
    rw [if_pos (fun e => h e.symm)]
  · intro h hd hi
    unfold argon2_core
    simp only []
    rw [if_neg (fun e => e h.symm), if_pos ⟨fun e => hd e.symm, fun e => hi e.symm⟩]

/-- C7: for every context with `out` not `NULL`, `outlen ≥ 4`, a consistent `pwd` and a
salt pointer that is not `NULL` with `saltlen < 8`, `validate_inputs` (and therefore
`argon2_core`, whatever the type) returns `ARGON2_SALT_TOO_SHORT`, independently of all
later fields. -/
theorem validate_inputs_salt_too_short (E : Collaborators) (MIN_MEMORY : Nat)
    (context : Argon2_Context) (type : Argon2_type) (h32 : context.fields32)
    (ho : out_ok context) (hp : pwd_ok context) (hs : context.salt ≠ none)
    (hlen : context.saltlen < 8) :
    validate_inputs MIN_MEMORY (some context) = ARGON2_SALT_TOO_SHORT
      ∧ (argon2_core E MIN_MEMORY (some context) type).result = ARGON2_SALT_TOO_SHORT := by
  obtain ⟨h1, h2, -⟩ := h32
  unfold out_ok at ho
  unfold pwd_ok at hp
  have hv : validate_inputs MIN_MEMORY (some context) = ARGON2_SALT_TOO_SHORT := by
    rw [validate_inputs_eq_salt_too_short_iff]
    refine ⟨ho.1, by omega, by omega, ?_, ?_, ?_, hs, hlen⟩
    · rintro ⟨a, b⟩
      rcases hp with h | h
      · exact h a
      · exact b h.symm
    · rintro ⟨-, b⟩; omega
    · rintro ⟨a, -⟩; exact hs a
  refine ⟨hv, ?_⟩
  rw [(argon2_core_early_return E MIN_MEMORY (some context) type).1 (by rw [hv]; decide), hv]

theorem short_salt_context_fields32 : short_salt_context.fields32 := by
  unfold Argon2_Context.fields32
  decide

/-- Witness of C7, the sixth scenario of the specification: a 7-byte salt with type
`Argon2_d`. -/
theorem validate_inputs_salt_too_short_witness :
    short_salt_context.fields32 ∧ out_ok short_salt_context ∧ pwd_ok short_salt_context
      ∧ short_salt_context.salt ≠ none ∧ short_salt_context.saltlen = 7
      ∧ validate_inputs 8 (some short_salt_context) = ARGON2_SALT_TOO_SHORT
      ∧ (argon2_core example_collaborators 8 (some short_salt_context)
            Argon2_type.Argon2_d).result = ARGON2_SALT_TOO_SHORT :=
  have ho : out_ok short_salt_context := ⟨by decide, by decide⟩
  have hp : pwd_ok short_salt_context := Or.inl (by decide)
  ⟨short_salt_context_fields32, ho, hp, by decide, rfl,
    validate_inputs_salt_too_short example_collaborators 8 short_salt_context
      Argon2_type.Argon2_d short_salt_context_fields32 ho hp (by decide) (by decide)⟩

/-- C9: `argon2_core` fails before allocation: if `validate_inputs` does not return
`ARGON2_OK` then `argon2_core` returns exactly that code, and otherwise if the type is
neither `Argon2_d` nor `Argon2_i` it returns `ARGON2_INCORRECT_TYPE`; in both cases no call
is made (neither the allocator callback nor `malloc` is invoked) and the context is left
unchanged. -/
theorem argon2_core_fails_before_allocation (E : Collaborators) (MIN_MEMORY : Nat)
    (context : Option Argon2_Context) (type : Argon2_type)
    (h : validate_inputs MIN_MEMORY context ≠ ARGON2_OK
      ∨ (type ≠ Argon2_type.Argon2_d ∧ type ≠ Argon2_type.Argon2_i)) :
    (argon2_core E MIN_MEMORY context type).result
        = (if validate_inputs MIN_MEMORY context ≠ ARGON2_OK then
            validate_inputs MIN_MEMORY context
          else ARGON2_INCORRECT_TYPE)
      ∧ (argon2_core E MIN_MEMORY context type).trace = []
      ∧ (∀ bytes, Event.allocate_cbk bytes ∉ (argon2_core E MIN_MEMORY context type).trace
          ∧ Event.malloc bytes ∉ (argon2_core E MIN_MEMORY context type).trace)
      ∧ (argon2_core E MIN_MEMORY context type).context = context := by
  by_cases hv : validate_inputs MIN_MEMORY context = ARGON2_OK
  · rcases h with h | ⟨hd, hi⟩
    · exact absurd hv h
    · rw [(argon2_core_early_return E MIN_MEMORY context type).2 hv hd hi]
      simp [hv]
  · rw [(argon2_core_early_return E MIN_MEMORY context type).1 hv]
    simp [hv]

/-- Witness of C9: the fifth scenario of the specification (pointer mismatch) with type
`Argon2_i`. -/
theorem argon2_core_fails_before_allocation_witness :
    validate_inputs 8 (some null_pwd_context) ≠ ARGON2_OK
      ∧ (argon2_core example_collaborators 8 (some null_pwd_context)
            Argon2_type.Argon2_i).result = ARGON2_PWD_PTR_MISMATCH
      ∧ (argon2_core example_collaborators 8 (some null_pwd_context)
            Argon2_type.Argon2_i).trace = [] :=
  have hv : validate_inputs 8 (some null_pwd_context) ≠ ARGON2_OK := by decide
  ⟨hv,
    ((argon2_core_fails_before_allocation example_collaborators 8 (some null_pwd_context)
      Argon2_type.Argon2_i (Or.inl hv)).1).trans (by decide),
    (argon2_core_fails_before_allocation example_collaborators 8 (some null_pwd_context)
      Argon2_type.Argon2_i (Or.inl hv)).2.1⟩
/-! ### The memory of the caller -/

theorem read_bytes_length (bytes : Nat → Nat) (ptr len : Nat) :
    (read_bytes bytes ptr len).length = len := by
  simp [read_bytes]

theorem read_bytes_congr (b1 b2 : Nat → Nat) (ptr len : Nat)
    (h : ∀ i, i < len → b1 (ptr + i) = b2 (ptr + i)) :
    read_bytes b1 ptr len = read_bytes b2 ptr len := by
  unfold read_bytes
  apply List.map_congr_left
  intro i hi
  exact h i (List.mem_range.mp hi)

/-- Reading back what has just been written gives the bytes written. -/
theorem read_store_bytes (bytes : Nat → Nat) (ptr : Nat) (data : List Nat) :
    read_bytes (store_bytes bytes ptr data) ptr data.length = data := by
  apply List.ext_getElem
  · rw [read_bytes_length]
  · intro i h1 h2
    simp only [read_bytes, List.getElem_map, List.getElem_range, store_bytes]
    rw [if_pos (by omega), Nat.add_sub_cancel_left, List.getD_eq_getElem?_getD,
      List.getElem?_eq_getElem h2]
    rfl

theorem in_region_eq_false (ptr : Option Nat) (len a : Nat) :
    in_region ptr len a = false ↔ ∀ p, ptr = some p → ¬ (p ≤ a ∧ a < p + len) := by
  cases ptr with
  | none => simp [in_region]
  | some q => simp [in_region]

theorem in_region_eq_true (ptr : Option Nat) (len a : Nat) :
    in_region ptr len a = true ↔ ∃ p, ptr = some p ∧ p ≤ a ∧ a < p + len := by
  cases ptr with
  | none => simp [in_region]
  | some q => simp [in_region]

/-- Regions that do not overlap have no address in common. -/
theorem no_overlap_apart (p plen : Nat) (q : Option Nat) (qlen : Nat)
    (h : no_overlap (some p) plen q qlen = true) (b : Nat) (hq : q = some b)
    (i : Nat) (hi : i < qlen) : ¬ (p ≤ b + i ∧ b + i < p + plen) := by
  subst hq
  simp only [no_overlap, decide_eq_true_eq] at h
  omega

/-- A buffer that does not overlap a wiped region reads the same after the wipe. -/
theorem absorbed_wipe (bytes : Nat → Nat) (p plen : Nat) (q : Option Nat) (qlen : Nat)
    (h : no_overlap (some p) plen q qlen = true) :
    absorbed (secure_wipe_memory_at bytes p plen) q qlen = absorbed bytes q qlen := by
  cases hq : q with
  | none => rfl
  | some b =>
    simp only [absorbed]
    apply read_bytes_congr
    intro i hi
    simp only [secure_wipe_memory_at]
    rw [if_neg (no_overlap_apart p plen q qlen h b hq i hi)]

/-! ### Wiping of the password and of the secret -/

theorem same_but_lengths_refl (context : Argon2_Context) :
    same_but_lengths context context :=
  ⟨rfl, rfl, rfl, rfl, rfl, rfl, rfl, rfl, rfl, rfl, rfl, rfl, rfl, rfl, rfl, rfl, rfl, rfl⟩

theorem same_but_lengths_trans {a b c : Argon2_Context} (h1 : same_but_lengths a b)
    (h2 : same_but_lengths b c) : same_but_lengths a c := by
  unfold same_but_lengths at *
  obtain ⟨a1, a2, a3, a4, a5, a6, a7, a8, a9, a10, a11, a12, a13, a14, a15, a16, a17, a18⟩
    := h1
  obtain ⟨b1, b2, b3, b4, b5, b6, b7, b8, b9, b10, b11, b12, b13, b14, b15, b16, b17, b18⟩
    := h2
  exact ⟨b1.trans a1, b2.trans a2, b3.trans a3, b4.trans a4, b5.trans a5, b6.trans a6,
    b7.trans a7, b8.trans a8, b9.trans a9, b10.trans a10, b11.trans a11, b12.trans a12,
    b13.trans a13, b14.trans a14, b15.trans a15, b16.trans a16, b17.trans a17,
    b18.trans a18⟩

theorem initial_hash_clear_password_same (context : Argon2_Context) :
    same_but_lengths context (initial_hash_clear_password context) := by
  unfold initial_hash_clear_password
  split
  · split_ifs
    · exact ⟨rfl, rfl, rfl, rfl, rfl, rfl, rfl, rfl, rfl, rfl, rfl, rfl, rfl, rfl, rfl, rfl,
        rfl, rfl⟩
    · exact same_but_lengths_refl context
  · exact same_but_lengths_refl context

theorem initial_hash_clear_secret_same (context : Argon2_Context) :
    same_but_lengths context (initial_hash_clear_secret context) := by
  unfold initial_hash_clear_secret
  split
  · split_ifs
    · exact ⟨rfl, rfl, rfl, rfl, rfl, rfl, rfl, rfl, rfl, rfl, rfl, rfl, rfl, rfl, rfl, rfl,
        rfl, rfl⟩
    · exact same_but_lengths_refl context
  · exact same_but_lengths_refl context

/-- The memory left by the wipe of the password: zero in `pwd[0..pwdlen)` when
`clear_password` is set, unchanged elsewhere. -/
theorem initial_hash_clear_password_bytes (context : Argon2_Context) (a : Nat) :
    (initial_hash_clear_password context).bytes a
      = if (context.clear_password && in_region context.pwd context.pwdlen a) = true then 0
        else context.bytes a := by
  unfold initial_hash_clear_password
  split
  · rename_i pwd hp
    split_ifs with h1 h2 h2
    · simp only [secure_wipe_memory_at]
      simp only [hp, in_region, h1, Bool.true_and, decide_eq_true_eq] at h2
      rw [if_pos h2]
    · simp only [secure_wipe_memory_at]
      simp only [hp, in_region, h1, Bool.true_and, decide_eq_true_eq] at h2
      rw [if_neg h2]
    · simp [h1] at h2
    · rfl
  · rename_i hp
    simp [hp, in_region]

/-- The memory left by the wipe of the secret: zero in `secret[0..secretlen)` when
`clear_secret` is set, unchanged elsewhere. -/
theorem initial_hash_clear_secret_bytes (context : Argon2_Context) (a : Nat) :
    (initial_hash_clear_secret context).bytes a
      = if (context.clear_secret && in_region context.secret context.secretlen a) = true then 0
        else context.bytes a := by
  unfold initial_hash_clear_secret
  split
  · rename_i secret hp
    split_ifs with h1 h2 h2
    · simp only [secure_wipe_memory_at]
      simp only [hp, in_region, h1, Bool.true_and, decide_eq_true_eq] at h2
      rw [if_pos h2]
    · simp only [secure_wipe_memory_at]
      simp only [hp, in_region, h1, Bool.true_and, decide_eq_true_eq] at h2
      rw [if_neg h2]
    · simp [h1] at h2
    · rfl
  · rename_i hp
    simp [hp, in_region]

theorem initial_hash_clear_password_pwdlen (context : Argon2_Context) :
    (initial_hash_clear_password context).pwdlen
      = if context.pwd ≠ none ∧ context.clear_password = true then 0 else context.pwdlen := by
  unfold initial_hash_clear_password
  cases hp : context.pwd with
  | none => simp
  | some pwd => by_cases h : context.clear_password = true <;> simp [h]

theorem initial_hash_clear_password_secretlen (context : Argon2_Context) :
    (initial_hash_clear_password context).secretlen = context.secretlen := by
  unfold initial_hash_clear_password
  cases hp : context.pwd with
  | none => rfl
  | some pwd => by_cases h : context.clear_password = true <;> simp [h]

theorem initial_hash_clear_secret_secretlen (context : Argon2_Context) :
    (initial_hash_clear_secret context).secretlen
      = if context.secret ≠ none ∧ context.clear_secret = true then 0
        else context.secretlen := by
  unfold initial_hash_clear_secret
  cases hp : context.secret with
  | none => simp
  | some secret => by_cases h : context.clear_secret = true <;> simp [h]

theorem initial_hash_clear_secret_pwdlen (context : Argon2_Context) :
    (initial_hash_clear_secret context).pwdlen = context.pwdlen := by
  unfold initial_hash_clear_secret
  cases hp : context.secret with
  | none => rfl
  | some secret => by_cases h : context.clear_secret = true <;> simp [h]

/-- The context left by the two wipes of `initial_hash`: pointers and parameters are kept,
`pwdlen` and `secretlen` are zeroed where a wipe took place, and the memory is zero in the
wiped regions and unchanged elsewhere. -/
theorem initial_hash_wipes (context : Argon2_Context) :
    same_but_lengths context (initial_hash_clear_secret (initial_hash_clear_password context))
      ∧ (initial_hash_clear_secret (initial_hash_clear_password context)).pwdlen
          = (if context.pwd ≠ none ∧ context.clear_password = true then 0
            else context.pwdlen)
      ∧ (initial_hash_clear_secret (initial_hash_clear_password context)).secretlen
          = (if context.secret ≠ none ∧ context.clear_secret = true then 0
            else context.secretlen)
      ∧ ∀ a, (initial_hash_clear_secret (initial_hash_clear_password context)).bytes a
          = if wiped context a = true then 0 else context.bytes a := by
  have hs := initial_hash_clear_password_same context
  have hs2 := initial_hash_clear_secret_same (initial_hash_clear_password context)
  have hsecret : (initial_hash_clear_password context).secret = context.secret :=
    hs.2.2.2.2.2.1
  have hclear : (initial_hash_clear_password context).clear_secret = context.clear_secret :=
    hs.2.2.2.2.2.2.2.2.2.2.2.2.2.2.2.1
  refine ⟨same_but_lengths_trans hs hs2, ?_, ?_, ?_⟩
  · rw [initial_hash_clear_secret_pwdlen, initial_hash_clear_password_pwdlen]
  · rw [initial_hash_clear_secret_secretlen, initial_hash_clear_password_secretlen,
      hsecret, hclear]
  · intro a
    rw [initial_hash_clear_secret_bytes, initial_hash_clear_password_bytes,
      initial_hash_clear_password_secretlen, hsecret, hclear]
    unfold wiped
    cases h1 : (context.clear_password && in_region context.pwd context.pwdlen a) <;>
      cases h2 : (context.clear_secret && in_region context.secret context.secretlen a) <;>
      simp

/-! ### The initial hash, statement by statement -/

theorem store32_length (w : Nat) : (store32 w).length = 4 := rfl

theorem blake2b_update_store32 (S : blake2b_state) (w : Nat) :
    blake2b_update S (store32 w) 4 = { S with absorbed := S.absorbed ++ store32 w } := by
  unfold blake2b_update
  rw [List.take_of_length_le (by rw [store32_length])]

theorem blake2b_update_read_bytes (S : blake2b_state) (bytes : Nat → Nat) (ptr len : Nat) :
    blake2b_update S (read_bytes bytes ptr len) len
      = { S with absorbed := S.absorbed ++ read_bytes bytes ptr len } := by
  unfold blake2b_update
  rw [List.take_of_length_le (by rw [read_bytes_length])]

theorem initial_hash_pwd_eq (S : blake2b_state) (context : Argon2_Context) :
    initial_hash_pwd S context
      = ({ S with absorbed := S.absorbed ++ absorbed context.bytes context.pwd context.pwdlen },
          initial_hash_clear_password context) := by
  unfold initial_hash_pwd initial_hash_clear_password absorbed
  cases context.pwd with
  | none => simp
  | some pwd =>
    by_cases h : context.clear_password = true <;> simp [h, blake2b_update_read_bytes]

theorem initial_hash_secret_eq (S : blake2b_state) (context : Argon2_Context) :
    initial_hash_secret S context
      = ({ S with
            absorbed := S.absorbed ++ absorbed context.bytes context.secret context.secretlen },
          initial_hash_clear_secret context) := by
  unfold initial_hash_secret initial_hash_clear_secret absorbed
  cases context.secret with
  | none => simp
  | some secret =>
    by_cases h : context.clear_secret = true <;> simp [h, blake2b_update_read_bytes]

/-- The statements of `initial_hash` taken together: the digest is that of the message in
which the password is read from the memory on entry, the salt and the secret from the
memory left by the wipe of the password, and the associated data from the memory left by the
wipe of the secret; the context is the one left by the two wipes. -/
theorem initial_hash_eq (E : Collaborators) (blockhash : List Nat) (context : Argon2_Context)
    (type : Argon2_type) :
    initial_hash E (some blockhash) (some context) type
      = (some (write_bytes blockhash 0
            ((E.blake2b
              (store32 context.lanes ++ store32 context.outlen ++ store32 context.m_cost
                ++ store32 context.t_cost ++ store32 ARGON2_VERSION_NUMBER
                ++ store32 (u32 (E.type_value type))
                ++ store32 context.pwdlen ++ absorbed context.bytes context.pwd context.pwdlen
                ++ store32 context.saltlen
                ++ absorbed (initial_hash_clear_password context).bytes context.salt
                    context.saltlen
                ++ store32 context.secretlen
                ++ absorbed (initial_hash_clear_password context).bytes context.secret
                    context.secretlen
                ++ store32 context.adlen
                ++ absorbed (initial_hash_clear_secret
                    (initial_hash_clear_password context)).bytes context.ad context.adlen)
              ARGON2_PREHASH_DIGEST_LENGTH).take ARGON2_PREHASH_DIGEST_LENGTH)),
          some (initial_hash_clear_secret (initial_hash_clear_password context))) := by
  obtain ⟨_, _, _, g1, g2, g3, g4, g5, _⟩ := initial_hash_clear_password_same context
  have g6 := initial_hash_clear_password_secretlen context
  obtain ⟨_, _, _, _, _, _, k1, k2, _⟩ :=
    initial_hash_clear_secret_same (initial_hash_clear_password context)
  simp only [initial_hash, blake2b_update_store32, initial_hash_pwd_eq, initial_hash_secret_eq,
    blake2b_final, blake2b_init, g1, g2, g3, g4, g5, g6, k1, k2, List.nil_append]
  have hsalt : ∀ (S : blake2b_state) (bytes : Nat → Nat),
      (match context.salt with
        | some salt => blake2b_update S (read_bytes bytes salt context.saltlen) context.saltlen
        | none => S)
      = { S with absorbed := S.absorbed ++ absorbed bytes context.salt context.saltlen } := by
    intro S bytes
    unfold absorbed
    cases context.salt <;> simp [blake2b_update_read_bytes]
  have had : ∀ (S : blake2b_state) (bytes : Nat → Nat),
      (match context.ad with
        | some ad => blake2b_update S (read_bytes bytes ad context.adlen) context.adlen
        | none => S)
      = { S with absorbed := S.absorbed ++ absorbed bytes context.ad context.adlen } := by
    intro S bytes
    unfold absorbed
    cases context.ad <;> simp [blake2b_update_read_bytes]
  simp only [hsalt, had, List.append_assoc]

/-! ### The context after `argon2_core` -/

theorem initialise_ok (E : Collaborators) (inst : Argon2_instance_t)
    (context : Argon2_Context)
    (hok : (initialise E (some inst) (some context)).1 = ARGON2_OK) :
    (initialise E (some inst) (some context)).2.2.1
        = some (initial_hash_clear_secret (initial_hash_clear_password context))
      ∧ ∃ filled, (initialise E (some inst) (some context)).2.1 = some filled := by
  simp only [initialise] at hok ⊢
  split_ifs at hok ⊢ with h <;>
    first
      | exact absurd hok.symm h
      | exact ⟨by simp [initial_hash_eq], _, rfl⟩

theorem initialise_not_ok (E : Collaborators) (inst : Argon2_instance_t)
    (context : Argon2_Context)
    (hok : (initialise E (some inst) (some context)).1 ≠ ARGON2_OK) :
    (initialise E (some inst) (some context)).2.2.1 = some context := by
  simp only [initialise] at hok ⊢
  split_ifs at hok ⊢ with h <;>
    first
      | rfl
      | exact absurd rfl hok

theorem fill_memory_blocks_some (E : Collaborators) (inst : Argon2_instance_t) :
    ∃ filled, (fill_memory_blocks E (some inst)).1 = some filled :=
  ⟨_, rfl⟩

/-- The context left by `finalize`: every field is kept, and the memory is changed in
`out[0..outlen)` only. -/
theorem finalize_context (E : Collaborators) (context : Argon2_Context)
    (inst : Argon2_instance_t) :
    ∃ c, (finalize E (some context) (some inst)).1 = some c
      ∧ same_but_lengths context c
      ∧ c.pwdlen = context.pwdlen ∧ c.secretlen = context.secretlen
      ∧ ∀ a, in_region context.out context.outlen a = false → c.bytes a = context.bytes a := by
  refine ⟨_, rfl, same_but_lengths_refl context, rfl, rfl, ?_⟩
  intro a ha
  simp only []
  cases ho : context.out with
  | none => rfl
  | some out =>
    simp only [ho, in_region, decide_eq_false_iff_not] at ha
    simp only [store_bytes]
    rw [if_neg]
    intro hc
    apply ha
    have hl : ((E.blake2b_long context.outlen
        ((block_bytes (finalize_blockhash inst)).take ARGON2_BLOCK_SIZE)).take
          context.outlen).length ≤ context.outlen := List.length_take_le _ _
    omega

theorem argon2_core_ok_finalize (E : Collaborators) (MIN_MEMORY : Nat)
    (context : Argon2_Context) (type : Argon2_type)
    (hok : (argon2_core E MIN_MEMORY (some context) type).result = ARGON2_OK) :
    ∃ inst, (argon2_core E MIN_MEMORY (some context) type).context
      = (finalize E (some (initial_hash_clear_secret (initial_hash_clear_password context)))
          (some inst)).1 := by
  unfold argon2_core at hok ⊢
  simp only [] at hok ⊢
  split_ifs at hok ⊢ with h1 h2 h3
  · exact absurd hok.symm h1
  · exact absurd hok.symm h3
  · have h4 : (initialise E (some (argon2_core_instance context type)) (some context)).1
        = ARGON2_OK := by
      by_contra hc
      exact h3 (fun e => hc e.symm)
    obtain ⟨e1, filled, e2⟩ := initialise_ok E _ context h4
    simp only [e1, e2]
    obtain ⟨filled2, e3⟩ := fill_memory_blocks_some E filled
    rw [e3]
    exact ⟨filled2, rfl⟩

/-- The context left by a call of `argon2_core` that returns `ARGON2_OK`: the one left by
the two wipes of `initial_hash`, with the memory changed in `out[0..outlen)` only. -/
theorem argon2_core_ok_context (E : Collaborators) (MIN_MEMORY : Nat)
    (context : Argon2_Context) (type : Argon2_type)
    (hok : (argon2_core E MIN_MEMORY (some context) type).result = ARGON2_OK) :
    ∃ c, (argon2_core E MIN_MEMORY (some context) type).context = some c
      ∧ same_but_lengths context c
      ∧ c.pwdlen = (if context.pwd ≠ none ∧ context.clear_password = true then 0
          else context.pwdlen)
      ∧ c.secretlen = (if context.secret ≠ none ∧ context.clear_secret = true then 0
          else context.secretlen)
      ∧ ∀ a, in_region context.out context.outlen a = false →
          c.bytes a = if wiped context a = true then 0 else context.bytes a := by
  obtain ⟨w1, w2, w3, w4⟩ := initial_hash_wipes context
  obtain ⟨inst, hfin⟩ := argon2_core_ok_finalize E MIN_MEMORY context type hok
  obtain ⟨c, f1, f2, f3, f4, f5⟩ := finalize_context E
    (initial_hash_clear_secret (initial_hash_clear_password context)) inst
  refine ⟨c, hfin.trans f1, same_but_lengths_trans w1 f2, f3.trans w2, f4.trans w3, ?_⟩
  intro a ha
  rw [← w4 a]
  apply f5
  rw [w1.1, w1.2.1]
  exact ha

/-- The context left by a call of `argon2_core` that does not return `ARGON2_OK`: the
context as it was before the call. -/
theorem argon2_core_not_ok_context (E : Collaborators) (MIN_MEMORY : Nat)
    (context : Argon2_Context) (type : Argon2_type)
    (hok : (argon2_core E MIN_MEMORY (some context) type).result ≠ ARGON2_OK) :
    (argon2_core E MIN_MEMORY (some context) type).context = some context := by
  unfold argon2_core at hok ⊢
  simp only [] at hok ⊢
  split_ifs at hok ⊢ with h1 h2 h3
  · rfl
  · rfl
  · exact initialise_not_ok E _ context (fun e => h3 e.symm)
  · exact absurd rfl hok

/-- The tag written by `finalize`: read back from `out`, it is the result of
`blake2b_long` with output length `outlen`. -/
theorem finalize_out (E : Collaborators) (context : Argon2_Context)
    (inst : Argon2_instance_t) :
    ∃ c input, (finalize E (some context) (some inst)).1 = some c
      ∧ ∀ out, context.out = some out →
          read_bytes c.bytes out ((E.blake2b_long context.outlen input).take
            context.outlen).length
            = (E.blake2b_long context.outlen input).take context.outlen := by
  refine ⟨_, (block_bytes (finalize_blockhash inst)).take ARGON2_BLOCK_SIZE, rfl, ?_⟩
  intro out h
  simp only [h]
  exact read_store_bytes _ _ _

/-- The tag written by a call of `argon2_core` that returns `ARGON2_OK`: read back from
`out`, it is the result of `blake2b_long` with output length `outlen`. -/
theorem argon2_core_ok_tag (E : Collaborators) (MIN_MEMORY : Nat)
    (context : Argon2_Context) (type : Argon2_type)
    (hok : (argon2_core E MIN_MEMORY (some context) type).result = ARGON2_OK) :
    ∃ c input, (argon2_core E MIN_MEMORY (some context) type).context = some c
      ∧ ∀ out, context.out = some out →
          read_bytes c.bytes out ((E.blake2b_long context.outlen input).take
            context.outlen).length
            = (E.blake2b_long context.outlen input).take context.outlen := by
  obtain ⟨w1, _⟩ := initial_hash_wipes context
  obtain ⟨inst, hfin⟩ := argon2_core_ok_finalize E MIN_MEMORY context type hok
  obtain ⟨c, input, h1, h2⟩ := finalize_out E
    (initial_hash_clear_secret (initial_hash_clear_password context)) inst
  rw [w1.1, w1.2.1] at h2
  exact ⟨c, input, hfin.trans h1, h2⟩

/-- C10 (counterexample): a call of `argon2_core` with `clear_password` and `clear_secret`
set that fails validation (a 7-byte salt) returns `ARGON2_SALT_TOO_SHORT` and leaves the
password and the secret as they were, with nonzero bytes. -/
theorem argon2_core_failure_keeps_password :
    short_salt_context.clear_password = true ∧ short_salt_context.clear_secret = true
      ∧ short_salt_context.pwd = some 100 ∧ short_salt_context.pwdlen = 8
      ∧ short_salt_context.secret = some 300 ∧ short_salt_context.secretlen = 3
      ∧ (argon2_core example_collaborators 8 (some short_salt_context)
            Argon2_type.Argon2_d).result = ARGON2_SALT_TOO_SHORT
      ∧ ∃ c, (argon2_core example_collaborators 8 (some short_salt_context)
            Argon2_type.Argon2_d).context = some c
          ∧ c.pwd = some 100 ∧ c.secret = some 300
          ∧ read_bytes c.bytes 100 8 = [112, 97, 115, 115, 119, 111, 114, 100]
          ∧ read_bytes c.bytes 300 3 = [1, 2, 3] := by
  have hv : validate_inputs 8 (some short_salt_context) ≠ ARGON2_OK := by decide
  rw [(argon2_core_early_return example_collaborators 8 (some short_salt_context)
    Argon2_type.Argon2_d).1 hv]
  exact ⟨rfl, rfl, rfl, rfl, rfl, rfl, by decide, short_salt_context, rfl, rfl, rfl,
    by decide, by decide⟩

theorem aliased_out_context_ok :
    (argon2_core echo_collaborators 8 (some aliased_out_context) Argon2_type.Argon2_d).result
      = ARGON2_OK := by
  decide

/-- A call of `argon2_core` that returns `ARGON2_OK` on a context whose output pointer is the
password pointer, with `clear_password` set: the 32 bytes of the password hold the tag
after the call (bytes `0x07` for these collaborators), not zeros. -/
theorem argon2_core_tag_over_password :
    aliased_out_context.clear_password = true
      ∧ aliased_out_context.pwd = some 100 ∧ aliased_out_context.pwdlen = 32
      ∧ aliased_out_context.out = some 100 ∧ aliased_out_context.outlen = 32
      ∧ validate_inputs 8 (some aliased_out_context) = ARGON2_OK
      ∧ (argon2_core echo_collaborators 8 (some aliased_out_context)
            Argon2_type.Argon2_d).result = ARGON2_OK
      ∧ ∃ c, (argon2_core echo_collaborators 8 (some aliased_out_context)
            Argon2_type.Argon2_d).context = some c
          ∧ read_bytes c.bytes 100 32 = List.replicate 32 7 := by
  refine ⟨rfl, rfl, rfl, rfl, rfl, by decide, aliased_out_context_ok, ?_⟩
  obtain ⟨c, input, h1, h2⟩ := argon2_core_ok_tag echo_collaborators 8 aliased_out_context
    Argon2_type.Argon2_d aliased_out_context_ok
  refine ⟨c, h1, ?_⟩
  have h3 := h2 100 rfl
  simpa [echo_collaborators, aliased_out_context, kat_context] using h3

/-- C10 (amended): for every call of `argon2_core` that returns `ARGON2_OK`, the pointers
`pwd` and `secret` are those of the caller and, with `clear_password` set, every byte of
`pwd[0..original pwdlen)` that lies outside `out[0..outlen)` is zero after the call (all
of them when the output buffer does not overlap the password); likewise, with
`clear_secret` set, for `secret[0..original secretlen)`; a call that returns another code
leaves the context and the memory as they were. -/
theorem argon2_core_wipes_on_success (E : Collaborators) (MIN_MEMORY : Nat)
    (context : Argon2_Context) (type : Argon2_type) :
    ((argon2_core E MIN_MEMORY (some context) type).result = ARGON2_OK →
        ∃ c, (argon2_core E MIN_MEMORY (some context) type).context = some c
          ∧ c.pwd = context.pwd ∧ c.secret = context.secret
          ∧ (∀ pwd, context.pwd = some pwd → context.clear_password = true →
              (∀ i, i < context.pwdlen →
                in_region context.out context.outlen (pwd + i) = false →
                  c.bytes (pwd + i) = 0)
              ∧ (no_overlap context.out context.outlen context.pwd context.pwdlen = true →
                  read_bytes c.bytes pwd context.pwdlen = List.replicate context.pwdlen 0))
          ∧ (∀ secret, context.secret = some secret → context.clear_secret = true →
              (∀ i, i < context.secretlen →
                in_region context.out context.outlen (secret + i) = false →
                  c.bytes (secret + i) = 0)
              ∧ (no_overlap context.out context.outlen context.secret context.secretlen = true →
                  read_bytes c.bytes secret context.secretlen
                    = List.replicate context.secretlen 0)))
      ∧ ((argon2_core E MIN_MEMORY (some context) type).result ≠ ARGON2_OK →
        (argon2_core E MIN_MEMORY (some context) type).context = some context) := by
  refine ⟨fun hok => ?_, argon2_core_not_ok_context E MIN_MEMORY context type⟩
  obtain ⟨c, hc, hsame, _, _, hbytes⟩ := argon2_core_ok_context E MIN_MEMORY context type hok
  have hp : ∀ pwd, context.pwd = some pwd → context.clear_password = true →
      ∀ i, i < context.pwdlen → in_region context.out context.outlen (pwd + i) = false →
        c.bytes (pwd + i) = 0 := by
    intro pwd hpwd hclear i hi hout
    rw [hbytes _ hout, if_pos]
    simp only [wiped, hclear, hpwd, in_region, Bool.true_and, Bool.or_eq_true,
      decide_eq_true_eq]
    exact Or.inl ⟨by omega, by omega⟩
  have hs : ∀ secret, context.secret = some secret → context.clear_secret = true →
      ∀ i, i < context.secretlen → in_region context.out context.outlen (secret + i) = false →
        c.bytes (secret + i) = 0 := by
    intro secret hsecret hclear i hi hout
    rw [hbytes _ hout, if_pos]
    simp only [wiped, hclear, hsecret, in_region, Bool.true_and, Bool.or_eq_true,
      decide_eq_true_eq]
    exact Or.inr ⟨by omega, by omega⟩
  have hzero : ∀ (p len : Nat), no_overlap context.out context.outlen (some p) len = true →
      (∀ i, i < len → in_region context.out context.outlen (p + i) = false → c.bytes (p + i) = 0) →
      read_bytes c.bytes p len = List.replicate len 0 := by
    intro p len hno h
    apply List.ext_getElem
    · rw [read_bytes_length, List.length_replicate]
    · intro i h1 h2
      rw [read_bytes_length] at h1
      simp only [read_bytes, List.getElem_map, List.getElem_range, List.getElem_replicate]
      apply h i h1
      rw [in_region_eq_false]
      intro o ho
      rw [ho] at hno
      exact no_overlap_apart o context.outlen (some p) len hno p rfl i h1
  refine ⟨c, hc, hsame.2.2.1, hsame.2.2.2.2.2.1, ?_, ?_⟩
  · intro pwd hpwd hclear
    refine ⟨hp pwd hpwd hclear, fun hno => ?_⟩
    rw [hpwd] at hno
    exact hzero pwd _ hno (hp pwd hpwd hclear)
  · intro secret hsecret hclear
    refine ⟨hs secret hsecret hclear, fun hno => ?_⟩
    rw [hsecret] at hno
    exact hzero secret _ hno (hs secret hsecret hclear)

theorem wipe_context_ok :
    (argon2_core example_collaborators 8 (some wipe_context) Argon2_type.Argon2_i).result
      = ARGON2_OK := by
  decide

/-- Witness of the amended C10: the first scenario with both flags set and an allocator
that succeeds; the password at address 100 held 32 bytes `0x01` and the secret at address
300 held 8 bytes `0x03`; after the call both read as zeros, the pointers being kept. -/
theorem argon2_core_wipes_on_success_witness :
    (argon2_core example_collaborators 8 (some wipe_context) Argon2_type.Argon2_i).result
        = ARGON2_OK
      ∧ read_bytes wipe_context.bytes 100 32 = List.replicate 32 1
      ∧ read_bytes wipe_context.bytes 300 8 = List.replicate 8 3
      ∧ ∃ c, (argon2_core example_collaborators 8 (some wipe_context)
            Argon2_type.Argon2_i).context = some c
          ∧ c.pwd = some 100 ∧ c.secret = some 300
          ∧ read_bytes c.bytes 100 32 = List.replicate 32 0
          ∧ read_bytes c.bytes 300 8 = List.replicate 8 0 :=
  ⟨wipe_context_ok, by decide, by decide,
    match (argon2_core_wipes_on_success example_collaborators 8 wipe_context
      Argon2_type.Argon2_i).1 wipe_context_ok with
    | ⟨c, h1, h2, h3, h4, h5⟩ =>
      ⟨c, h1, h2, h3, (h4 100 rfl rfl).2 (by decide), (h5 300 rfl rfl).2 (by decide)⟩⟩
/-! ### The initial hash -/

theorem absorbed_clear_password (context : Argon2_Context) (q : Option Nat) (qlen : Nat)
    (h : context.clear_password = true →
      no_overlap context.pwd context.pwdlen q qlen = true) :
    absorbed (initial_hash_clear_password context).bytes q qlen
      = absorbed context.bytes q qlen := by
  unfold initial_hash_clear_password
  split
  · rename_i pwd hp
    split_ifs with hc
    · rw [hp] at h
      exact absorbed_wipe _ _ _ _ _ (h hc)
    · rfl
  · rfl

theorem absorbed_clear_secret (context : Argon2_Context) (q : Option Nat) (qlen : Nat)
    (h : context.clear_secret = true →
      no_overlap context.secret context.secretlen q qlen = true) :
    absorbed (initial_hash_clear_secret context).bytes q qlen
      = absorbed context.bytes q qlen := by
  unfold initial_hash_clear_secret
  split
  · rename_i secret hp
    split_ifs with hc
    · rw [hp] at h
      exact absorbed_wipe _ _ _ _ _ (h hc)
    · rfl
  · rfl

theorem initial_hash_clear_password_unset (context : Argon2_Context)
    (h : context.clear_password = false) : initial_hash_clear_password context = context := by
  unfold initial_hash_clear_password
  cases context.pwd <;> simp [h]

theorem initial_hash_clear_secret_unset (context : Argon2_Context)
    (h : context.clear_secret = false) : initial_hash_clear_secret context = context := by
  unfold initial_hash_clear_secret
  cases context.secret <;> simp [h]

/-- C13 (counterexample): on a validated context whose salt pointer is the password pointer,
with `clear_password` set, `initial_hash` absorbs the salt after the wipe of the password,
as eight zero bytes: the message it hashes differs from the message of the specification,
which has the original bytes (`password`) at the place of the salt, and for a hash that
returns the first 64 bytes of its message the prehash is not the digest of that message. -/
theorem initial_hash_absorbs_wiped_salt :
    validate_inputs 8 (some aliased_salt_context) = ARGON2_OK
      ∧ aliased_salt_context.salt = aliased_salt_context.pwd
      ∧ aliased_salt_context.clear_password = true
      ∧ (initial_hash echo_collaborators (some (List.replicate 72 0))
            (some aliased_salt_context) Argon2_type.Argon2_d).1
          = some ([1, 0, 0, 0, 32, 0, 0, 0, 8, 0, 0, 0, 1, 0, 0, 0, 16, 0, 0, 0, 0, 0, 0, 0,
              8, 0, 0, 0, 112, 97, 115, 115, 119, 111, 114, 100,
              8, 0, 0, 0, 0, 0, 0, 0, 0, 0, 0, 0,
              0, 0, 0, 0, 0, 0, 0, 0] ++ List.replicate 16 0)
      ∧ initial_hash_input echo_collaborators aliased_salt_context Argon2_type.Argon2_d
          = [1, 0, 0, 0, 32, 0, 0, 0, 8, 0, 0, 0, 1, 0, 0, 0, 16, 0, 0, 0, 0, 0, 0, 0,
              8, 0, 0, 0, 112, 97, 115, 115, 119, 111, 114, 100,
              8, 0, 0, 0, 112, 97, 115, 115, 119, 111, 114, 100,
              0, 0, 0, 0, 0, 0, 0, 0]
      ∧ (initial_hash echo_collaborators (some (List.replicate 72 0))
            (some aliased_salt_context) Argon2_type.Argon2_d).1
          ≠ some (write_bytes (List.replicate 72 0) 0
              ((echo_collaborators.blake2b
                (initial_hash_input echo_collaborators aliased_salt_context
                  Argon2_type.Argon2_d) 64).take 64)) := by
  refine ⟨by decide, rfl, rfl, by decide, by decide, by decide⟩

/-- C13 (amended): whatever the flags `clear_password` and `clear_secret`, when no buffer
that is absorbed after a wipe overlaps the wiped region (`salt`, `secret` and `ad` do not
overlap `pwd[0..pwdlen)` if `clear_password` is set, `ad` does not overlap
`secret[0..secretlen)` if `clear_secret` is set), the prehash written by `initial_hash`
into the first 64 bytes of the seed buffer is the 64-byte BLAKE2b digest of the single byte
string `LE32(lanes) || LE32(outlen) || LE32(m_cost) || LE32(t_cost) || LE32(0x10) ||
LE32(type) || LE32(pwdlen) || pwd || LE32(saltlen) || salt || LE32(secretlen) || secret ||
LE32(adlen) || ad`, with the lengths and contents that the context and the memory have
before the call (before any wipe) and the `m_cost` of the caller. -/
theorem initial_hash_prehash (E : Collaborators) (blockhash : List Nat)
    (context : Argon2_Context) (type : Argon2_type)
    (hapart : absorbed_apart context = true) :
    (initial_hash E (some blockhash) (some context) type).1
      = some (write_bytes blockhash 0
          ((E.blake2b
            (store32 context.lanes ++ store32 context.outlen ++ store32 context.m_cost
              ++ store32 context.t_cost ++ store32 0x10 ++ store32 (u32 (E.type_value type))
              ++ store32 context.pwdlen ++ absorbed context.bytes context.pwd context.pwdlen
              ++ store32 context.saltlen ++ absorbed context.bytes context.salt context.saltlen
              ++ store32 context.secretlen
              ++ absorbed context.bytes context.secret context.secretlen
              ++ store32 context.adlen ++ absorbed context.bytes context.ad context.adlen)
            64).take 64)) := by
  simp only [absorbed_apart, Bool.and_eq_true, Bool.or_eq_true, Bool.not_eq_true'] at hapart
  obtain ⟨hp, hs⟩ := hapart
  have hp1 : context.clear_password = true →
      no_overlap context.pwd context.pwdlen context.salt context.saltlen = true
        ∧ no_overlap context.pwd context.pwdlen context.secret context.secretlen = true
        ∧ no_overlap context.pwd context.pwdlen context.ad context.adlen = true := by
    intro hc
    rcases hp with hp | hp
    · rw [hc] at hp
      exact absurd hp (by decide)
    · exact ⟨hp.1.1, hp.1.2, hp.2⟩
  have hs1 : context.clear_secret = true →
      no_overlap context.secret context.secretlen context.ad context.adlen = true := by
    intro hc
    rcases hs with hs | hs
    · rw [hc] at hs
      exact absurd hs (by decide)
    · exact hs
  have hsame := initial_hash_clear_password_same context
  have e1 := absorbed_clear_password context context.salt context.saltlen
    (fun hc => (hp1 hc).1)
  have e2 := absorbed_clear_password context context.secret context.secretlen
    (fun hc => (hp1 hc).2.1)
  have e3 := absorbed_clear_password context context.ad context.adlen
    (fun hc => (hp1 hc).2.2)
  have e4 := absorbed_clear_secret (initial_hash_clear_password context) context.ad
    context.adlen (by
      rw [hsame.2.2.2.2.2.1, initial_hash_clear_password_secretlen,
        hsame.2.2.2.2.2.2.2.2.2.2.2.2.2.2.2.1]
      exact hs1)
  rw [initial_hash_eq, e1, e2, e4, e3]
  rfl

/-- Witness of C13: the first scenario of the specification with both flags set; its five
buffers lie apart (addresses 100, 200, 300, 400 and 500). -/
theorem initial_hash_prehash_witness :
    absorbed_apart wipe_context = true
      ∧ (initial_hash echo_collaborators (some (List.replicate 72 0)) (some wipe_context)
            Argon2_type.Argon2_i).1
          = some (write_bytes (List.replicate 72 0) 0
              ((echo_collaborators.blake2b
                (store32 4 ++ store32 32 ++ store32 16 ++ store32 3 ++ store32 0x10
                  ++ store32 1
                  ++ store32 32 ++ List.replicate 32 1
                  ++ store32 16 ++ List.replicate 16 2
                  ++ store32 8 ++ List.replicate 8 3
                  ++ store32 12 ++ List.replicate 12 4) 64).take 64)) :=
  ⟨by decide,
    (initial_hash_prehash echo_collaborators (List.replicate 72 0) wipe_context
      Argon2_type.Argon2_i (by decide)).trans (by decide)⟩

/-- C20 (counterexample): with a `NULL` seed buffer `initial_hash` returns at once, so that
with `clear_password` set and a password pointer that is not `NULL` the password keeps its
nonzero bytes; and on a context whose salt pointer is the password pointer the wipe of the
password zeroes the eight bytes of the salt, which held `password` before the call. -/
theorem initial_hash_null_seed_aliased_salt :
    (wipe_context.clear_password = true ∧ wipe_context.pwd = some 100
        ∧ wipe_context.pwdlen = 32
        ∧ ∃ c, (initial_hash example_collaborators none (some wipe_context)
              Argon2_type.Argon2_d).2 = some c
            ∧ c.pwdlen = 32 ∧ read_bytes c.bytes 100 32 = List.replicate 32 1)
      ∧ (aliased_salt_context.clear_password = true
        ∧ aliased_salt_context.salt = some 100 ∧ aliased_salt_context.saltlen = 8
        ∧ read_bytes aliased_salt_context.bytes 100 8
            = [112, 97, 115, 115, 119, 111, 114, 100]
        ∧ ∃ c, (initial_hash example_collaborators (some (List.replicate 72 0))
              (some aliased_salt_context) Argon2_type.Argon2_d).2 = some c
            ∧ c.salt = some 100 ∧ c.saltlen = 8
            ∧ read_bytes c.bytes 100 8 = List.replicate 8 0) := by
  refine ⟨⟨rfl, rfl, rfl, wipe_context, rfl, rfl, by decide⟩, rfl, rfl, rfl, by decide, ?_⟩
  rw [initial_hash_eq]
  exact ⟨_, rfl, rfl, rfl, by decide⟩

/-- C20 (amended): for every context and a seed buffer that is not `NULL`, `initial_hash`
keeps the five buffer pointers and every field other than `pwdlen` and `secretlen`; with a
password pointer that is not `NULL` and `clear_password` set, every byte of
`pwd[0..original pwdlen)` is zero after the call and `pwdlen` is 0, and otherwise `pwdlen`
is unchanged; the same holds for `secret` and `secretlen` under `clear_secret`; every byte
of the memory outside the wiped regions keeps its value, so that the bytes of `pwd` (when
not wiped), `salt`, `ad` and `out` are unchanged wherever they do not overlap a wiped
region, and with both flags unset the context is unchanged.  With a `NULL` seed buffer the
function returns at once and changes nothing. -/
theorem initial_hash_effect (E : Collaborators) (blockhash : List Nat)
    (context : Argon2_Context) (type : Argon2_type) :
    (∃ c, (initial_hash E (some blockhash) (some context) type).2 = some c
      ∧ same_but_lengths context c
      ∧ (∀ pwd, context.pwd = some pwd → context.clear_password = true →
          c.pwdlen = 0 ∧ read_bytes c.bytes pwd context.pwdlen
            = List.replicate context.pwdlen 0)
      ∧ (context.pwd = none ∨ context.clear_password = false → c.pwdlen = context.pwdlen)
      ∧ (∀ secret, context.secret = some secret → context.clear_secret = true →
          c.secretlen = 0 ∧ read_bytes c.bytes secret context.secretlen
            = List.replicate context.secretlen 0)
      ∧ (context.secret = none ∨ context.clear_secret = false →
          c.secretlen = context.secretlen)
      ∧ (∀ a, c.bytes a = if wiped context a = true then 0 else context.bytes a)
      ∧ (context.clear_password = false → context.clear_secret = false → c = context))
    ∧ initial_hash E none (some context) type = (none, some context) := by
  refine ⟨?_, rfl⟩
  rw [initial_hash_eq]
  obtain ⟨w1, w2, w3, w4⟩ := initial_hash_wipes context
  have hzero : ∀ (p len : Nat), (∀ i, i < len → wiped context (p + i) = true) →
      read_bytes (initial_hash_clear_secret (initial_hash_clear_password context)).bytes p len
        = List.replicate len 0 := by
    intro p len h
    apply List.ext_getElem
    · rw [read_bytes_length, List.length_replicate]
    · intro i h1 h2
      rw [read_bytes_length] at h1
      simp only [read_bytes, List.getElem_map, List.getElem_range, List.getElem_replicate]
      rw [w4, if_pos (h i h1)]
  refine ⟨_, rfl, w1, ?_, ?_, ?_, ?_, w4, ?_⟩
  · intro pwd hpwd hclear
    refine ⟨?_, hzero pwd _ ?_⟩
    · rw [w2, if_pos ⟨by simp [hpwd], hclear⟩]
    · intro i hi
      simp only [wiped, hclear, hpwd, in_region, Bool.true_and, Bool.or_eq_true,
        decide_eq_true_eq]
      exact Or.inl ⟨by omega, by omega⟩
  · intro h
    rw [w2, if_neg]
    rintro ⟨h1, h2⟩
    rcases h with h | h
    · exact h1 h
    · rw [h2] at h
      exact absurd h (by decide)
  · intro secret hsecret hclear
    refine ⟨?_, hzero secret _ ?_⟩
    · rw [w3, if_pos ⟨by simp [hsecret], hclear⟩]
    · intro i hi
      simp only [wiped, hclear, hsecret, in_region, Bool.true_and, Bool.or_eq_true,
        decide_eq_true_eq]
      exact Or.inr ⟨by omega, by omega⟩
  · intro h
    rw [w3, if_neg]
    rintro ⟨h1, h2⟩
    rcases h with h | h
    · exact h1 h
    · rw [h2] at h
      exact absurd h (by decide)
  · intro h1 h2
    rw [initial_hash_clear_password_unset context h1,
      initial_hash_clear_secret_unset context h2]

/-- Witness of C20: the first scenario of the specification with both flags set; the
password at address 100 and the secret at address 300 read as zeros after the call, the
salt at address 200 and the associated data at address 400 are as before. -/
theorem initial_hash_effect_witness :
    read_bytes wipe_context.bytes 100 32 = List.replicate 32 1
      ∧ ∃ c, (initial_hash example_collaborators (some (List.replicate 72 0))
            (some wipe_context) Argon2_type.Argon2_d).2 = some c
          ∧ c.pwd = some 100 ∧ c.pwdlen = 0
          ∧ read_bytes c.bytes 100 32 = List.replicate 32 0
          ∧ c.secret = some 300 ∧ c.secretlen = 0
          ∧ read_bytes c.bytes 300 8 = List.replicate 8 0
          ∧ read_bytes c.bytes 200 16 = List.replicate 16 2
          ∧ read_bytes c.bytes 400 12 = List.replicate 12 4 :=
  ⟨by decide,
    match (initial_hash_effect example_collaborators (List.replicate 72 0) wipe_context
      Argon2_type.Argon2_d).1 with
    | ⟨c, h1, h2, h3, _, h5, _, h7, _⟩ =>
      ⟨c, h1, h2.2.2.1, (h3 100 rfl rfl).1, (h3 100 rfl rfl).2, h2.2.2.2.2.2.1,
        (h5 300 rfl rfl).1, (h5 300 rfl rfl).2,
        (read_bytes_congr _ _ _ _ (fun i hi => (h7 (200 + i)).trans
          (if_neg (by simp [wiped, in_region, wipe_context, kat_context]; omega)))).trans
          (by decide),
        (read_bytes_congr _ _ _ _ (fun i hi => (h7 (400 + i)).trans
          (if_neg (by simp [wiped, in_region, wipe_context, kat_context]; omega)))).trans
          (by decide)⟩⟩

/-! ### `index_alpha` over the integers -/

theorem mod_two_cases (x L : Nat) (hx : x < 2 * L) :
    x % L = if x < L then x else x - L := by
  split_ifs with h
  · exact Nat.mod_eq_of_lt h
  · rw [Nat.mod_eq_sub_mod (by omega), Nat.mod_eq_of_lt (by omega)]

theorem spec_R_eq (inst : Argon2_instance_t) (position : Argon2_position_t) (same_lane : Bool)
    (h : LegalPosition inst position same_lane) :
    spec_R inst position same_lane = (spec_reference_area_size inst position same_lane : Nat) := by
  obtain ⟨h1, h2, h3, h4, h5, h6⟩ := h
  unfold spec_R spec_reference_area_size
  generalize inst.segment_length = s at *
  generalize inst.lane_length = L at *
  generalize position.index = i at *
  generalize position.pass = p at *
  generalize position.slice = sl at *
  subst h2
  have hsl : sl = 0 ∨ sl = 1 ∨ sl = 2 ∨ sl = 3 := by omega
  by_cases hp : p = 0
  · rcases hsl with rfl | rfl | rfl | rfl
    · obtain ⟨h7, h8⟩ := h6 hp rfl
      simp only [hp, if_true]
      omega
    all_goals
      cases same_lane <;> by_cases hi : i = 0 <;> simp [hp, hi] <;> omega
  · cases same_lane <;> by_cases hi : i = 0 <;> simp [hp, hi] <;> omega

theorem spec_start_eq (inst : Argon2_instance_t) (position : Argon2_position_t) :
    spec_start inst position = (spec_start_offset inst position : Nat) := by
  unfold spec_start spec_start_offset
  split_ifs <;> simp

theorem spec_z_eq (R J1 : Nat) : spec_z R J1 = (spec_mapping R J1 : Nat) := by
  unfold spec_z spec_mapping
  push_cast
  rfl

/-- C18: for every legal position, every `same_lane` value allowed there and every 32-bit
`J1`, the value returned by `index_alpha` equals
`(start + R - 1 - ((R * ((J1 * J1) >> 32)) >> 32)) mod lane_length` evaluated over the
integers, with `R` and `start` given by the five reference-area cases and the start-offset
rule of the specification; `R ≥ 1`, the relative position lies in `[0, R - 1]`, and no
intermediate value of the code wraps around: the 32-bit `reference_area_size` (with its
`+ (-1)` adjustments) and `start_position` equal `R` and `start`, the 64-bit products
`J1 * J1` and `R * y` and the sum `start + rel` stay below `2^64`, and `R - 1 - z` is not
negative. -/
theorem index_alpha_exact (inst : Argon2_instance_t) (position : Argon2_position_t)
    (J1 : Nat) (same_lane : Bool) (h : LegalPosition inst position same_lane)
    (hJ : J1 < 2 ^ 32) :
    (index_alpha inst position J1 same_lane : Int)
        = (spec_start inst position
            + (spec_R inst position same_lane - 1
                - spec_z (spec_R inst position same_lane) J1))
          % (inst.lane_length : Int)
      ∧ 1 ≤ spec_R inst position same_lane
      ∧ 0 ≤ spec_R inst position same_lane - 1 - spec_z (spec_R inst position same_lane) J1
      ∧ spec_R inst position same_lane - 1 - spec_z (spec_R inst position same_lane) J1
          ≤ spec_R inst position same_lane - 1
      ∧ (index_alpha_reference_area_size inst position same_lane : Int)
          = spec_R inst position same_lane
      ∧ (index_alpha_start_position inst position : Int) = spec_start inst position
      ∧ spec_R inst position same_lane < 2 ^ 32
      ∧ spec_start inst position < 2 ^ 32
      ∧ (J1 : Int) * J1 < 2 ^ 64
      ∧ spec_R inst position same_lane * (((J1 : Int) * J1) / 2 ^ 32) < 2 ^ 64
      ∧ spec_start inst position
          + (spec_R inst position same_lane - 1
              - spec_z (spec_R inst position same_lane) J1) < 2 ^ 64 := by
  obtain ⟨hR, hR1, hR2⟩ := index_alpha_reference_area_size_eq inst position same_lane h
  obtain ⟨hS, hS1⟩ := index_alpha_start_position_eq inst position same_lane h
  have hL := h.lane_le
  have hseg := h.segment_ge
  have hRlt : spec_reference_area_size inst position same_lane < 2 ^ 32 := by omega
  obtain ⟨-, hM1⟩ := index_alpha_mapping_eq _ J1 hRlt hJ
  have hz := hM1 hR1
  have hJJ : J1 * J1 < 2 ^ 64 := by
    calc J1 * J1 < 2 ^ 32 * 2 ^ 32 := Nat.mul_lt_mul'' hJ hJ
      _ = 2 ^ 64 := by norm_num
  have hy : J1 * J1 / 2 ^ 32 < 2 ^ 32 := by
    apply Nat.div_lt_of_lt_mul
    calc J1 * J1 < 2 ^ 64 := hJJ
      _ = 2 ^ 32 * 2 ^ 32 := by norm_num
  have hRy : spec_reference_area_size inst position same_lane * (J1 * J1 / 2 ^ 32) < 2 ^ 64 := by
    calc spec_reference_area_size inst position same_lane * (J1 * J1 / 2 ^ 32)
        < 2 ^ 32 * 2 ^ 32 := Nat.mul_lt_mul'' hRlt hy
      _ = 2 ^ 64 := by norm_num
  rw [index_alpha_unbounded inst position J1 same_lane h hJ, hR, hS,
    spec_R_eq inst position same_lane h, spec_start_eq, spec_z_eq]
  generalize spec_reference_area_size inst position same_lane = R at *
  generalize spec_start_offset inst position = S at *
  have hzd : spec_mapping R J1 = R * (J1 * J1 / 2 ^ 32) / 2 ^ 32 := rfl
  generalize spec_mapping R J1 = z at *
  refine ⟨?_, by omega, by omega, by omega, rfl, rfl, by omega, by omega, ?_, ?_, by omega⟩
  · rw [Int.natCast_mod]
    congr 1
    omega
  · exact_mod_cast hJJ
  · exact_mod_cast hRy

/-- Witness of C18: pass 1, slice 2, index 1 of a lane of 16 blocks, in the same lane. -/
theorem index_alpha_exact_witness :
    LegalPosition example_instance example_position true
      ∧ (index_alpha example_instance example_position 305419896 true : Int)
          = (spec_start example_instance example_position
              + (spec_R example_instance example_position true - 1
                  - spec_z (spec_R example_instance example_position true) 305419896))
            % (example_instance.lane_length : Int)
      ∧ 1 ≤ spec_R example_instance example_position true :=
  have h : LegalPosition example_instance example_position true :=
    ⟨by decide, by decide, by decide, by decide, by decide, by decide⟩
  ⟨h, (index_alpha_exact example_instance example_position 305419896 true h (by decide)).1,
    (index_alpha_exact example_instance example_position 305419896 true h (by decide)).2.1⟩

/-- C17: for every legal position other than (pass 0, slice 0) and every 32-bit `J1`,
`index_alpha` called with `same_lane = false` returns a column of the lane outside the
current slice `[slice * segment_length, (slice + 1) * segment_length)`: in pass 0 the column
is strictly below `slice * segment_length`, in later passes it lies in one of the three
other slices; when `index = 0` the last column of the preceding slice,
`(slice * segment_length - 1) mod lane_length`, is excluded as well. -/
theorem index_alpha_other_lane (inst : Argon2_instance_t) (position : Argon2_position_t)
    (J1 : Nat) (h : LegalPosition inst position false) (hJ : J1 < 2 ^ 32) :
    index_alpha inst position J1 false < inst.lane_length
      ∧ (index_alpha inst position J1 false < position.slice * inst.segment_length
          ∨ (position.slice + 1) * inst.segment_length ≤ index_alpha inst position J1 false)
      ∧ (position.pass = 0 →
          index_alpha inst position J1 false < position.slice * inst.segment_length)
      ∧ (position.index = 0 →
          index_alpha inst position J1 false
            ≠ (position.slice * inst.segment_length + inst.lane_length - 1)
                % inst.lane_length) := by
  obtain ⟨-, hR1, -⟩ := index_alpha_reference_area_size_eq inst position false h
  have hRlt : spec_reference_area_size inst position false < 2 ^ 32 := by
    have := (index_alpha_reference_area_size_eq inst position false h).2.2
    have := h.lane_le
    omega
  have hz := (index_alpha_mapping_eq _ J1 hRlt hJ).2 hR1
  rw [index_alpha_unbounded inst position J1 false h hJ]
  generalize spec_mapping (spec_reference_area_size inst position false) J1 = z at *
  obtain ⟨h1, h2, h3, h4, h5, h6⟩ := h
  unfold spec_reference_area_size spec_start_offset at *
  generalize inst.segment_length = s at *
  generalize inst.lane_length = L at *
  generalize position.index = i at *
  generalize position.pass = p at *
  generalize position.slice = sl at *
  subst h2
  have hsl : sl = 0 ∨ sl = 1 ∨ sl = 2 ∨ sl = 3 := by omega
  by_cases hp : p = 0
  · rcases hsl with rfl | rfl | rfl | rfl
    · exact absurd (h6 hp rfl).2 (by decide)
    all_goals
      by_cases hi : i = 0 <;> simp [hp, hi] at hz hR1 ⊢ <;>
        (first
          | rw [mod_two_cases _ _ (by omega), mod_two_cases _ _ (by omega)]
          | rw [mod_two_cases _ _ (by omega)]) <;>
        split_ifs <;> omega
  · rcases hsl with rfl | rfl | rfl | rfl <;>
      by_cases hi : i = 0 <;> simp [hp, hi] at hz hR1 ⊢ <;>
        (first
          | rw [mod_two_cases _ _ (by omega), mod_two_cases _ _ (by omega)]
          | rw [mod_two_cases _ _ (by omega)]) <;>
        split_ifs <;> omega

/-- Witness of C17: pass 1, slice 0, index 0 of a lane of 16 blocks, reference in another
lane. -/
theorem index_alpha_other_lane_witness :
    LegalPosition example_instance example_position_other false
      ∧ index_alpha example_instance example_position_other 305419896 false
          < example_instance.lane_length
      ∧ (index_alpha example_instance example_position_other 305419896 false
            < example_position_other.slice * example_instance.segment_length
          ∨ (example_position_other.slice + 1) * example_instance.segment_length
            ≤ index_alpha example_instance example_position_other 305419896 false) :=
  have h : LegalPosition example_instance example_position_other false :=
    ⟨by decide, by decide, by decide, by decide, by decide, by decide⟩
  ⟨h, (index_alpha_other_lane example_instance example_position_other 305419896 h
        (by decide)).1,
    (index_alpha_other_lane example_instance example_position_other 305419896 h
        (by decide)).2.1⟩

/-! ### Allocation size, workers and clearing of the matrix -/

/-- C12 (the code at the failing input): for the accepted context with allocator callbacks,
one lane and `m_cost = 2^22`, the instance has `memory_blocks = 2^22`, so that
`memory_blocks * 1024 = 2^32`, and `initialize` asks `allocate_cbk` for 0 bytes. -/
theorem initialise_allocate_cbk_truncated :
    validate_inputs 8 (some large_context) = ARGON2_OK
      ∧ (argon2_core_instance large_context Argon2_type.Argon2_d).memory_blocks = 4194304
      ∧ 4194304 * 1024 = 2 ^ 32
      ∧ (initialise example_collaborators
            (some (argon2_core_instance large_context Argon2_type.Argon2_d))
            (some large_context)).2.2.2 = [Event.allocate_cbk 0] := by
  refine ⟨by decide, by decide, by norm_num, by decide⟩

/-- C15 (the code at the failing input): for the accepted context with one lane and two
threads, `argon2_core` creates the worker of lane 0 in each of the four slices of the pass
and joins no worker at all. -/
theorem fill_memory_blocks_joins_nothing :
    validate_inputs 8 (some two_threads_context) = ARGON2_OK
      ∧ (argon2_core_instance two_threads_context Argon2_type.Argon2_d).lanes = 1
      ∧ (argon2_core_instance two_threads_context Argon2_type.Argon2_d).threads = 2
      ∧ created_lanes (fill_memory_blocks example_collaborators
          (some (argon2_core_instance two_threads_context Argon2_type.Argon2_d))).2
          = [0, 0, 0, 0]
      ∧ joined_threads (fill_memory_blocks example_collaborators
          (some (argon2_core_instance two_threads_context Argon2_type.Argon2_d))).2 = [] := by
  refine ⟨by decide, by decide, by decide, by decide, by decide⟩

theorem load64_replicate_zero (k : Nat) : load64 (List.replicate k 0) = 0 := by
  induction k with
  | zero => rfl
  | succ k ih =>
    rw [List.replicate_succ]
    unfold load64 at ih ⊢
    rw [List.foldr_cons, ih]

theorem load64_words_zero (n k : Nat) :
    (List.range k).map (fun i => load64 (((List.replicate n 0).drop (8 * i)).take 8))
      = List.replicate k 0 := by
  apply List.ext_getElem
  · simp
  · intro i h1 h2
    simp only [List.getElem_map, List.getElem_range, List.drop_replicate, List.take_replicate,
      load64_replicate_zero, List.getElem_replicate]

theorem words_in_block : ARGON2_WORDS_IN_BLOCK = 128 := rfl

theorem bytes_block_zero :
    bytes_block (List.replicate ARGON2_BLOCK_SIZE 0) = { v := List.replicate 128 0 } := by
  unfold bytes_block
  rw [load64_words_zero, words_in_block]

theorem store64_zero : store64 0 = List.replicate 8 0 := by
  decide

theorem block_bytes_replicate_zero (k : Nat) :
    block_bytes { v := List.replicate k 0 } = List.replicate (8 * k) 0 := by
  unfold block_bytes
  induction k with
  | zero => rfl
  | succ k ih =>
    simp only [List.replicate_succ, List.foldr_cons] at ih ⊢
    rw [ih, store64_zero, ← List.replicate_add]
    congr 1
    omega

theorem block_bytes_zero :
    block_bytes { v := List.replicate 128 0 } = List.replicate 1024 0 :=
  block_bytes_replicate_zero 128

theorem secure_wipe_blocks_all (memory : List block) (n : Nat)
    (hn : memory.length * ARGON2_BLOCK_SIZE ≤ n) :
    secure_wipe_blocks memory n
      = List.replicate memory.length (bytes_block (List.replicate ARGON2_BLOCK_SIZE 0)) := by
  unfold secure_wipe_blocks
  apply List.ext_getElem
  · simp
  · intro i h1 h2
    simp only [List.length_zipWith, List.length_range, min_self] at h1
    simp only [List.getElem_zipWith, List.getElem_range, List.getElem_replicate]
    have : (i + 1) * ARGON2_BLOCK_SIZE ≤ n := by
      calc (i + 1) * ARGON2_BLOCK_SIZE ≤ memory.length * ARGON2_BLOCK_SIZE :=
            Nat.mul_le_mul_right _ h1
        _ ≤ n := hn
    rw [if_pos this]

theorem clear_memory_set (E : Collaborators) (inst : Argon2_instance_t) (memory : List block)
    (hm : inst.memory = some memory) (hlen : memory.length = inst.memory_blocks)
    (hsize : ARGON2_BLOCK_SIZE * inst.memory_blocks ≤ E.size_max) :
    clear_memory E inst true
      = { inst with memory := some (List.replicate inst.memory_blocks
            { v := List.replicate 128 0 }) } := by
  unfold clear_memory
  simp only [hm, if_true]
  have hs : size_t E (ARGON2_BLOCK_SIZE * inst.memory_blocks)
      = ARGON2_BLOCK_SIZE * inst.memory_blocks := by
    unfold size_t
    exact Nat.mod_eq_of_lt (by omega)
  rw [hs, secure_wipe_blocks_all memory _ (by rw [hlen, Nat.mul_comm]), bytes_block_zero, hlen]

theorem clear_memory_unset (E : Collaborators) (inst : Argon2_instance_t) :
    clear_memory E inst false = inst := by
  unfold clear_memory
  cases inst.memory <;> simp

/-- C11: for every instance whose matrix holds `memory_blocks` blocks (an object of
`memory_blocks * 1024` bytes) and whose context has `clear_memory` set, `finalize` zeroes
all `memory_blocks * 1024` bytes of the matrix before releasing it: the buffer handed to
`free_cbk` (when present, else to `free`) contains only zero bytes, and the release is the
last call made; when `clear_memory` is not set the matrix is handed over unchanged. -/
theorem finalize_clear_memory (E : Collaborators) (context : Argon2_Context)
    (inst : Argon2_instance_t) (memory : List block)
    (hm : inst.memory = some memory) (hlen : memory.length = inst.memory_blocks)
    (hsize : ARGON2_BLOCK_SIZE * inst.memory_blocks ≤ E.size_max) :
    ∃ released,
      (finalize E (some context) (some inst)).2.2
          = (if context.print then [Event.print_tag] else [])
            ++ [match context.free_cbk with
                | some _ =>
                  Event.free_cbk (some released) (inst.memory_blocks * ARGON2_BLOCK_SIZE)
                | none => Event.free released]
        ∧ (context.clear_memory = true →
            released.length = inst.memory_blocks
              ∧ ∀ b ∈ released, block_bytes b = List.replicate ARGON2_BLOCK_SIZE 0)
        ∧ (context.clear_memory = false → released = memory) := by
  have hs : size_t E (inst.memory_blocks * ARGON2_BLOCK_SIZE)
      = inst.memory_blocks * ARGON2_BLOCK_SIZE := by
    unfold size_t
    exact Nat.mod_eq_of_lt (by rw [Nat.mul_comm]; omega)
  cases hc : context.clear_memory with
  | true =>
    refine ⟨List.replicate inst.memory_blocks { v := List.replicate 128 0 }, ?_, ?_, ?_⟩
    · simp only [finalize, hc, clear_memory_set E inst memory hm hlen hsize, hs]
      cases context.free_cbk <;> simp [free_memory]
    · intro _
      refine ⟨List.length_replicate _ _, ?_⟩
      intro b hb
      rw [List.eq_of_mem_replicate hb]
      exact block_bytes_zero
    · intro h
      exact absurd h (by decide)
  | false =>
    refine ⟨memory, ?_, ?_, ?_⟩
    · simp only [finalize, hc, clear_memory_unset, hs, hm]
      cases context.free_cbk <;> simp [free_memory]
    · intro h
      exact absurd h (by decide)
    · intro _
      rfl

theorem small_instance_memory :
    small_instance.memory = some (List.replicate 2 { v := List.replicate 128 1 }) := rfl

/-- Witness of C11: a matrix of two all-one blocks and a context with `clear_memory` and
a release callback. -/
theorem finalize_clear_memory_witness :
    ∃ released,
      (finalize example_collaborators
          (some { large_context with clear_memory := true }) (some small_instance)).2.2
          = [Event.free_cbk (some released) 2048]
        ∧ released.length = 2
        ∧ ∀ b ∈ released, block_bytes b = List.replicate ARGON2_BLOCK_SIZE 0 :=
  match finalize_clear_memory example_collaborators { large_context with clear_memory := true }
      small_instance (List.replicate 2 { v := List.replicate 128 1 }) small_instance_memory
      (by decide) (by decide) with
  | ⟨released, h1, h2, _⟩ => ⟨released, h1, (h2 rfl).1, (h2 rfl).2⟩

/-! ### The finalizer -/

theorem store64_length (w : Nat) : (store64 w).length = 8 := by
  simp [store64]

theorem block_bytes_length (b : block) : (block_bytes b).length = 8 * b.v.length := by
  unfold block_bytes
  induction b.v with
  | nil => rfl
  | cons w ws ih =>
    rw [List.foldr_cons, List.length_append, ih, store64_length, List.length_cons]
    omega

theorem getD_map_range (f : Nat → Nat) (n i : Nat) (h : i < n) :
    ((List.range n).map f).getD i 0 = f i := by
  simp [List.getElem?_range h]

theorem xor_block_map (f : Nat → Nat) (src : block) :
    xor_block { v := (List.range ARGON2_WORDS_IN_BLOCK).map f } src
      = ({ v := (List.range ARGON2_WORDS_IN_BLOCK).map
                  (fun i => Nat.xor (f i) (src.v.getD i 0)) } : block) := by
  unfold xor_block
  rw [block.mk.injEq]
  apply List.map_congr_left
  intro i hi
  rw [getD_map_range f _ i (List.mem_range.mp hi)]

theorem copy_block_words (b : block) (hb : b.v.length = ARGON2_WORDS_IN_BLOCK) :
    (copy_block b).v = (List.range ARGON2_WORDS_IN_BLOCK).map (fun i => b.v.getD i 0) := by
  unfold copy_block
  apply List.ext_getElem
  · simp [hb]
  · intro i h1 h2
    simp only [List.length_take, hb, min_self] at h1
    simp [List.getElem?_eq_getElem (show i < b.v.length by omega)]

theorem last_block_index (inst : Argon2_instance_t) (l : Nat) (hl : l < inst.lanes)
    (hL : 1 ≤ inst.lane_length) (hlt : inst.lanes * inst.lane_length < 2 ^ 32) :
    u32 (u32 (l * inst.lane_length) + sub32 inst.lane_length 1)
      = l * inst.lane_length + (inst.lane_length - 1) := by
  have h1 : (l + 1) * inst.lane_length ≤ inst.lanes * inst.lane_length :=
    Nat.mul_le_mul_right _ hl
  rw [Nat.succ_mul] at h1
  unfold u32 sub32
  generalize l * inst.lane_length = a at *
  generalize inst.lanes * inst.lane_length = t at *
  omega

/-- The accumulator of `finalize` after the lanes `1 .. k` have been folded in. -/
theorem finalize_fold (inst : Argon2_instance_t) (memory : List block)
    (hv : ValidInstance inst memory) (k : Nat) (hk : k + 1 ≤ inst.lanes) :
    (List.range' 1 k).foldl
        (fun blockhash l =>
          xor_block blockhash (memory_block inst.memory
            (u32 (u32 (l * inst.lane_length) + sub32 inst.lane_length 1))))
        (copy_block (memory_block inst.memory (inst.lane_length - 1)))
      = ({ v := (List.range ARGON2_WORDS_IN_BLOCK).map (fun i =>
                  ((List.range (k + 1)).map
                    (fun l => (spec_last_block inst l).v.getD i 0)).foldl Nat.xor 0) }
          : block) := by
  have hlt : inst.lanes * inst.lane_length < 2 ^ 32 := by
    rw [← hv.blocks_eq]; exact hv.blocks_lt
  induction k with
  | zero =>
    have hmem : memory_block inst.memory (inst.lane_length - 1) ∈ memory := by
      unfold memory_block
      rw [hv.memory_eq]
      have hlen : inst.lane_length - 1 < memory.length := by
        rw [hv.memory_length, hv.blocks_eq]
        have := hv.lane_length_pos
        have := hv.lanes_pos
        calc inst.lane_length - 1 < 1 * inst.lane_length := by omega
          _ ≤ inst.lanes * inst.lane_length := Nat.mul_le_mul_right _ hv.lanes_pos
      simp only [List.getD_eq_getElem?_getD, List.getElem?_eq_getElem hlen, Option.getD_some]
      exact List.getElem_mem hlen
    have hw := copy_block_words _ (hv.block_words _ hmem)
    simp only [List.range'_zero, List.foldl_nil]
    have e : copy_block (memory_block inst.memory (inst.lane_length - 1))
        = { v := (copy_block (memory_block inst.memory (inst.lane_length - 1))).v } := rfl
    rw [e, hw, block.mk.injEq]
    apply List.map_congr_left
    intro i _
    simp only [List.range_succ, List.range_zero, List.nil_append, List.map_cons, List.map_nil,
      List.foldl_cons, List.foldl_nil, spec_last_block, Nat.zero_mul, Nat.zero_add]
    exact (Nat.zero_xor _).symm
  | succ k ih =>
    rw [List.range'_1_concat, List.foldl_append, ih (by omega)]
    simp only [List.foldl_cons, List.foldl_nil]
    rw [xor_block_map, last_block_index inst (1 + k) (by omega) hv.lane_length_pos hlt,
      block.mk.injEq]
    apply List.map_congr_left
    intro i _
    rw [List.range_succ (k + 1), List.map_append, List.foldl_append]
    simp only [List.map_cons, List.map_nil, List.foldl_cons, List.foldl_nil, spec_last_block]
    rw [Nat.add_comm 1 k]

theorem finalize_blockhash_eq (inst : Argon2_instance_t) (memory : List block)
    (hv : ValidInstance inst memory) :
    finalize_blockhash inst = spec_xor_last_blocks inst := by
  unfold finalize_blockhash spec_xor_last_blocks
  have h := finalize_fold inst memory hv (inst.lanes - 1) (by have := hv.lanes_pos; omega)
  rw [Nat.sub_add_cancel hv.lanes_pos] at h
  exact h

theorem last_block_mem (inst : Argon2_instance_t) (memory : List block)
    (hv : ValidInstance inst memory) :
    memory_block inst.memory (inst.lane_length - 1) ∈ memory := by
  unfold memory_block
  rw [hv.memory_eq]
  have hlen : inst.lane_length - 1 < memory.length := by
    rw [hv.memory_length, hv.blocks_eq]
    have := hv.lane_length_pos
    calc inst.lane_length - 1 < 1 * inst.lane_length := by omega
      _ ≤ inst.lanes * inst.lane_length := Nat.mul_le_mul_right _ hv.lanes_pos
  simp only [List.getD_eq_getElem?_getD, List.getElem?_eq_getElem hlen, Option.getD_some]
  exact List.getElem_mem hlen

/-- C14: for every valid instance, the tag that `finalize` writes to `out` is the
variable-length hash `blake2b_long`, with output length `outlen`, of the 1024-byte block
obtained by XOR-ing word by word the last block (column `lane_length - 1`) of every lane
`0 .. lanes - 1`; with `lanes = 1` it is the hash of the last block of lane 0 alone.  The
pointer `out` is kept; the memory after the call is the memory before it with the tag
written from address `out` on, and the tag is what is read back there. -/
theorem finalize_tag (E : Collaborators) (context : Argon2_Context)
    (inst : Argon2_instance_t) (memory : List block) (hv : ValidInstance inst memory) :
    (∃ c, (finalize E (some context) (some inst)).1 = some c
        ∧ c.out = context.out
        ∧ ∀ out, context.out = some out →
            c.bytes = store_bytes context.bytes out
                ((E.blake2b_long context.outlen
                  (block_bytes (spec_xor_last_blocks inst))).take context.outlen)
              ∧ read_bytes c.bytes out
                  ((E.blake2b_long context.outlen
                    (block_bytes (spec_xor_last_blocks inst))).take context.outlen).length
                = (E.blake2b_long context.outlen
                    (block_bytes (spec_xor_last_blocks inst))).take context.outlen)
      ∧ (block_bytes (spec_xor_last_blocks inst)).length = ARGON2_BLOCK_SIZE
      ∧ (inst.lanes = 1 →
          spec_xor_last_blocks inst = memory_block inst.memory (inst.lane_length - 1)) := by
  have hlen : (block_bytes (spec_xor_last_blocks inst)).length = ARGON2_BLOCK_SIZE := by
    rw [block_bytes_length]
    simp [spec_xor_last_blocks, ARGON2_WORDS_IN_BLOCK, ARGON2_BLOCK_SIZE]
  refine ⟨?_, hlen, ?_⟩
  · refine ⟨_, rfl, rfl, ?_⟩
    intro out h
    simp only [h, finalize_blockhash_eq inst memory hv]
    rw [List.take_of_length_le (le_of_eq hlen)]
    exact ⟨rfl, read_store_bytes _ _ _⟩
  · intro h1
    rw [← finalize_blockhash_eq inst memory hv]
    unfold finalize_blockhash
    rw [h1]
    simp only [Nat.sub_self, List.range'_zero, List.foldl_nil]
    have hw := hv.block_words _ (last_block_mem inst memory hv)
    unfold copy_block
    rw [List.take_of_length_le (le_of_eq hw)]

theorem two_lane_instance_valid :
    ValidInstance two_lane_instance [{ v := List.replicate 128 1 }, { v := List.replicate 128 2 },
      { v := List.replicate 128 3 }, { v := List.replicate 128 4 }] where
  lanes_pos := by decide
  lane_length_pos := by decide
  blocks_eq := by decide
  blocks_lt := by decide
  memory_eq := rfl
  memory_length := rfl
  block_words := by
    intro b hb
    simp only [List.mem_cons, List.mem_singleton, List.not_mem_nil, or_false] at hb
    rcases hb with rfl | rfl | rfl | rfl <;> simp [ARGON2_WORDS_IN_BLOCK, ARGON2_BLOCK_SIZE]

/-- Witness of C14: two lanes of two columns; the last blocks are the all-2 block and the
all-4 block, whose exclusive or is folded into the tag, written at address 500. -/
theorem finalize_tag_witness :
    ∃ c, (finalize example_collaborators (some kat_context) (some two_lane_instance)).1 = some c
      ∧ c.out = some 500
      ∧ read_bytes c.bytes 500
          ((example_collaborators.blake2b_long kat_context.outlen
            (block_bytes (spec_xor_last_blocks two_lane_instance))).take
              kat_context.outlen).length
        = (example_collaborators.blake2b_long kat_context.outlen
            (block_bytes (spec_xor_last_blocks two_lane_instance))).take kat_context.outlen :=
  match (finalize_tag example_collaborators kat_context two_lane_instance _
    two_lane_instance_valid).1 with
  | ⟨c, h1, h2, h3⟩ => ⟨c, h1, h2, (h3 500 rfl).2⟩

/-! ### The first blocks -/

theorem fill_first_blocks_eq_foldl (E : Collaborators) (blockhash : List Nat)
    (inst : Argon2_instance_t) :
    fill_first_blocks E blockhash inst
      = (List.range inst.lanes).foldl (fill_first_blocks_lane E) (blockhash, inst) := rfl

theorem write_bytes_counter (H0 x y d : List Nat) (hH : H0.length = 64) (hx : x.length = 4)
    (hd : d.length = 4) :
    write_bytes (H0 ++ x ++ y) 64 d = H0 ++ d ++ y := by
  unfold write_bytes
  have e1 : (H0 ++ x ++ y).take 64 = H0 := by
    rw [List.append_assoc, List.take_left' hH]
  have e2 : (H0 ++ x ++ y).drop (64 + d.length) = y := by
    rw [hd, List.drop_left' (by rw [List.length_append, hH, hx])]
  rw [e1, e2]

theorem write_bytes_lane (H0 x y d : List Nat) (hH : H0.length = 64) (hx : x.length = 4)
    (hy : y.length = 4) (hd : d.length = 4) :
    write_bytes (H0 ++ x ++ y) 68 d = H0 ++ x ++ d := by
  unfold write_bytes
  have e1 : (H0 ++ x ++ y).take 68 = H0 ++ x :=
    List.take_left' (by rw [List.length_append, hH, hx])
  have e2 : (H0 ++ x ++ y).drop (68 + d.length) = [] :=
    List.drop_of_length_le (by simp [hH, hx, hy, hd])
  rw [e1, e2, List.append_nil]

theorem seed_take (H0 x y : List Nat) (hH : H0.length = 64) (hx : x.length = 4)
    (hy : y.length = 4) : (H0 ++ x ++ y).take 72 = H0 ++ x ++ y :=
  List.take_of_length_le (by simp [hH, hx, hy])

/-- One iteration of the loop of `fill_first_blocks`, for a seed buffer that holds `H0`
and a lane whose first two indices do not wrap around. -/
theorem fill_first_blocks_lane_eq (E : Collaborators) (H0 x y : List Nat)
    (inst : Argon2_instance_t) (memory : List block) (l : Nat)
    (hH : H0.length = 64) (hx : x.length = 4) (hy : y.length = 4)
    (hl : l * inst.lane_length + 1 < 2 ^ 32) :
    fill_first_blocks_lane E (H0 ++ x ++ y, { inst with memory := some memory }) l
      = (H0 ++ store32 1 ++ store32 l,
          { inst with
            memory := some ((memory.set (l * inst.lane_length) (spec_first_block E H0 0 l)).set
                              (l * inst.lane_length + 1) (spec_first_block E H0 1 l)) }) := by
  have e0 : u32 (l * inst.lane_length) = l * inst.lane_length := by
    unfold u32; omega
  have e1 : u32 (l * inst.lane_length + 1) = l * inst.lane_length + 1 := by
    unfold u32; omega
  simp only [fill_first_blocks_lane, ARGON2_PREHASH_DIGEST_LENGTH, ARGON2_PREHASH_SEED_LENGTH,
    ARGON2_BLOCK_SIZE, Nat.reduceAdd, Option.map_some', e0, e1,
    write_bytes_counter H0 x y (store32 0) hH hx rfl,
    write_bytes_lane H0 (store32 0) y (store32 l) hH rfl hy rfl,
    write_bytes_counter H0 (store32 0) (store32 l) (store32 1) hH rfl rfl,
    seed_take H0 (store32 0) (store32 l) hH rfl rfl,
    seed_take H0 (store32 1) (store32 l) hH rfl rfl, spec_first_block]

theorem lane_index_lt (L l k : Nat) (hlk : l < k) : l * L + L ≤ k * L := by
  have h : (l + 1) * L ≤ k * L := Nat.mul_le_mul_right _ hlk
  rw [Nat.succ_mul] at h
  exact h

/-- The state of the loop of `fill_first_blocks` after the lanes `0 .. k - 1`. -/
theorem fill_first_blocks_prefix (E : Collaborators) (H0 : List Nat)
    (inst : Argon2_instance_t) (memory : List block) (hH : H0.length = 64)
    (hL : 2 ≤ inst.lane_length) (hlen : memory.length = inst.lanes * inst.lane_length)
    (hlt : inst.lanes * inst.lane_length < 2 ^ 32) (k : Nat) (hk : k ≤ inst.lanes) :
    ∃ x y filled, x.length = 4 ∧ y.length = 4
      ∧ (List.range k).foldl (fill_first_blocks_lane E)
          (H0 ++ List.replicate 4 0 ++ List.replicate 4 0, { inst with memory := some memory })
        = (H0 ++ x ++ y, { inst with memory := some filled })
      ∧ filled.length = memory.length
      ∧ (∀ l, l < k → ∀ i, i < 2 →
          filled[l * inst.lane_length + i]? = some (spec_first_block E H0 i l))
      ∧ (∀ j, (∀ l, l < k → j ≠ l * inst.lane_length ∧ j ≠ l * inst.lane_length + 1) →
          filled[j]? = memory[j]?) := by
  induction k with
  | zero =>
    refine ⟨List.replicate 4 0, List.replicate 4 0, memory, rfl, rfl, rfl, rfl, ?_, ?_⟩
    · intro l hl
      exact absurd hl (Nat.not_lt_zero l)
    · intro j _
      rfl
  | succ k ih =>
    obtain ⟨x, y, filled, hx, hy, hfold, hflen, hset, hframe⟩ := ih (by omega)
    have hkL := lane_index_lt inst.lane_length k inst.lanes (by omega)
    have hidx : k * inst.lane_length + 1 < 2 ^ 32 := by omega
    refine ⟨store32 1, store32 k,
      (filled.set (k * inst.lane_length) (spec_first_block E H0 0 k)).set
        (k * inst.lane_length + 1) (spec_first_block E H0 1 k), rfl, rfl, ?_, ?_, ?_, ?_⟩
    · rw [List.range_succ, List.foldl_append, hfold]
      simp only [List.foldl_cons, List.foldl_nil]
      exact fill_first_blocks_lane_eq E H0 x y inst filled k hH hx hy hidx
    · simp [hflen]
    · intro l hl i hi
      rw [List.getElem?_set, List.getElem?_set]
      by_cases hlk : l = k
      · subst hlk
        have hi01 : i = 0 ∨ i = 1 := by omega
        rcases hi01 with rfl | rfl
        · simp only [Nat.add_zero]
          rw [if_neg (by omega), if_pos trivial, if_pos (by rw [hflen, hlen]; omega)]
        · rw [if_pos rfl, if_pos (by rw [List.length_set, hflen, hlen]; omega)]
      · have hl' : l < k := by omega
        have h1 := lane_index_lt inst.lane_length l k hl'
        rw [if_neg (by omega), if_neg (by omega)]
        exact hset l hl' i hi
    · intro j hj
      have hjk := hj k (by omega)
      rw [List.getElem?_set, List.getElem?_set, if_neg (fun e => hjk.2 e.symm),
        if_neg (fun e => hjk.1 e.symm)]
      exact hframe j (fun l hl => hj l (by omega))

/-- C19: for every instance with `lanes ≥ 1` and `lane_length ≥ 2` whose matrix holds
`lanes * lane_length` blocks (a `uint32_t` count), and every 64-byte prehash `H0` followed
by the 8 zeroed seed bytes, after `fill_first_blocks` the block at index
`l * lane_length + i` of the matrix equals `blake2b_long(H0 || LE32(i) || LE32(l), 1024)`
for every lane `l < lanes` and `i` in `{0, 1}` (the block counter first, the lane number
second), and every other block of the matrix is unchanged. -/
theorem fill_first_blocks_spec (E : Collaborators) (H0 : List Nat)
    (inst : Argon2_instance_t) (memory : List block) (hH : H0.length = 64)
    (hlanes : 1 ≤ inst.lanes) (hL : 2 ≤ inst.lane_length) (hm : inst.memory = some memory)
    (hlen : memory.length = inst.lanes * inst.lane_length)
    (hlt : inst.lanes * inst.lane_length < 2 ^ 32) :
    ∃ filled,
      (fill_first_blocks E (H0 ++ List.replicate 8 0) inst).2
          = { inst with memory := some filled }
        ∧ filled.length = memory.length
        ∧ (∀ l, l < inst.lanes → ∀ i, i < 2 →
            filled[l * inst.lane_length + i]?
              = some (bytes_block (E.blake2b_long 1024 (H0 ++ store32 i ++ store32 l))))
        ∧ (∀ j, (∀ l, l < inst.lanes →
              j ≠ l * inst.lane_length ∧ j ≠ l * inst.lane_length + 1) →
            filled[j]? = memory[j]?) := by
  obtain ⟨x, y, filled, -, -, hfold, hflen, hset, hframe⟩ :=
    fill_first_blocks_prefix E H0 inst memory hH hL hlen hlt inst.lanes (le_refl _)
  have hinst : inst = { inst with memory := some memory } := by
    cases inst
    simp only at hm
    subst hm
    rfl
  have hseed : H0 ++ List.replicate 8 0 = H0 ++ List.replicate 4 0 ++ List.replicate 4 0 := by
    rw [List.append_assoc, ← List.replicate_add]
  refine ⟨filled, ?_, hflen, hset, hframe⟩
  rw [fill_first_blocks_eq_foldl, hseed]
  have h2 : (List.range inst.lanes).foldl (fill_first_blocks_lane E)
      (H0 ++ List.replicate 4 0 ++ List.replicate 4 0, inst)
      = (H0 ++ x ++ y, { inst with memory := some filled }) := by
    rw [← hfold]
    congr 2
  rw [h2]

theorem two_lane_instance_memory :
    two_lane_instance.memory = some [{ v := List.replicate 128 1 }, { v := List.replicate 128 2 },
      { v := List.replicate 128 3 }, { v := List.replicate 128 4 }] := rfl

/-- Witness of C19: two lanes of two columns and the all-zero prehash; the blocks 0 and 1
of lane 1 are at the indices 2 and 3. -/
theorem fill_first_blocks_spec_witness :
    ∃ filled,
      (fill_first_blocks example_collaborators (List.replicate 64 0 ++ List.replicate 8 0)
          two_lane_instance).2 = { two_lane_instance with memory := some filled }
        ∧ filled.length = 4
        ∧ filled[1 * two_lane_instance.lane_length + 0]?
            = some (bytes_block (example_collaborators.blake2b_long 1024
                (List.replicate 64 0 ++ store32 0 ++ store32 1))) :=
  match fill_first_blocks_spec example_collaborators (List.replicate 64 0) two_lane_instance _
      rfl (by decide) (by decide) two_lane_instance_memory rfl (by decide) with
  | ⟨filled, h1, h2, h3, _⟩ => ⟨filled, h1, h2, h3 1 (by decide) 0 (by decide)⟩

/-! ### Workers in flight within one slice -/

theorem fill_slice_create_eq_foldl (E : Collaborators) (r s : Nat) (inst : Argon2_instance_t) :
    fill_slice_create E r s inst
      = (List.range inst.lanes).foldl (fill_slice_create_lane E r s) (inst, []) := rfl

/-- The calls of the creation loop after the lanes `0 .. k - 1`; the loop changes no field
of the instance but the matrix. -/
theorem fill_slice_create_events (E : Collaborators) (r s : Nat) (inst : Argon2_instance_t)
    (k : Nat) (hk : k ≤ 2 ^ 32) :
    ((List.range k).foldl (fill_slice_create_lane E r s) (inst, [])).2
        = create_events r s inst.threads k
      ∧ ((List.range k).foldl (fill_slice_create_lane E r s) (inst, [])).1.threads
        = inst.threads
      ∧ ((List.range k).foldl (fill_slice_create_lane E r s) (inst, [])).1.lanes
        = inst.lanes := by
  induction k with
  | zero => exact ⟨rfl, rfl, rfl⟩
  | succ k ih =>
    obtain ⟨h1, h2, h3⟩ := ih (by omega)
    rw [List.range_succ, List.foldl_append]
    simp only [List.foldl_cons, List.foldl_nil]
    refine ⟨?_, h2, h3⟩
    simp only [fill_slice_create_lane, create_events, h1, h2]
    by_cases hkt : k ≥ inst.threads
    · have e : sub32 k inst.threads = k - inst.threads := by
        unfold sub32
        omega
      simp only [hkt, if_true, e]
    · simp only [hkt, if_false]

theorem filter_range_ge (k m : Nat) :
    (List.range k).filter (fun l => decide (m ≤ l)) = List.range' m (k - m) := by
  induction k with
  | zero => simp
  | succ k ih =>
    rw [List.range_succ, List.filter_append, ih]
    by_cases h : m ≤ k
    · have e : k + 1 - m = (k - m) + 1 := by omega
      rw [e, List.range'_1_concat]
      have e2 : m + (k - m) = k := by omega
      simp [h, e2]
    · have e : k + 1 - m = 0 := by omega
      have e2 : k - m = 0 := by omega
      simp [h, e, e2]

theorem created_lanes_concat_create (trace : List Event) (position : Argon2_position_t) :
    created_lanes (trace ++ [Event.pthread_create position])
      = created_lanes trace ++ [position.lane] := by
  simp [created_lanes]

theorem created_lanes_concat_join (trace : List Event) (thread : Nat) :
    created_lanes (trace ++ [Event.pthread_join thread]) = created_lanes trace := by
  simp [created_lanes]

theorem joined_threads_concat_create (trace : List Event) (position : Argon2_position_t) :
    joined_threads (trace ++ [Event.pthread_create position]) = joined_threads trace := by
  simp [joined_threads]

theorem joined_threads_concat_join (trace : List Event) (thread : Nat) :
    joined_threads (trace ++ [Event.pthread_join thread]) = joined_threads trace ++ [thread] := by
  simp [joined_threads]

/-- The workers in flight when the lanes `0 .. k - 1` have been created and the threads
`0 .. m - 1` joined. -/
theorem in_flight_eq (trace : List Event) (k m : Nat)
    (hc : created_lanes trace = List.range k)
    (hj : ∀ x, x ∈ joined_threads trace ↔ x < m) :
    in_flight trace = List.range' m (k - m) := by
  unfold in_flight
  rw [hc, ← filter_range_ge]
  apply List.filter_congr
  intro x _
  simp only [decide_eq_decide, hj]
  omega

theorem take_concat_cases (trace : List Event) (e : Event) (n : Nat) :
    (trace ++ [e]).take n = trace.take n ∨ (trace ++ [e]).take n = trace ++ [e] := by
  by_cases h : n ≤ trace.length
  · left
    exact List.take_append_of_le_length h
  · right
    exact List.take_of_length_le (by simp; omega)

theorem getElem?_concat_cases (events : List Event) (e x : Event) (n : Nat)
    (h : (events ++ [e])[n]? = some x) :
    events[n]? = some x ∨ (n = events.length ∧ x = e) := by
  by_cases hn : n < events.length
  · left
    rw [List.getElem?_append_left hn] at h
    exact h
  · right
    rw [List.getElem?_append_right (by omega)] at h
    by_cases hz : n - events.length = 0
    · rw [hz] at h
      simp only [List.getElem?_cons_zero, Option.some.injEq] at h
      exact ⟨by omega, h.symm⟩
    · obtain ⟨j, hj⟩ := Nat.exists_eq_succ_of_ne_zero hz
      rw [hj] at h
      simp at h

theorem in_flight_nil : in_flight [] = [] := rfl

theorem workerCap_nil (threads : Nat) : WorkerCap threads [] := by
  constructor
  · intro n
    simp [in_flight_nil]
  · intro n position h
    simp at h

/-- Appending one call keeps the cap when the count is right after it and, for the creation
of a lane past the cap, the call before it is the join of the oldest worker in flight. -/
theorem workerCap_concat (threads : Nat) (events : List Event) (e : Event)
    (h : WorkerCap threads events)
    (hcount : (in_flight (events ++ [e])).length ≤ threads)
    (hcreate : ∀ position, e = Event.pthread_create position → threads ≤ position.lane →
      ∃ q, events = q ++ [Event.pthread_join (position.lane - threads)]
        ∧ (in_flight q).head? = some (position.lane - threads)
        ∧ in_flight q = List.range' (position.lane - threads) threads) :
    WorkerCap threads (events ++ [e]) := by
  constructor
  · intro n
    rcases take_concat_cases events e n with h1 | h1
    · rw [h1]
      exact h.1 n
    · rw [h1]
      exact hcount
  · intro n position hn hge
    rcases getElem?_concat_cases events e _ n hn with h1 | ⟨h1, h2⟩
    · obtain ⟨m, hm0, hm1, hm2, hm3⟩ := h.2 n position h1 hge
      have hlt : m < events.length := by
        by_contra hc
        rw [List.getElem?_eq_none (by omega)] at hm1
        exact Option.noConfusion hm1
      refine ⟨m, hm0, ?_, ?_, ?_⟩
      · rw [List.getElem?_append_left hlt]
        exact hm1
      · rw [List.take_append_of_le_length (by omega)]
        exact hm2
      · rw [List.take_append_of_le_length (by omega)]
        exact hm3
    · obtain ⟨q, hq, hh, hr⟩ := hcreate position h2.symm hge
      subst hq
      refine ⟨q.length, ?_, ?_, ?_, ?_⟩
      · rw [h1]
        simp
      · rw [List.append_assoc, List.getElem?_append_right (le_refl _)]
        simp
      · rw [List.append_assoc, List.take_left' rfl]
        exact hh
      · rw [List.append_assoc, List.take_left' rfl]
        exact hr

theorem head_range' (a n : Nat) (h : 1 ≤ n) : (List.range' a n).head? = some a := by
  obtain ⟨t, rfl⟩ : ∃ t, n = t + 1 := ⟨n - 1, by omega⟩
  rfl

/-- The creation loop keeps the cap: after the lanes `0 .. k - 1` the lanes created are
`0 .. k - 1` and the threads joined are `0 .. k - threads - 1`. -/
theorem create_events_cap (r s threads : Nat) (ht : 1 ≤ threads) (k : Nat) :
    WorkerCap threads (create_events r s threads k)
      ∧ created_lanes (create_events r s threads k) = List.range k
      ∧ (∀ x, x ∈ joined_threads (create_events r s threads k) ↔ x < k - threads) := by
  induction k with
  | zero =>
    refine ⟨workerCap_nil threads, rfl, ?_⟩
    intro x
    simp [create_events, joined_threads]
  | succ k ih =>
    obtain ⟨hcap, hc, hj⟩ := ih
    by_cases hkt : k ≥ threads
    · have hev : create_events r s threads (k + 1)
          = (create_events r s threads k ++ [Event.pthread_join (k - threads)])
            ++ [Event.pthread_create { pass := r, lane := k, slice := s, index := 0 }] := by
        simp only [create_events, hkt, if_true]
      have hc1 : created_lanes (create_events r s threads k
          ++ [Event.pthread_join (k - threads)]) = List.range k := by
        rw [created_lanes_concat_join, hc]
      have hj1 : ∀ x, x ∈ joined_threads (create_events r s threads k
          ++ [Event.pthread_join (k - threads)]) ↔ x < k - threads + 1 := by
        intro x
        rw [joined_threads_concat_join, List.mem_append, hj, List.mem_singleton]
        omega
      have hcap1 : WorkerCap threads (create_events r s threads k
          ++ [Event.pthread_join (k - threads)]) := by
        apply workerCap_concat threads _ _ hcap
        · rw [in_flight_eq _ k (k - threads + 1) hc1 hj1, List.length_range']
          omega
        · intro position hp
          exact Event.noConfusion hp
      have hc2 : created_lanes (create_events r s threads (k + 1)) = List.range (k + 1) := by
        rw [hev, created_lanes_concat_create, hc1, List.range_succ]
      have hj2 : ∀ x, x ∈ joined_threads (create_events r s threads (k + 1))
          ↔ x < k + 1 - threads := by
        intro x
        rw [hev, joined_threads_concat_create, hj1]
        omega
      refine ⟨?_, hc2, hj2⟩
      rw [hev]
      apply workerCap_concat threads _ _ hcap1
      · rw [← hev, in_flight_eq _ (k + 1) (k + 1 - threads) hc2 hj2, List.length_range']
        omega
      · intro position hp _
        have hlane : position.lane = k := by
          simp only [Event.pthread_create.injEq] at hp
          rw [← hp]
        refine ⟨create_events r s threads k, by rw [hlane], ?_, ?_⟩
        · rw [in_flight_eq _ k (k - threads) hc hj, hlane]
          exact head_range' _ _ (by omega)
        · rw [in_flight_eq _ k (k - threads) hc hj, hlane]
          congr 1
          omega
    · have hev : create_events r s threads (k + 1)
          = create_events r s threads k
            ++ [Event.pthread_create { pass := r, lane := k, slice := s, index := 0 }] := by
        simp only [create_events, hkt, if_false, List.append_nil]
      have hc2 : created_lanes (create_events r s threads (k + 1)) = List.range (k + 1) := by
        rw [hev, created_lanes_concat_create, hc, List.range_succ]
      have hj2 : ∀ x, x ∈ joined_threads (create_events r s threads (k + 1))
          ↔ x < k + 1 - threads := by
        intro x
        rw [hev, joined_threads_concat_create, hj]
        omega
      refine ⟨?_, hc2, hj2⟩
      rw [hev]
      apply workerCap_concat threads _ _ hcap
      · rw [← hev, in_flight_eq _ (k + 1) (k + 1 - threads) hc2 hj2, List.length_range']
        omega
      · intro position hp hge
        have hlane : position.lane = k := by
          simp only [Event.pthread_create.injEq] at hp
          rw [← hp]
        omega

/-- The loop that joins the remaining workers keeps the cap: after `j` of its joins the
threads joined are `0 .. lanes - threads + j - 1`. -/
theorem join_events_cap (threads lanes : Nat) (events : List Event)
    (hcap : WorkerCap threads events) (hc : created_lanes events = List.range lanes)
    (hj : ∀ x, x ∈ joined_threads events ↔ x < lanes - threads) (hle : threads ≤ lanes)
    (j : Nat) (hjt : j ≤ threads) :
    WorkerCap threads
        (events ++ (List.range' (lanes - threads) j).map Event.pthread_join)
      ∧ created_lanes (events ++ (List.range' (lanes - threads) j).map Event.pthread_join)
          = List.range lanes
      ∧ (∀ x, x ∈ joined_threads
            (events ++ (List.range' (lanes - threads) j).map Event.pthread_join)
          ↔ x < lanes - threads + j) := by
  induction j with
  | zero =>
    simp only [List.range'_zero, List.map_nil, List.append_nil, Nat.add_zero]
    exact ⟨hcap, hc, hj⟩
  | succ j ih =>
    obtain ⟨hcap1, hc1, hj1⟩ := ih (by omega)
    have hev : events ++ (List.range' (lanes - threads) (j + 1)).map Event.pthread_join
        = (events ++ (List.range' (lanes - threads) j).map Event.pthread_join)
          ++ [Event.pthread_join (lanes - threads + j)] := by
      rw [List.range'_1_concat, List.map_append, List.append_assoc]
      rfl
    have hc2 : created_lanes
        (events ++ (List.range' (lanes - threads) (j + 1)).map Event.pthread_join)
        = List.range lanes := by
      rw [hev, created_lanes_concat_join, hc1]
    have hj2 : ∀ x, x ∈ joined_threads
        (events ++ (List.range' (lanes - threads) (j + 1)).map Event.pthread_join)
        ↔ x < lanes - threads + (j + 1) := by
      intro x
      rw [hev, joined_threads_concat_join, List.mem_append, hj1, List.mem_singleton]
      omega
    refine ⟨?_, hc2, hj2⟩
    rw [hev]
    apply workerCap_concat threads _ _ hcap1
    · rw [← hev, in_flight_eq _ lanes (lanes - threads + (j + 1)) hc2 hj2, List.length_range']
      omega
    · intro position hp
      exact Event.noConfusion hp

/-- The calls of one iteration of the loop over the slices. -/
theorem fill_slice_events (E : Collaborators) (r s : Nat) (inst : Argon2_instance_t)
    (hl32 : inst.lanes < 2 ^ 32) :
    (fill_slice E r s inst).2
      = create_events r s inst.threads inst.lanes
        ++ (List.range' (sub32 inst.lanes inst.threads)
            (inst.lanes - sub32 inst.lanes inst.threads)).map Event.pthread_join := by
  obtain ⟨h1, h2, h3⟩ := fill_slice_create_events E r s inst inst.lanes (by omega)
  simp only [fill_slice, fill_slice_join, fill_slice_create_eq_foldl, h1, h2, h3]

/-- The create/join sequence of one iteration of the loop over the slices keeps the cap. -/
theorem fill_slice_cap (E : Collaborators) (r s : Nat) (inst : Argon2_instance_t)
    (ht : 1 ≤ inst.threads) (hl32 : inst.lanes < 2 ^ 32) (ht32 : inst.threads < 2 ^ 32) :
    WorkerCap inst.threads (fill_slice E r s inst).2
      ∧ created_lanes (fill_slice E r s inst).2 = List.range inst.lanes := by
  rw [fill_slice_events E r s inst hl32]
  obtain ⟨hcap, hc, hj⟩ := create_events_cap r s inst.threads ht inst.lanes
  by_cases hle : inst.threads ≤ inst.lanes
  · have e1 : sub32 inst.lanes inst.threads = inst.lanes - inst.threads := by
      unfold sub32
      omega
    have e2 : inst.lanes - (inst.lanes - inst.threads) = inst.threads := by omega
    rw [e1, e2]
    obtain ⟨h1, h2, _⟩ := join_events_cap inst.threads inst.lanes _ hcap hc hj hle
      inst.threads (le_refl _)
    exact ⟨h1, h2⟩
  · have e1 : inst.lanes - sub32 inst.lanes inst.threads = 0 := by
      unfold sub32
      omega
    rw [e1]
    simp only [List.range'_zero, List.map_nil, List.append_nil]
    exact ⟨hcap, hc⟩

/-- C21: for an instance with at least one thread (lanes and threads being `uint32_t`
values), at every point of the create/join sequence that `fill_memory_blocks` issues in one
(pass, slice) iteration, the workers created and not yet joined are at most `threads`; and
whenever a lane `l ≥ threads` is created, the call just before it joins thread
`l - threads`, which is the oldest worker in flight at that point, the workers in flight
being those of the lanes `l - threads .. l - 1`.  Every lane is created once, in order. -/
theorem fill_slice_worker_cap (E : Collaborators) (r s : Nat) (inst : Argon2_instance_t)
    (hl : 1 ≤ inst.lanes) (ht : 1 ≤ inst.threads)
    (hl32 : inst.lanes < 2 ^ 32) (ht32 : inst.threads < 2 ^ 32) :
    (∀ n, (in_flight ((fill_slice E r s inst).2.take n)).length ≤ inst.threads)
      ∧ (∀ n position,
          (fill_slice E r s inst).2[n]? = some (Event.pthread_create position) →
          inst.threads ≤ position.lane →
          ∃ m, n = m + 1
            ∧ (fill_slice E r s inst).2[m]?
                = some (Event.pthread_join (position.lane - inst.threads))
            ∧ (in_flight ((fill_slice E r s inst).2.take m)).head?
                = some (position.lane - inst.threads)
            ∧ in_flight ((fill_slice E r s inst).2.take m)
                = List.range' (position.lane - inst.threads) inst.threads)
      ∧ created_lanes (fill_slice E r s inst).2 = List.range inst.lanes
      ∧ created_lanes (fill_slice E r s inst).2 ≠ [] := by
  obtain ⟨hcap, hc⟩ := fill_slice_cap E r s inst ht hl32 ht32
  refine ⟨hcap.1, hcap.2, hc, ?_⟩
  rw [hc]
  intro h
  have := congrArg List.length h
  simp only [List.length_range, List.length_nil] at this
  omega

theorem fill_slice_worker_cap_witness :
    (1 ≤ three_lane_instance.lanes ∧ 1 ≤ three_lane_instance.threads
      ∧ three_lane_instance.lanes < 2 ^ 32 ∧ three_lane_instance.threads < 2 ^ 32)
    ∧ (fill_slice example_collaborators 0 0 three_lane_instance).2
        = [Event.pthread_create { pass := 0, lane := 0, slice := 0, index := 0 },
           Event.pthread_create { pass := 0, lane := 1, slice := 0, index := 0 },
           Event.pthread_join 0,
           Event.pthread_create { pass := 0, lane := 2, slice := 0, index := 0 },
           Event.pthread_join 1,
           Event.pthread_join 2]
    ∧ ((∀ n, (in_flight ((fill_slice example_collaborators 0 0 three_lane_instance).2.take
            n)).length ≤ three_lane_instance.threads)
      ∧ (∀ n position,
          (fill_slice example_collaborators 0 0 three_lane_instance).2[n]?
            = some (Event.pthread_create position) →
          three_lane_instance.threads ≤ position.lane →
          ∃ m, n = m + 1
            ∧ (fill_slice example_collaborators 0 0 three_lane_instance).2[m]?
                = some (Event.pthread_join (position.lane - three_lane_instance.threads))
            ∧ (in_flight ((fill_slice example_collaborators 0 0
                three_lane_instance).2.take m)).head?
                = some (position.lane - three_lane_instance.threads)
            ∧ in_flight ((fill_slice example_collaborators 0 0 three_lane_instance).2.take m)
                = List.range' (position.lane - three_lane_instance.threads)
                    three_lane_instance.threads)
      ∧ created_lanes (fill_slice example_collaborators 0 0 three_lane_instance).2
          = List.range three_lane_instance.lanes
      ∧ created_lanes (fill_slice example_collaborators 0 0 three_lane_instance).2 ≠ []) :=
  ⟨⟨by decide, by decide, by decide, by decide⟩, by decide,
    fill_slice_worker_cap example_collaborators 0 0 three_lane_instance
      (by decide) (by decide) (by decide) (by decide)⟩

end Argon2
